import Mathlib

/-!
# chap: exact-incoming iterator and long-string tagger

A shallow embedding of `src/Allocations/Iterators/ExactIncoming.h` and
`src/LongStringAllocationsTagger.h`.

Conventions
* `Offset` values, allocation indices, edge indices and tag indices are `Nat`;
  where the C++ arithmetic on `Offset` can wrap, the embedding reduces modulo
  `2 ^ (8 * sizeofOffset)` explicitly.
* Collaborators whose headers are not part of the sources at hand (Directory /
  Finder, Graph, EdgePredicate, ContiguousImage, VirtualAddressMap, TagHolder)
  are modelled at their interface.
* Code that dereferences a null pointer, aborts, or reads outside a contiguous
  image returns an error (`none` / `Except.error`).
-/

namespace chap

/-! ## Collaborators -/

/-- Allocation record of the directory: start address, byte size, used flag. -/
structure Allocation where
  address : Nat
  size : Nat
  isUsed : Bool
deriving DecidableEq, Repr

/-- Modelled from the spec: the Allocation Directory (Directory.h is not among the
sources), a dense zero-based list of allocation records. -/
structure Directory where
  allocations : List Allocation

/-- Number of allocations, which is also the sentinel index. -/
def Directory.NumAllocations (d : Directory) : Nat := d.allocations.length

/-- The record for an index; `none` stands for the null pointer. -/
def Directory.AllocationAt (d : Directory) (index : Nat) : Option Allocation :=
  d.allocations.get? index

/-- Modelled from the spec: the Contiguous Image (ContiguousImage.h is not among
the sources) once bound to an allocation: the pointer-sized-word view
`[FirstOffset, OffsetLimit)` and the byte view starting at `FirstChar`. -/
structure ContiguousImage where
  offsets : List Nat
  chars : List Nat

/-- Modelled from the spec: an Edge Predicate (EdgePredicate.h is not among the
sources), a boolean per incoming edge index. -/
structure EdgePredicate where
  ForIncoming : Nat → Bool

/-- Modelled from the spec: the Reference Graph (Graph.h is not among the sources):
the half-open incoming edge range of an allocation, the source of an incoming
edge, and the possibly absent anchor lists. -/
structure Graph where
  GetIncoming : Nat → Nat × Nat
  GetSourceForIncoming : Nat → Nat
  GetStaticAnchors : Nat → Option (List Nat)
  GetStackAnchors : Nat → Option (List Nat)

/-- Modelled from the spec: the allocation Finder used by the tagger (Finder.h is
not among the sources): the directory interface together with the allocator's
`MinRequestSize` estimate. -/
structure Finder where
  allocations : List Allocation
  MinRequestSize : Nat → Nat

/-- Number of allocations known to the finder. -/
def Finder.NumAllocations (f : Finder) : Nat := f.allocations.length

/-- The record for an index; `none` stands for the null pointer. -/
def Finder.AllocationAt (f : Finder) (index : Nat) : Option Allocation :=
  f.allocations.get? index

/-- Modelled from the spec: the Address Reader (VirtualAddressMap.h is not among
the sources).  `offsetAt` is the pointer-sized word readable at a virtual address
(`none` when the read faults); `imageByte` is the byte of the mapped image at a
virtual address. -/
structure VirtualAddressMap where
  offsetAt : Nat → Option Nat
  imageByte : Nat → Nat

/-- The method `Reader::ReadOffset(address, defaultValue)`: the word at the address, or
the caller's default when the read faults. -/
def VirtualAddressMap.ReadOffset (m : VirtualAddressMap) (address defaultValue : Nat) : Nat :=
  (m.offsetAt address).getD defaultValue

/-- One tag write asked of the tag holder: the allocation, the requested tag and
the tag the allocation had at that moment. -/
structure TagRequest where
  index : Nat
  tagIndex : Nat
  current : Nat
deriving DecidableEq, Repr

/-- Modelled from the spec: the Tag Holder (TagHolder.h is not among the sources):
the registered tag names, the allocation index → tag index mapping (0 is
"untagged"), and, as history only, the tag writes requested so far. -/
structure TagHolder where
  tagNames : List String
  tags : Nat → Nat
  requests : List TagRequest

/-- Modelled from the spec: `RegisterTag(name)` allocates a fresh non-zero index. -/
def TagHolder.RegisterTag (h : TagHolder) (name : String) : Nat × TagHolder :=
  (h.tagNames.length + 1, { h with tagNames := h.tagNames ++ [name] })

/-- Modelled from the spec: `GetTagIndex(index)`, 0 if untagged. -/
def TagHolder.GetTagIndex (h : TagHolder) (index : Nat) : Nat := h.tags index

/-- Modelled from the spec: `TagAllocation(index, tag)` sets the tag of an untagged
allocation and is a no-op on an already-tagged one (first write wins).  The
request is recorded in the history either way. -/
def TagHolder.TagAllocation (h : TagHolder) (index tagIndex : Nat) : TagHolder :=
  { h with
    tags := if h.tags index = 0 then Function.update h.tags index tagIndex else h.tags
    requests := h.requests ++ [⟨index, tagIndex, h.tags index⟩] }

/-- The phases of the tagger protocol (`Tagger::Phase`). -/
inductive Phase where
  | QUICK_INITIAL_CHECK
  | MEDIUM_CHECK
  | SLOW_CHECK
  | WEAK_CHECK
deriving DecidableEq, Repr

/-- Ways in which the embedded code leaves defined behaviour. -/
inductive Fault where
  | nullAllocation
  | outgoingOutOfRange
  | wordOutOfRange
  | charOutOfRange
  | iterationLimit
deriving DecidableEq, Repr

/-- One range of a module: `[_base, _limit)`, `_base ≤ _limit`, with its attribute flags
`_value`. -/
structure ModuleRange where
  _base : Nat
  _limit : Nat
  _value : Nat
deriving DecidableEq, Repr

/-- The flag constants of `VirtualAddressMap::RangeAttributes` used by the tagger;
their values are declared in a header that is not among the sources. -/
structure RangeAttributes where
  IS_READABLE : Nat
  IS_EXECUTABLE : Nat
  HAS_KNOWN_PERMISSIONS : Nat
  IS_MAPPED : Nat

/-- The module directory in iteration order: module path and ranges. -/
abbrev ModuleDirectory := List (String × List ModuleRange)

/-! ## ExactIncoming -/

/-- The members of an `ExactIncoming` iterator.  `_contiguousImage` maps an index
to the view obtained by `SetIndex`. -/
structure ExactIncoming where
  _directory : Directory
  _contiguousImage : Nat → ContiguousImage
  _graph : Graph
  _index : Nat
  _numAllocations : Nat
  _edgeIsTainted : EdgePredicate
  _skipTaintedReferences : Bool
  _edgeIsFavored : EdgePredicate
  _skipUnfavoredReferences : Bool
  _nextIncoming : Nat
  _pastIncoming : Nat
  _target : Nat

/-- The constructor: `_target` is the address of the target allocation (a null
record is an error) and the edge cursor is set to the incoming range. -/
def ExactIncoming.construct (directory : Directory) (graph : Graph)
    (contiguousImage : Nat → ContiguousImage) (index numAllocations : Nat)
    (edgeIsTainted : EdgePredicate) (skipTaintedReferences : Bool)
    (edgeIsFavored : EdgePredicate) (skipUnfavoredReferences : Bool) :
    Option ExactIncoming :=
  match directory.AllocationAt index with
  | none => none
  | some allocation =>
    some
      { _directory := directory
        _contiguousImage := contiguousImage
        _graph := graph
        _index := index
        _numAllocations := numAllocations
        _edgeIsTainted := edgeIsTainted
        _skipTaintedReferences := skipTaintedReferences
        _edgeIsFavored := edgeIsFavored
        _skipUnfavoredReferences := skipUnfavoredReferences
        _nextIncoming := (graph.GetIncoming index).1
        _pastIncoming := (graph.GetIncoming index).2
        _target := allocation.address }

/-- The loop of `Next`, started with the cursor at `next`.  The result is the
returned index together with the new cursor; `none` is `abort()` (or a cursor that
can no longer reach `_pastIncoming`).  The first argument bounds the number of
iterations; `Next` passes the distance to `_pastIncoming`. -/
def ExactIncoming.NextLoop (it : ExactIncoming) : Nat → Nat → Option (Nat × Nat)
  | 0, next => if next = it._pastIncoming then some (it._numAllocations, next) else none
  | fuel + 1, next =>
    if next = it._pastIncoming then some (it._numAllocations, next)
    else if it._skipTaintedReferences && it._edgeIsTainted.ForIncoming next then
      ExactIncoming.NextLoop it fuel (next + 1)
    else if it._skipUnfavoredReferences && !it._edgeIsFavored.ForIncoming next then
      ExactIncoming.NextLoop it fuel (next + 1)
    else
      let index := it._graph.GetSourceForIncoming next
      match it._directory.AllocationAt index with
      | none => none
      | some allocation =>
        if allocation.isUsed &&
            (it._contiguousImage index).offsets.any (fun nextOffset => it._target == nextOffset) then
          some (index, next + 1)
        else ExactIncoming.NextLoop it fuel (next + 1)

/-- One call of `Next`: the returned index and the iterator afterwards. -/
def ExactIncoming.Next (it : ExactIncoming) : Option (Nat × ExactIncoming) :=
  match it.NextLoop (it._pastIncoming - it._nextIncoming) it._nextIncoming with
  | none => none
  | some (index, next) => some (index, { it with _nextIncoming := next })

/-- The iterator after `n` successful calls of `Next`. -/
def ExactIncoming.afterCalls : Nat → ExactIncoming → Option ExactIncoming
  | 0, it => some it
  | n + 1, it =>
    match it.Next with
    | none => none
    | some (_, it1) => ExactIncoming.afterCalls n it1

/-- The indices returned by `n` successive calls of `Next`, in order; `none` if one
of the calls aborts. -/
def ExactIncoming.results : Nat → ExactIncoming → Option (List Nat)
  | 0, _ => some []
  | n + 1, it =>
    match it.Next with
    | none => none
    | some (index, it1) =>
      match ExactIncoming.results n it1 with
      | none => none
      | some rest => some (index :: rest)

/-- Modelled from the spec: the directory's containment search
`AllocationIndexOf(address)`: the index of the first allocation whose bytes contain
the address, or the number of allocations when there is none. -/
def Directory.AllocationIndexOf (d : Directory) (address : Nat) : Nat :=
  d.allocations.findIdx
    (fun a => decide (a.address ≤ address) && decide (address < a.address + a.size))

/-- Modelled from the spec: the command context (Commands/Runner.h is not among the
sources): the positional arguments, the result of parsing a positional as an
address (`none` when `ParsePositional` returns false) and the result of
`ParseBooleanSwitch` on a flag that was false before (`none` when it returns
false, otherwise the value of the flag afterwards). -/
structure Context where
  positionals : List String
  ParsePositional : Nat → Option Nat
  ParseBooleanSwitch : String → Option Bool

/-- The number of positional arguments. -/
def Context.GetNumPositionals (c : Context) : Nat := c.positionals.length

/-- The text of a positional argument. -/
def Context.Positional (c : Context) (index : Nat) : String := c.positionals.getD index ""

/-- Modelled from the spec: what `MakeIterator` asks of the process image
(ProcessImage.h is not among the sources): the allocation graph (`none` is the null
pointer), the tag holder's `SupportsFavoredReferences`, the contiguous images
obtained through the virtual address map, and the two edge predicates. -/
structure ProcessImage where
  GetAllocationGraph : Option Graph
  SupportsFavoredReferences : Nat → Bool
  contiguousImage : Nat → ContiguousImage
  GetEdgeIsTainted : EdgePredicate
  GetEdgeIsFavored : EdgePredicate

/-- The method `Factory::MakeIterator`: the returned iterator (`none` is the null
pointer) and the text the method writes to the error stream.  The outer `none` is
a fault inside the constructor. -/
def ExactIncoming.Factory.MakeIterator (context : Context) (processImage : ProcessImage)
    (directory : Directory) : Option (Option ExactIncoming × String) :=
  let numAllocations := directory.NumAllocations
  if context.GetNumPositionals < 3 then
    some (none, "No address was specified for the target allocation.\n")
  else
    match context.ParsePositional 2 with
    | none => some (none, context.Positional 2 ++ " is not a valid address.\n")
    | some address =>
      let index := directory.AllocationIndexOf address
      if index = numAllocations then
        some (none, context.Positional 2 ++ " is not part of an allocation.\n")
      else
        match processImage.GetAllocationGraph with
        | none => some (none, "Allocation graph is not available.\n")
        | some allocationGraph =>
          match context.ParseBooleanSwitch "skipTaintedReferences" with
          | none => some (none, "")
          | some skipTaintedReferences =>
            match context.ParseBooleanSwitch "skipUnfavoredReferences" with
            | none => some (none, "")
            | some skipUnfavoredReferences =>
              let skipUnfavoredReferences :=
                if !processImage.SupportsFavoredReferences index then false
                else skipUnfavoredReferences
              match ExactIncoming.construct directory allocationGraph
                  processImage.contiguousImage index numAllocations
                  processImage.GetEdgeIsTainted skipTaintedReferences
                  processImage.GetEdgeIsFavored skipUnfavoredReferences with
              | none => none
              | some it => some (some it, "")

/-! ## LongStringAllocationsTagger -/

/-- The members of a `LongStringAllocationsTagger` that do not change after
construction.  `sizeofOffset` is `sizeof(Offset)` (4 or 8); `_charsImage` maps an
index to the view obtained by `SetIndex`; both anchor readers read `_addressMap`.
The tag holder, which the tagger mutates, is passed through the operations. -/
structure LongStringAllocationsTagger where
  sizeofOffset : Nat
  _graph : Graph
  _finder : Finder
  _numAllocations : Nat
  _addressMap : VirtualAddressMap
  _charsImage : Nat → ContiguousImage
  _enabled : Bool
  _tagIndex : Nat

/-- Number of values of the type `Offset`. -/
def LongStringAllocationsTagger.offsetModulus (t : LongStringAllocationsTagger) : Nat :=
  2 ^ (8 * t.sizeofOffset)

/-- The bytes of a C string literal. -/
def cstr (s : String) : List Nat := s.data.map Char.toNat

/-- The symbol prefix that identifies the C++11 string layout. -/
def cxx11Pattern : List Nat := cstr "_ZNSt7__cxx1112basic_string"

/-- The generic mangled-name prefix. -/
def znPattern : List Nat := cstr "_ZN"

/-- Whether `name.find(pattern) != npos`: the pattern occurs in the name. -/
def stringContains (name pattern : String) : Bool :=
  name.data.tails.any (fun suffix => pattern.data.isPrefixOf suffix)

/-- Whether `strncmp(check, pattern, n)` is 0, for a pattern of `n` non-zero bytes:
the `n` image bytes from address `check` on are those of the pattern. -/
def strncmpEq (m : VirtualAddressMap) (check : Nat) (pattern : List Nat) : Bool :=
  (List.range pattern.length).all (fun i => m.imageByte (check + i) == pattern.getD i 0)

/-- The test applied to a range's flags:
`(value & ~IS_EXECUTABLE) == (IS_READABLE | HAS_KNOWN_PERMISSIONS | IS_MAPPED)`.
On naturals, `value & ~e` is `value ^ (value & e)`. -/
def RangeAttributes.isCheckable (a : RangeAttributes) (value : Nat) : Bool :=
  (value ^^^ (value &&& a.IS_EXECUTABLE)) ==
    (a.IS_READABLE ||| a.HAS_KNOWN_PERMISSIONS ||| a.IS_MAPPED)

/-- The innermost loop of the constructor over the addresses `check` it visits.
`none` is the early `return` (C++11 pattern found), otherwise the new value of
`found_ZN`. -/
def scanChecks (m : VirtualAddressMap) : Bool → List Nat → Option Bool
  | found_ZN, [] => some found_ZN
  | found_ZN, check :: rest =>
    if strncmpEq m check cxx11Pattern then none
    else if strncmpEq m check znPattern then scanChecks m true rest
    else scanChecks m found_ZN rest

/-- The addresses visited in a range: `check` runs from `base` while
`check < base + (limit - base) - 26`. -/
@[irreducible]
def checkAddresses (r : ModuleRange) : List Nat :=
  (List.range (r._limit - r._base - 26)).map (fun i => r._base + i)

/-- The loop over the ranges of one module.  The bytes of a range that passes the
flag test (it is flagged as mapped) are read from the image of the address map. -/
def scanRanges (a : RangeAttributes) (m : VirtualAddressMap) : Bool → List ModuleRange → Option Bool
  | found_ZN, [] => some found_ZN
  | found_ZN, r :: rest =>
    if a.isCheckable r._value then
      match scanChecks m found_ZN (checkAddresses r) with
      | none => none
      | some found => scanRanges a m found rest
    else scanRanges a m found_ZN rest

/-- The second loop of the constructor, over all modules. -/
def scanModules (a : RangeAttributes) (m : VirtualAddressMap) : Bool → ModuleDirectory → Option Bool
  | found_ZN, [] => some found_ZN
  | found_ZN, (_, ranges) :: rest =>
    match scanRanges a m found_ZN ranges with
    | none => none
    | some found => scanModules a m found rest

/-- The value of `_enabled` computed by the constructor. -/
def computeEnabled (a : RangeAttributes) (m : VirtualAddressMap)
    (moduleDirectory : ModuleDirectory) : Bool :=
  let foundCheckableLibrary :=
    moduleDirectory.any (fun entry => stringContains entry.1 "libstdc++.so.6")
  if !foundCheckableLibrary then true
  else
    match scanModules a m false moduleDirectory with
    | none => true
    | some found_ZN => !found_ZN

/-- The constructor: registers the tag and computes `_enabled`.  The finder, the
address map and the chars image, which the C++ obtains from the graph, are
passed explicitly. -/
def LongStringAllocationsTagger.construct (sizeofOffset : Nat) (a : RangeAttributes)
    (graph : Graph) (finder : Finder) (addressMap : VirtualAddressMap)
    (charsImage : Nat → ContiguousImage) (tagHolder : TagHolder)
    (moduleDirectory : ModuleDirectory) : LongStringAllocationsTagger × TagHolder :=
  let registered := tagHolder.RegisterTag "long string chars"
  ({ sizeofOffset := sizeofOffset
     _graph := graph
     _finder := finder
     _numAllocations := finder.NumAllocations
     _addressMap := addressMap
     _charsImage := charsImage
     _enabled := computeEnabled a addressMap moduleDirectory
     _tagIndex := registered.1 },
   registered.2)

/-- The C function `strnlen(chars, n)` on a byte view: the position of the first zero
byte among the first `n` bytes, or `n`; reading past the view is an error. -/
def strnlen : List Nat → Nat → Except Fault Nat
  | _, 0 => .ok 0
  | [], _ + 1 => .error Fault.charOutOfRange
  | c :: cs, n + 1 =>
    if c = 0 then .ok 0
    else
      match strnlen cs n with
      | .error e => .error e
      | .ok len => .ok (len + 1)

/-- The C function `strlen(chars)` on a byte view: the position of the first zero byte;
reading past the view is an error. -/
def strlen : List Nat → Except Fault Nat
  | [] => .error Fault.charOutOfRange
  | c :: cs =>
    if c = 0 then .ok 0
    else
      match strlen cs with
      | .error e => .error e
      | .ok len => .ok (len + 1)

/-- The loop of `CheckLongStringAnchorIn` over the anchors. -/
def LongStringAllocationsTagger.CheckLongStringAnchorLoop (t : LongStringAllocationsTagger)
    (tagHolder : TagHolder) (charsIndex charsAddress stringLength minCapacity maxCapacity : Nat) :
    List Nat → Bool × TagHolder
  | [] => (false, tagHolder)
  | anchor :: rest =>
    if t._addressMap.ReadOffset anchor 0xbad ≠ charsAddress then
      t.CheckLongStringAnchorLoop tagHolder charsIndex charsAddress stringLength minCapacity
        maxCapacity rest
    else if t._addressMap.ReadOffset ((anchor + t.sizeofOffset) % t.offsetModulus) 0
        ≠ stringLength then
      t.CheckLongStringAnchorLoop tagHolder charsIndex charsAddress stringLength minCapacity
        maxCapacity rest
    else
      let capacity :=
        t._addressMap.ReadOffset ((anchor + 2 * t.sizeofOffset) % t.offsetModulus) 0
      if capacity < minCapacity || capacity > maxCapacity then
        t.CheckLongStringAnchorLoop tagHolder charsIndex charsAddress stringLength minCapacity
          maxCapacity rest
      else (true, tagHolder.TagAllocation charsIndex t._tagIndex)

/-- The method `CheckLongStringAnchorIn`; `anchors = none` is the null pointer.  The result
is the returned flag and the tag holder afterwards. -/
def LongStringAllocationsTagger.CheckLongStringAnchorIn (t : LongStringAllocationsTagger)
    (tagHolder : TagHolder) (charsIndex charsAddress stringLength minCapacity maxCapacity : Nat)
    (anchors : Option (List Nat)) : Bool × TagHolder :=
  match anchors with
  | none => (false, tagHolder)
  | some l =>
    t.CheckLongStringAnchorLoop tagHolder charsIndex charsAddress stringLength minCapacity
      maxCapacity l

/-- The capacity floor computed by `TagIfLongStringCharsAnchorPoint`. -/
def LongStringAllocationsTagger.minCapacity (t : LongStringAllocationsTagger)
    (index stringLength : Nat) : Nat :=
  let minCapacity := t._finder.MinRequestSize index
  let minCapacity := if minCapacity > 2 * t.sizeofOffset then minCapacity - 1
    else 2 * t.sizeofOffset
  if minCapacity < stringLength then stringLength else minCapacity

/-- The method `TagIfLongStringCharsAnchorPoint`: the tag holder afterwards, or the fault
of a read past the byte view. -/
def LongStringAllocationsTagger.TagIfLongStringCharsAnchorPoint (t : LongStringAllocationsTagger)
    (tagHolder : TagHolder) (contiguousImage : ContiguousImage) (index : Nat)
    (allocation : Allocation) : Except Fault TagHolder :=
  let staticAnchors := t._graph.GetStaticAnchors index
  let stackAnchors := t._graph.GetStackAnchors index
  if staticAnchors.isNone && stackAnchors.isNone then .ok tagHolder
  else
    let address := allocation.address
    let size := allocation.size
    match strnlen contiguousImage.chars size with
    | .error e => .error e
    | .ok stringLength =>
      if stringLength = size then .ok tagHolder
      else
        let minCapacity := t.minCapacity index stringLength
        let maxCapacity := (size + t.offsetModulus - 1) % t.offsetModulus
        match t.CheckLongStringAnchorIn tagHolder index address stringLength minCapacity
            maxCapacity staticAnchors with
        | (true, tagHolder1) => .ok tagHolder1
        | (false, tagHolder1) =>
          .ok (t.CheckLongStringAnchorIn tagHolder1 index address stringLength minCapacity
            maxCapacity stackAnchors).2

/-- The method `TagAnchorPointLongStringChars`: the result is the returned flag
("finished with this allocation") and the tag holder afterwards. -/
def LongStringAllocationsTagger.TagAnchorPointLongStringChars (t : LongStringAllocationsTagger)
    (tagHolder : TagHolder) (contiguousImage : ContiguousImage) (index : Nat) (phase : Phase)
    (allocation : Allocation) : Except Fault (Bool × TagHolder) :=
  let size := allocation.size
  match phase with
  | Phase.QUICK_INITIAL_CHECK =>
    if size < 2 * t.sizeofOffset then .ok (true, tagHolder) else .ok (false, tagHolder)
  | Phase.MEDIUM_CHECK =>
    if size < 10 * t.sizeofOffset then
      match t.TagIfLongStringCharsAnchorPoint tagHolder contiguousImage index allocation with
      | .error e => .error e
      | .ok tagHolder1 => .ok (true, tagHolder1)
    else .ok (false, tagHolder)
  | Phase.SLOW_CHECK =>
    match t.TagIfLongStringCharsAnchorPoint tagHolder contiguousImage index allocation with
    | .error e => .error e
    | .ok tagHolder1 => .ok (true, tagHolder1)
  | Phase.WEAK_CHECK => .ok (false, tagHolder)

/-- The method `TagFromAllocation`: the returned flag and the tag holder afterwards. -/
def LongStringAllocationsTagger.TagFromAllocation (t : LongStringAllocationsTagger)
    (tagHolder : TagHolder) (contiguousImage : ContiguousImage) (index : Nat) (phase : Phase)
    (allocation : Allocation) : Except Fault (Bool × TagHolder) :=
  if !t._enabled then .ok (true, tagHolder)
  else if tagHolder.GetTagIndex index ≠ 0 then .ok (true, tagHolder)
  else t.TagAnchorPointLongStringChars tagHolder contiguousImage index phase allocation

/-- The test `stringLength > 0 && chars[stringLength - 1] == 0`. -/
def precedingCharIsZero (chars : List Nat) (stringLength : Nat) : Except Fault Bool :=
  if stringLength > 0 then
    match chars.get? (stringLength - 1) with
    | none => .error Fault.charOutOfRange
    | some c => .ok (c == 0)
  else .ok false

/-- The body of the loop of `CheckEmbeddedStrings` at word position `check`
(`check - firstCheck` in the C++).  The flag tells whether the tag was committed,
in which case the C++ adds 3 to `check` before the loop's own increment. -/
def LongStringAllocationsTagger.CheckEmbeddedStringsAt (t : LongStringAllocationsTagger)
    (tagHolder : TagHolder) (contiguousImage : ContiguousImage) (unresolvedOutgoing : List Nat)
    (check : Nat) : Except Fault (Bool × TagHolder) :=
  match unresolvedOutgoing.get? check with
  | none => .error Fault.outgoingOutOfRange
  | some charsIndex =>
    if charsIndex = t._numAllocations then .ok (false, tagHolder)
    else if tagHolder.GetTagIndex charsIndex ≠ 0 then .ok (false, tagHolder)
    else
      match contiguousImage.offsets.get? check, contiguousImage.offsets.get? (check + 1),
          contiguousImage.offsets.get? (check + 2) with
      | some charsAddress, some stringLength, some capacity =>
        if capacity < 2 * t.sizeofOffset then .ok (false, tagHolder)
        else
          match t._finder.AllocationAt charsIndex with
          | none => .error Fault.nullAllocation
          | some charsAllocation =>
            if charsAllocation.address ≠ charsAddress then .ok (false, tagHolder)
            else if capacity > (charsAllocation.size + t.offsetModulus - 1) % t.offsetModulus then
              .ok (false, tagHolder)
            else if stringLength < 2 * t.sizeofOffset then .ok (false, tagHolder)
            else if stringLength > capacity then .ok (false, tagHolder)
            else
              let chars := (t._charsImage charsIndex).chars
              match chars.get? stringLength with
              | none => .error Fault.charOutOfRange
              | some c =>
                if c ≠ 0 then .ok (false, tagHolder)
                else
                  match precedingCharIsZero chars stringLength with
                  | .error e => .error e
                  | .ok true => .ok (false, tagHolder)
                  | .ok false =>
                    if (capacity + 1) % t.offsetModulus < t._finder.MinRequestSize charsIndex then
                      .ok (false, tagHolder)
                    else
                      match strlen chars with
                      | .error e => .error e
                      | .ok len =>
                        if stringLength = len then
                          .ok (true, tagHolder.TagAllocation charsIndex t._tagIndex)
                        else .ok (false, tagHolder)
      | _, _, _ => .error Fault.wordOutOfRange

/-- The loop of `CheckEmbeddedStrings` from word position `check` on:
`check < checkLimit` is `check + 3 < number of words`; after a commit the next
position is `check + 3 + 1`.  The first argument bounds the number of
iterations. -/
def LongStringAllocationsTagger.CheckEmbeddedStringsLoop (t : LongStringAllocationsTagger)
    (contiguousImage : ContiguousImage) (unresolvedOutgoing : List Nat) :
    Nat → Nat → TagHolder → Except Fault TagHolder
  | 0, check, tagHolder =>
    if check + 3 < contiguousImage.offsets.length then .error Fault.iterationLimit
    else .ok tagHolder
  | fuel + 1, check, tagHolder =>
    if check + 3 < contiguousImage.offsets.length then
      match t.CheckEmbeddedStringsAt tagHolder contiguousImage unresolvedOutgoing check with
      | .error e => .error e
      | .ok (committed, tagHolder1) =>
        t.CheckEmbeddedStringsLoop contiguousImage unresolvedOutgoing fuel
          (if committed then check + 3 + 1 else check + 1) tagHolder1
    else .ok tagHolder

/-- The method `CheckEmbeddedStrings`: the scan starts at word 0, and the number of
words bounds the number of iterations. -/
def LongStringAllocationsTagger.CheckEmbeddedStrings (t : LongStringAllocationsTagger)
    (tagHolder : TagHolder) (contiguousImage : ContiguousImage)
    (unresolvedOutgoing : List Nat) : Except Fault TagHolder :=
  t.CheckEmbeddedStringsLoop contiguousImage unresolvedOutgoing contiguousImage.offsets.length 0
    tagHolder

/-- The method `TagFromContainedStrings`: the returned flag and the tag holder afterwards. -/
def LongStringAllocationsTagger.TagFromContainedStrings (t : LongStringAllocationsTagger)
    (tagHolder : TagHolder) (contiguousImage : ContiguousImage) (phase : Phase)
    (allocation : Allocation) (unresolvedOutgoing : List Nat) : Except Fault (Bool × TagHolder) :=
  match phase with
  | Phase.QUICK_INITIAL_CHECK => .ok (decide (allocation.size < 4 * t.sizeofOffset), tagHolder)
  | Phase.MEDIUM_CHECK => .ok (false, tagHolder)
  | Phase.SLOW_CHECK =>
    match t.CheckEmbeddedStrings tagHolder contiguousImage unresolvedOutgoing with
    | .error e => .error e
    | .ok tagHolder1 => .ok (true, tagHolder1)
  | Phase.WEAK_CHECK => .ok (false, tagHolder)

/-- The method `TagFromReferenced`: the returned flag and the tag holder afterwards. -/
def LongStringAllocationsTagger.TagFromReferenced (t : LongStringAllocationsTagger)
    (tagHolder : TagHolder) (contiguousImage : ContiguousImage) (phase : Phase)
    (allocation : Allocation) (unresolvedOutgoing : List Nat) : Except Fault (Bool × TagHolder) :=
  if !t._enabled then .ok (true, tagHolder)
  else t.TagFromContainedStrings tagHolder contiguousImage phase allocation unresolvedOutgoing

/-! ## Notions used in the statements -/

/-- The three words the anchor reader delivers at an anchor: the reads of
`CheckLongStringAnchorIn` at `anchor`, `anchor + sizeof(Offset)` and
`anchor + 2 * sizeof(Offset)`, with the defaults `0xbad`, `0`, `0` on a fault. -/
def LongStringAllocationsTagger.anchorWords (t : LongStringAllocationsTagger) (anchor : Nat) :
    Nat × Nat × Nat :=
  (t._addressMap.ReadOffset anchor 0xbad,
   t._addressMap.ReadOffset ((anchor + t.sizeofOffset) % t.offsetModulus) 0,
   t._addressMap.ReadOffset ((anchor + 2 * t.sizeofOffset) % t.offsetModulus) 0)

/-- An anchor passes the three tests of `CheckLongStringAnchorIn`. -/
def LongStringAllocationsTagger.anchorAccepted (t : LongStringAllocationsTagger)
    (charsAddress stringLength minCapacity maxCapacity anchor : Nat) : Prop :=
  (t.anchorWords anchor).1 = charsAddress ∧ (t.anchorWords anchor).2.1 = stringLength ∧
    minCapacity ≤ (t.anchorWords anchor).2.2 ∧ (t.anchorWords anchor).2.2 ≤ maxCapacity

/-- The static and stack anchors of an allocation, an absent list counting as
empty. -/
def LongStringAllocationsTagger.anchorsOf (t : LongStringAllocationsTagger) (index : Nat) :
    List Nat :=
  (t._graph.GetStaticAnchors index).getD [] ++ (t._graph.GetStackAnchors index).getD []

/-- Position `k` is the first zero byte of a byte view. -/
def FirstZeroAt (chars : List Nat) (k : Nat) : Prop :=
  chars.get? k = some 0 ∧ ∀ j, j < k → ∃ c, chars.get? j = some c ∧ c ≠ 0

/-- The second holder arises from the first by tag writes of `tag` to allocations
that were untagged when the write was requested: tagged allocations keep their
tag, every changed entry was 0 and is now `tag`, and each request added to the
history was made for an allocation whose tag was 0 and asked for `tag`. -/
def TagHolder.TagsOnlyUntagged (tag : Nat) (h h1 : TagHolder) : Prop :=
  h1.tagNames = h.tagNames ∧
  (∀ i, h.GetTagIndex i ≠ 0 → h1.GetTagIndex i = h.GetTagIndex i) ∧
  (∀ i, h1.GetTagIndex i ≠ h.GetTagIndex i → h.GetTagIndex i = 0 ∧ h1.GetTagIndex i = tag) ∧
  ∃ added, h1.requests = h.requests ++ added ∧
    ∀ q ∈ added, q.current = 0 ∧ q.tagIndex = tag

/-- The triple at word position `p` of a container refers to allocation `R` and
passes every test of the body of `CheckEmbeddedStrings` that comes after the test
of `R`'s current tag: `unresolvedOutgoing[p]` is `R` and not the sentinel, the
words at `p`, `p + 1`, `p + 2` are `charsAddress`, `stringLength`, `capacity`, the
record of `R` starts at `charsAddress`, both `capacity` and `stringLength` are at
least two pointer-widths, `stringLength ≤ capacity ≤ Size() - 1` (in `Offset`
arithmetic), `capacity + 1` (in `Offset` arithmetic) is not below
`MinRequestSize(R)`, and the first zero byte of `R` is at `stringLength`. -/
def LongStringAllocationsTagger.acceptsAt (t : LongStringAllocationsTagger)
    (contiguousImage : ContiguousImage) (unresolvedOutgoing : List Nat) (p R : Nat) : Prop :=
  ∃ charsAddress stringLength capacity charsAllocation,
    unresolvedOutgoing.get? p = some R ∧ R ≠ t._numAllocations ∧
    contiguousImage.offsets.get? p = some charsAddress ∧
    contiguousImage.offsets.get? (p + 1) = some stringLength ∧
    contiguousImage.offsets.get? (p + 2) = some capacity ∧
    t._finder.AllocationAt R = some charsAllocation ∧
    charsAllocation.address = charsAddress ∧
    2 * t.sizeofOffset ≤ capacity ∧
    capacity ≤ (charsAllocation.size + t.offsetModulus - 1) % t.offsetModulus ∧
    2 * t.sizeofOffset ≤ stringLength ∧ stringLength ≤ capacity ∧
    t._finder.MinRequestSize R ≤ (capacity + 1) % t.offsetModulus ∧
    FirstZeroAt (t._charsImage R).chars stringLength

/-- The outgoing-reference array fits the container: it has one entry per word, and
every entry is the sentinel or the index of an allocation of non-zero size whose
chars image exposes at least that many bytes. -/
def LongStringAllocationsTagger.outgoingResolved (t : LongStringAllocationsTagger)
    (contiguousImage : ContiguousImage) (unresolvedOutgoing : List Nat) : Prop :=
  unresolvedOutgoing.length = contiguousImage.offsets.length ∧
  ∀ c ∈ unresolvedOutgoing, c ≠ t._numAllocations →
    ∃ a, t._finder.AllocationAt c = some a ∧ a.size ≠ 0 ∧
      a.size ≤ (t._charsImage c).chars.length

/-- The byte pattern lies in the range `[_base, _limit)` at address `a`: all its
bytes are inside the range and equal the image bytes from `a` on. -/
def occursAt (m : VirtualAddressMap) (r : ModuleRange) (pattern : List Nat) (a : Nat) : Prop :=
  r._base ≤ a ∧ a + pattern.length ≤ r._limit ∧ strncmpEq m a pattern = true

/-- Some module path contains `libstdc++.so.6`. -/
def hasCheckableLibrary (moduleDirectory : ModuleDirectory) : Prop :=
  ∃ entry ∈ moduleDirectory, stringContains entry.1 "libstdc++.so.6" = true

/-- The edge `e` passes every test of the loop of `Next`: it is not skipped as
tainted or as unfavored, its source has a record, is used, and holds the target
address in one of its words. -/
def ExactIncoming.qualifies (it : ExactIncoming) (e : Nat) : Bool :=
  !(it._skipTaintedReferences && it._edgeIsTainted.ForIncoming e) &&
  !(it._skipUnfavoredReferences && !it._edgeIsFavored.ForIncoming e) &&
  match it._directory.AllocationAt (it._graph.GetSourceForIncoming e) with
  | none => false
  | some allocation =>
    allocation.isUsed &&
      (it._contiguousImage (it._graph.GetSourceForIncoming e)).offsets.any
        (fun nextOffset => it._target == nextOffset)

/-- The sources of the qualifying edges in `[next, _pastIncoming)`, in increasing
edge order, one entry per edge. -/
def ExactIncoming.referrersFrom (it : ExactIncoming) (next : Nat) : List Nat :=
  ((List.range' next (it._pastIncoming - next)).filter it.qualifies).map
    it._graph.GetSourceForIncoming

/-- A context that differs from the given one only in the outcome of parsing one
boolean switch, which is well-formed and yields `value`. -/
def Context.withSwitch (c : Context) (name : String) (value : Bool) : Context :=
  { c with ParseBooleanSwitch := fun n => if n = name then some value
      else c.ParseBooleanSwitch n }

/-- The state of the scan of `CheckEmbeddedStrings` after `k` iterations of its
loop: the word position `check` and the tag holder.  When the loop condition fails
the state stays as it is. -/
def LongStringAllocationsTagger.scanStateAfter (t : LongStringAllocationsTagger)
    (tagHolder : TagHolder) (contiguousImage : ContiguousImage)
    (unresolvedOutgoing : List Nat) : Nat → Except Fault (Nat × TagHolder)
  | 0 => .ok (0, tagHolder)
  | k + 1 =>
    match t.scanStateAfter tagHolder contiguousImage unresolvedOutgoing k with
    | .error e => .error e
    | .ok (check, tagHolder1) =>
      if check + 3 < contiguousImage.offsets.length then
        match t.CheckEmbeddedStringsAt tagHolder1 contiguousImage unresolvedOutgoing check with
        | .error e => .error e
        | .ok (committed, tagHolder2) =>
          .ok (if committed then check + 3 + 1 else check + 1, tagHolder2)
      else .ok (check, tagHolder1)

/-- The scan examines word position `p`, with the tag holder `tagHolder1` at that
moment: some iteration of the loop starts at `p` with the loop condition true. -/
def LongStringAllocationsTagger.examines (t : LongStringAllocationsTagger)
    (tagHolder : TagHolder) (contiguousImage : ContiguousImage)
    (unresolvedOutgoing : List Nat) (p : Nat) (tagHolder1 : TagHolder) : Prop :=
  p + 3 < contiguousImage.offsets.length ∧
  ∃ k, t.scanStateAfter tagHolder contiguousImage unresolvedOutgoing k = .ok (p, tagHolder1)

/-- The read of the pointer-sized word at an address faults. -/
def VirtualAddressMap.faultsAt (m : VirtualAddressMap) (address : Nat) : Prop :=
  m.offsetAt address = none

/-- The read-only mapped ranges of all modules of a directory, whatever the module
names. -/
def checkableRanges (a : RangeAttributes) (moduleDirectory : ModuleDirectory) :
    List ModuleRange :=
  (moduleDirectory.map (fun entry => entry.2)).flatten.filter
    (fun r => a.isCheckable r._value)

/-! ## Example data -/

/-- Two used allocations; the first holds the address of the second. -/
def exDirectory : Directory :=
  { allocations := [⟨0x1000, 16, true⟩, ⟨0x2000, 16, true⟩] }

/-- The only incoming edge of allocation 1 is edge 0, from allocation 0. -/
def exGraph : Graph :=
  { GetIncoming := fun index => if index = 1 then (0, 1) else (0, 0)
    GetSourceForIncoming := fun _ => 0
    GetStaticAnchors := fun _ => none
    GetStackAnchors := fun _ => none }

/-- Allocation 0 contains the words `0x2000, 0`; allocation 1 is all zero. -/
def exImages (index : Nat) : ContiguousImage :=
  if index = 0 then { offsets := [0x2000, 0], chars := [] }
  else { offsets := [0, 0], chars := [] }

/-- No edge has the property. -/
def exNever : EdgePredicate := { ForIncoming := fun _ => false }

/-- The iterator over the referrers of allocation 1, as constructed. -/
def exIterator : ExactIncoming :=
  { _directory := exDirectory
    _contiguousImage := exImages
    _graph := exGraph
    _index := 1
    _numAllocations := 2
    _edgeIsTainted := exNever
    _skipTaintedReferences := true
    _edgeIsFavored := exNever
    _skipUnfavoredReferences := false
    _nextIncoming := 0
    _pastIncoming := 1
    _target := 0x2000 }

/-- An address map with a string header `(0x1000, 12, capacity)` at `0x5000` on an
8-byte-pointer system; every other read faults. -/
def exAnchorMap (capacity : Nat) : VirtualAddressMap :=
  { offsetAt := fun address =>
      if address = 0x5000 then some 0x1000
      else if address = 0x5008 then some 12
      else if address = 0x5010 then some capacity
      else none
    imageByte := fun _ => 0 }

/-- An enabled tagger on an 8-byte-pointer system for one allocation of the given
size at `0x1000` whose only anchor is the static anchor `0x5000`; the allocator's
estimate of the minimum request size is 1. -/
def exAnchorTagger (size capacity : Nat) : LongStringAllocationsTagger :=
  { sizeofOffset := 8
    _graph :=
      { GetIncoming := fun _ => (0, 0)
        GetSourceForIncoming := fun _ => 0
        GetStaticAnchors := fun index => if index = 0 then some [0x5000] else none
        GetStackAnchors := fun _ => none }
    _finder := { allocations := [⟨0x1000, size, true⟩], MinRequestSize := fun _ => 1 }
    _numAllocations := 1
    _addressMap := exAnchorMap capacity
    _charsImage := fun _ => { offsets := [], chars := [] }
    _enabled := true
    _tagIndex := 1 }

/-- A tag holder with the tag registered and no allocation tagged. -/
def exHolder : TagHolder :=
  { tagNames := ["long string chars"], tags := fun _ => 0, requests := [] }

/-- A byte view of the given size: twelve bytes `a`, then zeros. -/
def exChars (size : Nat) : ContiguousImage :=
  { offsets := [], chars := List.replicate 12 0x61 ++ List.replicate (size - 12) 0 }

/-- An enabled tagger on an 8-byte-pointer system with two allocations: a 40-byte
container at `0x1000` and a 32-byte buffer at `0x2000` holding sixteen bytes `a`
followed by zeros. -/
def exEmbeddedTagger : LongStringAllocationsTagger :=
  { sizeofOffset := 8
    _graph :=
      { GetIncoming := fun _ => (0, 0)
        GetSourceForIncoming := fun _ => 0
        GetStaticAnchors := fun _ => none
        GetStackAnchors := fun _ => none }
    _finder :=
      { allocations := [⟨0x1000, 40, true⟩, ⟨0x2000, 32, true⟩], MinRequestSize := fun _ => 1 }
    _numAllocations := 2
    _addressMap := { offsetAt := fun _ => none, imageByte := fun _ => 0 }
    _charsImage := fun index =>
      if index = 1 then
        { offsets := [], chars := List.replicate 16 0x61 ++ List.replicate 16 0 }
      else { offsets := [], chars := List.replicate 40 0 }
    _enabled := true
    _tagIndex := 1 }

/-- The container's words: a string header `(0x2000, 16, 24)` and two zero words. -/
def exContainer : ContiguousImage := { offsets := [0x2000, 16, 24, 0, 0], chars := [] }

/-- The container's resolved outgoing references: word 0 refers to allocation 1, the
other words to no allocation. -/
def exOutgoing : List Nat := [1, 2, 2, 2, 2]

/-- A tag holder in which allocation 0 already carries tag 7. -/
def exTaggedHolder : TagHolder :=
  { tagNames := ["long string chars"], tags := fun i => if i = 0 then 7 else 0, requests := [] }

/-- An enabled tagger with pointer width `w` for a container at `0x1000` and a
16-byte allocation at `0x2000` that holds `hello` followed by zeros. -/
def exShortTagger (w : Nat) : LongStringAllocationsTagger :=
  { sizeofOffset := w
    _graph :=
      { GetIncoming := fun _ => (0, 0)
        GetSourceForIncoming := fun _ => 0
        GetStaticAnchors := fun _ => none
        GetStackAnchors := fun _ => none }
    _finder :=
      { allocations := [⟨0x1000, 40, true⟩, ⟨0x2000, 16, true⟩], MinRequestSize := fun _ => 1 }
    _numAllocations := 2
    _addressMap := { offsetAt := fun _ => none, imageByte := fun _ => 0 }
    _charsImage := fun index =>
      if index = 1 then
        { offsets := [], chars := [0x68, 0x65, 0x6c, 0x6c, 0x6f] ++ List.replicate 11 0 }
      else { offsets := [], chars := List.replicate 40 0 }
    _enabled := true
    _tagIndex := 1 }

/-- A container whose first words are the triple `(0x2000, 5, 8)`. -/
def exShortContainer : ContiguousImage := { offsets := [0x2000, 5, 8, 0, 0], chars := [] }

/-- Example flag values: readable 1, writable 2, executable 4, known permissions 8,
mapped 16. -/
def exAttributes : RangeAttributes :=
  { IS_READABLE := 1, IS_EXECUTABLE := 4, HAS_KNOWN_PERMISSIONS := 8, IS_MAPPED := 16 }

/-- An image that holds the bytes `_ZN` at `0x7014` and zeros elsewhere. -/
def exLegacyMap : VirtualAddressMap :=
  { offsetAt := fun _ => none
    imageByte := fun a =>
      if a = 0x7014 then 0x5f else if a = 0x7015 then 0x5a else if a = 0x7016 then 0x4e else 0 }

/-- The runtime library with one read-only mapped range of the given extent. -/
def exModules (base limit : Nat) : ModuleDirectory :=
  [("/usr/lib/libstdc++.so.6", [⟨base, limit, 25⟩])]

/-- Three used allocations; the first and the third hold the address of the
second. -/
def exTwoDirectory : Directory :=
  { allocations := [⟨0x1000, 16, true⟩, ⟨0x2000, 16, true⟩, ⟨0x3000, 16, true⟩] }

/-- Allocation 1 has the incoming edges 0, from allocation 0, and 1, from
allocation 2. -/
def exTwoGraph : Graph :=
  { GetIncoming := fun index => if index = 1 then (0, 2) else (0, 0)
    GetSourceForIncoming := fun e => if e = 0 then 0 else 2
    GetStaticAnchors := fun _ => none
    GetStackAnchors := fun _ => none }

/-- Allocations 0 and 2 contain the words `0x2000, 0`; allocation 1 is all zero. -/
def exTwoImages (index : Nat) : ContiguousImage :=
  if index = 1 then { offsets := [0, 0], chars := [] }
  else { offsets := [0x2000, 0], chars := [] }

/-- The iterator over the referrers of allocation 1 in that graph, as constructed. -/
def exTwoIterator : ExactIncoming :=
  { _directory := exTwoDirectory
    _contiguousImage := exTwoImages
    _graph := exTwoGraph
    _index := 1
    _numAllocations := 3
    _edgeIsTainted := exNever
    _skipTaintedReferences := false
    _edgeIsFavored := exNever
    _skipUnfavoredReferences := false
    _nextIncoming := 0
    _pastIncoming := 2
    _target := 0x2000 }

/-- A command line `describe exactincoming 2008`, whose address parses to
`0x2008`, with both switches absent. -/
def exContext : Context :=
  { positionals := ["describe", "exactincoming", "2008"]
    ParsePositional := fun index => if index = 2 then some 0x2008 else none
    ParseBooleanSwitch := fun _ => some false }

/-- A command line without the address. -/
def exShortContext : Context :=
  { positionals := ["describe", "exactincoming"]
    ParsePositional := fun _ => none
    ParseBooleanSwitch := fun _ => some false }

/-- Every edge has the property. -/
def exAlways : EdgePredicate := { ForIncoming := fun _ => true }

/-- A process image with the two-edge example graph in which no allocation
supports favored references. -/
def exProcessImage (edgeIsFavored : EdgePredicate) : ProcessImage :=
  { GetAllocationGraph := some exTwoGraph
    SupportsFavoredReferences := fun _ => false
    contiguousImage := exTwoImages
    GetEdgeIsTainted := exNever
    GetEdgeIsFavored := edgeIsFavored }

/-- An address map with the words `0x1000` at `0x5000` and `30` at `0x5010`; the
read of the word at `0x5008` between them faults, like every other read. -/
def exHoleMap : VirtualAddressMap :=
  { offsetAt := fun address =>
      if address = 0x5000 then some 0x1000
      else if address = 0x5010 then some 30
      else none
    imageByte := fun _ => 0 }

/-- The anchor example tagger for a 40-byte allocation, reading that map. -/
def exHoleTagger : LongStringAllocationsTagger :=
  { sizeofOffset := 8
    _graph :=
      { GetIncoming := fun _ => (0, 0)
        GetSourceForIncoming := fun _ => 0
        GetStaticAnchors := fun index => if index = 0 then some [0x5000] else none
        GetStackAnchors := fun _ => none }
    _finder := { allocations := [⟨0x1000, 40, true⟩], MinRequestSize := fun _ => 1 }
    _numAllocations := 1
    _addressMap := exHoleMap
    _charsImage := fun _ => { offsets := [], chars := [] }
    _enabled := true
    _tagIndex := 1 }

/-- A byte view of 40 zero bytes: an empty string. -/
def exZeroChars : ContiguousImage := { offsets := [], chars := List.replicate 40 0 }

/-- The runtime library with one read-only mapped range that holds only zero bytes,
followed by an application module with the given ranges. -/
def exTwoModules (appRanges : List ModuleRange) : ModuleDirectory :=
  [("/usr/lib/libstdc++.so.6", [⟨0x9000, 0x9040, 25⟩]), ("/bin/app", appRanges)]

/-- A container of five words whose last three words are the string header
`(0x2000, 16, 24)`. -/
def exLastContainer : ContiguousImage := { offsets := [0, 0, 0x2000, 16, 24], chars := [] }

/-- Its outgoing references: word 2 refers to allocation 1. -/
def exLastOutgoing : List Nat := [2, 2, 1, 2, 2]

/-- An enabled tagger on an 8-byte-pointer system with three allocations: a 64-byte
container at `0x1000` and two 32-byte buffers at `0x2000` and `0x3000`, each
holding sixteen bytes `a` followed by zeros. -/
def exPairTagger : LongStringAllocationsTagger :=
  { sizeofOffset := 8
    _graph :=
      { GetIncoming := fun _ => (0, 0)
        GetSourceForIncoming := fun _ => 0
        GetStaticAnchors := fun _ => none
        GetStackAnchors := fun _ => none }
    _finder :=
      { allocations := [⟨0x1000, 64, true⟩, ⟨0x2000, 32, true⟩, ⟨0x3000, 32, true⟩]
        MinRequestSize := fun _ => 1 }
    _numAllocations := 3
    _addressMap := { offsetAt := fun _ => none, imageByte := fun _ => 0 }
    _charsImage := fun index =>
      if index = 0 then { offsets := [], chars := List.replicate 64 0 }
      else { offsets := [], chars := List.replicate 16 0x61 ++ List.replicate 16 0 }
    _enabled := true
    _tagIndex := 1 }

/-- A container of eight words: the header `(0x2000, 16, 24)` at word 0, directly
followed by the header `(0x3000, 16, 24)` at word 3, and two zero words. -/
def exPairContainer : ContiguousImage :=
  { offsets := [0x2000, 16, 24, 0x3000, 16, 24, 0, 0], chars := [] }

/-- Its outgoing references: word 0 refers to allocation 1, word 3 to allocation 2. -/
def exPairOutgoing : List Nat := [1, 3, 3, 2, 3, 3, 3, 3]

/-! ## Theorems: ExactIncoming -/

/-- What a result of the loop of `Next` means: either the sentinel with the cursor
at `_pastIncoming`, or the source of an unfiltered edge `e` at or after the cursor
whose used source holds the target address, with the cursor just after `e`. -/
theorem ExactIncoming.NextLoop_result (it : ExactIncoming) :
    ∀ (fuel next r next1 : Nat), it.NextLoop fuel next = some (r, next1) →
      (r = it._numAllocations ∧ next1 = it._pastIncoming ∧ next ≤ next1) ∨
      (∃ e a, next ≤ e ∧ e < next + fuel ∧ e ≠ it._pastIncoming ∧ next1 = e + 1 ∧
        it._graph.GetSourceForIncoming e = r ∧
        it._directory.AllocationAt r = some a ∧ a.isUsed = true ∧
        (∃ word ∈ (it._contiguousImage r).offsets, word = it._target) ∧
        ¬ (it._skipTaintedReferences = true ∧ it._edgeIsTainted.ForIncoming e = true) ∧
        ¬ (it._skipUnfavoredReferences = true ∧ it._edgeIsFavored.ForIncoming e = false)) := by
  intro fuel
  induction fuel with
  | zero =>
    intro next r next1 h
    simp only [ExactIncoming.NextLoop] at h
    split at h
    · rename_i hp
      simp only [Option.some.injEq, Prod.mk.injEq] at h
      left
      omega
    · simp at h
  | succ fuel ih =>
    intro next r next1 h
    have step : ∀ {r next1 : Nat}, it.NextLoop fuel (next + 1) = some (r, next1) →
        (r = it._numAllocations ∧ next1 = it._pastIncoming ∧ next ≤ next1) ∨
        (∃ e a, next ≤ e ∧ e < next + (fuel + 1) ∧ e ≠ it._pastIncoming ∧ next1 = e + 1 ∧
          it._graph.GetSourceForIncoming e = r ∧
          it._directory.AllocationAt r = some a ∧ a.isUsed = true ∧
          (∃ word ∈ (it._contiguousImage r).offsets, word = it._target) ∧
          ¬ (it._skipTaintedReferences = true ∧ it._edgeIsTainted.ForIncoming e = true) ∧
          ¬ (it._skipUnfavoredReferences = true ∧ it._edgeIsFavored.ForIncoming e = false)) := by
      intro r next1 h
      rcases ih _ _ _ h with ⟨h1, h2, h3⟩ | ⟨e, a, h1, h2, h3⟩
      · left
        exact ⟨h1, h2, by omega⟩
      · right
        exact ⟨e, a, by omega, by omega, h3⟩
    simp only [ExactIncoming.NextLoop] at h
    split at h
    · simp only [Option.some.injEq, Prod.mk.injEq] at h
      left
      omega
    · rename_i hne
      split at h
      · exact step h
      · rename_i hT
        split at h
        · exact step h
        · rename_i hF
          split at h
          · simp at h
          · rename_i a ha
            split at h
            · rename_i hm
              simp only [Option.some.injEq, Prod.mk.injEq] at h
              obtain ⟨h1, h2⟩ := h
              simp only [Bool.and_eq_true, List.any_eq_true, beq_iff_eq] at hm
              obtain ⟨hu, w, hw, hw2⟩ := hm
              right
              refine ⟨next, a, le_refl _, by omega, hne, h2.symm, h1, ?_, hu, ?_, ?_, ?_⟩
              · rw [← h1]; exact ha
              · rw [← h1]; exact ⟨w, hw, hw2.symm⟩
              · simpa using hT
              · simpa using hF
            · exact step h

/-- A call of `Next` changes only the edge cursor, and never moves it back. -/
theorem ExactIncoming.Next_frame (it it1 : ExactIncoming) (r : Nat)
    (h : it.Next = some (r, it1)) :
    it1 = { it with _nextIncoming := it1._nextIncoming } ∧
      it._nextIncoming ≤ it1._nextIncoming := by
  simp only [ExactIncoming.Next] at h
  split at h
  · simp at h
  · rename_i index next hl
    simp only [Option.some.injEq, Prod.mk.injEq] at h
    obtain ⟨_, h2⟩ := h
    subst h2
    refine ⟨rfl, ?_⟩
    rcases ExactIncoming.NextLoop_result it _ _ _ _ hl with ⟨_, _, h3⟩ | ⟨e, a, h1, _, _, h4, _⟩
    · exact h3
    · show it._nextIncoming ≤ next
      omega

/-- After any number of calls the iterator differs from the initial one only in
the edge cursor, which has not moved back. -/
theorem ExactIncoming.afterCalls_frame :
    ∀ (n : Nat) (it0 it : ExactIncoming), it0.afterCalls n = some it →
      it = { it0 with _nextIncoming := it._nextIncoming } ∧
        it0._nextIncoming ≤ it._nextIncoming := by
  intro n
  induction n with
  | zero =>
    intro it0 it h
    simp only [ExactIncoming.afterCalls, Option.some.injEq] at h
    subst h
    exact ⟨rfl, le_refl _⟩
  | succ n ih =>
    intro it0 it h
    simp only [ExactIncoming.afterCalls] at h
    split at h
    · simp at h
    · rename_i r it1 h1
      obtain ⟨e1, l1⟩ := ExactIncoming.Next_frame it0 it1 r h1
      obtain ⟨e2, l2⟩ := ih it1 it h
      refine ⟨?_, le_trans l1 l2⟩
      rw [e2, e1]

/-- C1: for an iterator constructed over target `B`, every call of `Next` (after any
number of earlier calls) that returns an index `A` other than the sentinel returns
the source of an incoming edge `e` of `B`; `A` is a used allocation, some word of
its contiguous image equals the start address of `B`, and `e` is neither skipped
as tainted nor skipped as unfavored. -/
theorem C1_next_returns_exact_referrer (directory : Directory) (graph : Graph)
    (contiguousImage : Nat → ContiguousImage) (B numAllocations : Nat)
    (edgeIsTainted : EdgePredicate) (skipTaintedReferences : Bool)
    (edgeIsFavored : EdgePredicate) (skipUnfavoredReferences : Bool)
    (it0 it it1 : ExactIncoming) (n A : Nat)
    (hmake : ExactIncoming.construct directory graph contiguousImage B numAllocations
      edgeIsTainted skipTaintedReferences edgeIsFavored skipUnfavoredReferences = some it0)
    (hcalls : it0.afterCalls n = some it)
    (hnext : it.Next = some (A, it1))
    (hA : A ≠ numAllocations) :
    ∃ e b a, (graph.GetIncoming B).1 ≤ e ∧ e < (graph.GetIncoming B).2 ∧
      graph.GetSourceForIncoming e = A ∧
      directory.AllocationAt B = some b ∧
      directory.AllocationAt A = some a ∧ a.isUsed = true ∧
      (∃ word ∈ (contiguousImage A).offsets, word = b.address) ∧
      ¬ (skipTaintedReferences = true ∧ edgeIsTainted.ForIncoming e = true) ∧
      ¬ (skipUnfavoredReferences = true ∧ edgeIsFavored.ForIncoming e = false) := by
  simp only [ExactIncoming.construct] at hmake
  split at hmake
  · simp at hmake
  · rename_i b hb
    simp only [Option.some.injEq] at hmake
    obtain ⟨hframe, hle⟩ := ExactIncoming.afterCalls_frame n it0 it hcalls
    simp only [ExactIncoming.Next] at hnext
    split at hnext
    · simp at hnext
    · rename_i index next hl
      simp only [Option.some.injEq, Prod.mk.injEq] at hnext
      obtain ⟨hidx, _⟩ := hnext
      subst hidx
      rw [hframe] at hl
      rcases ExactIncoming.NextLoop_result _ _ _ _ _ hl with ⟨h1, _, _⟩ | ⟨e, a, h1, h2, h3, _, h5, h6, h7, h8, h9, h10⟩
      · rw [← hmake] at h1
        exact absurd h1 hA
      · rw [← hmake] at h1 h2 h3 h5 h6 h8 h9 h10 hle
        simp only at h1 h2 h3 h5 h6 h8 h9 h10 hle
        refine ⟨e, b, a, ?_, ?_, h5, hb, h6, h7, h8, h9, h10⟩
        · omega
        · omega

/-- C1, evaluated: the first call on the example iterator returns allocation 0,
which is the source of edge 0 and holds the address of allocation 1. -/
theorem C1_next_returns_exact_referrer_witness :
    exIterator.Next = some (0, { exIterator with _nextIncoming := 1 }) ∧
    ∃ e b a, (exGraph.GetIncoming 1).1 ≤ e ∧ e < (exGraph.GetIncoming 1).2 ∧
      exGraph.GetSourceForIncoming e = 0 ∧
      exDirectory.AllocationAt 1 = some b ∧
      exDirectory.AllocationAt 0 = some a ∧ a.isUsed = true ∧
      (∃ word ∈ (exImages 0).offsets, word = b.address) ∧
      ¬ (true = true ∧ exNever.ForIncoming e = true) ∧
      ¬ (false = true ∧ exNever.ForIncoming e = false) :=
  ⟨rfl,
   C1_next_returns_exact_referrer exDirectory exGraph exImages 1 2 exNever true exNever false
    exIterator exIterator { exIterator with _nextIncoming := 1 } 0 0 rfl rfl rfl (by decide)⟩

/-- C10: once a call of `Next` has returned the sentinel `numAllocations` (the number
of allocations of the directory), every later call succeeds, returns the sentinel
again and leaves the iterator as it is. -/
theorem C10_sentinel_is_absorbing (it it1 : ExactIncoming)
    (hnum : it._numAllocations = it._directory.NumAllocations)
    (hnext : it.Next = some (it._numAllocations, it1)) :
    ∀ k : Nat, it1.afterCalls k = some it1 ∧ it1.Next = some (it._numAllocations, it1) := by
  have hframe := (ExactIncoming.Next_frame it it1 _ hnext).1
  have hpast : it1._nextIncoming = it._pastIncoming := by
    simp only [ExactIncoming.Next] at hnext
    split at hnext
    · simp at hnext
    · rename_i index next hl
      simp only [Option.some.injEq, Prod.mk.injEq] at hnext
      obtain ⟨hidx, hit⟩ := hnext
      subst hidx
      rcases ExactIncoming.NextLoop_result _ _ _ _ _ hl with ⟨_, h2, _⟩ | ⟨e, a, _, _, _, _, _, h6, _⟩
      · rw [← hit]
        exact h2
      · exfalso
        rw [hnum] at h6
        simp [Directory.AllocationAt, Directory.NumAllocations] at h6
  have hstay : it1.Next = some (it._numAllocations, it1) := by
    have hp : it1._pastIncoming = it._pastIncoming := by rw [hframe]
    have hn : it1._numAllocations = it._numAllocations := by rw [hframe]
    simp only [ExactIncoming.Next, hp, hpast, Nat.sub_self, ExactIncoming.NextLoop, if_true, hn]
    congr 2
    cases it1
    simp only [ExactIncoming.mk.injEq, true_and, and_true] at hp hn hpast ⊢
    simp only [hn, hp, hpast, and_self]
  intro k
  refine ⟨?_, hstay⟩
  induction k with
  | zero => rfl
  | succ k ih =>
    simp only [ExactIncoming.afterCalls, hstay]
    exact ih

/-- C10, evaluated: the example iterator, once past its only edge, returns the
sentinel 2 on every further call. -/
theorem C10_sentinel_is_absorbing_witness :
    ({ exIterator with _nextIncoming := 1 } : ExactIncoming).Next
        = some (2, { exIterator with _nextIncoming := 1 }) ∧
    ∀ k : Nat,
      ({ exIterator with _nextIncoming := 1 } : ExactIncoming).afterCalls k
          = some { exIterator with _nextIncoming := 1 } ∧
      ({ exIterator with _nextIncoming := 1 } : ExactIncoming).Next
        = some (2, { exIterator with _nextIncoming := 1 }) :=
  ⟨rfl,
   C10_sentinel_is_absorbing { exIterator with _nextIncoming := 1 }
    { exIterator with _nextIncoming := 1 } rfl rfl⟩

/-! ## Theorems: tag holder -/

/-- A holder arises from itself by no write at all. -/
theorem TagHolder.TagsOnlyUntagged.refl (tag : Nat) (h : TagHolder) :
    TagHolder.TagsOnlyUntagged tag h h :=
  ⟨rfl, fun _ _ => rfl, fun _ hne => absurd rfl hne, [], by simp, by simp⟩

/-- Writes to untagged allocations compose. -/
theorem TagHolder.TagsOnlyUntagged.trans {tag : Nat} {h h1 h2 : TagHolder}
    (a : TagHolder.TagsOnlyUntagged tag h h1) (b : TagHolder.TagsOnlyUntagged tag h1 h2) :
    TagHolder.TagsOnlyUntagged tag h h2 := by
  obtain ⟨a1, a2, a3, l1, a4, a5⟩ := a
  obtain ⟨b1, b2, b3, l2, b4, b5⟩ := b
  refine ⟨by rw [b1, a1], ?_, ?_, l1 ++ l2, by rw [b4, a4, List.append_assoc], ?_⟩
  · intro i hi
    have e1 := a2 i hi
    rw [b2 i (by rw [e1]; exact hi), e1]
  · intro i hi
    by_cases hz : h.GetTagIndex i = 0
    · refine ⟨hz, ?_⟩
      by_cases he : h1.GetTagIndex i = h.GetTagIndex i
      · exact (b3 i (by rw [he]; exact hi)).2
      · have e1 := (a3 i he).2
        by_cases he2 : h2.GetTagIndex i = h1.GetTagIndex i
        · rw [he2, e1]
        · exact (b3 i he2).2
    · exfalso
      have e1 := a2 i hz
      have e2 := b2 i (by rw [e1]; exact hz)
      exact hi (by rw [e2, e1])
  · intro q hq
    rcases List.mem_append.mp hq with hq | hq
    · exact a5 q hq
    · exact b5 q hq

/-- A tag write to an untagged allocation sets its tag. -/
theorem TagHolder.TagAllocation_get (h : TagHolder) (index tag : Nat)
    (hun : h.GetTagIndex index = 0) : (h.TagAllocation index tag).GetTagIndex index = tag := by
  simp only [TagHolder.GetTagIndex] at hun
  simp [TagHolder.TagAllocation, TagHolder.GetTagIndex, hun]

/-- A tag write leaves the tags of the other allocations alone. -/
theorem TagHolder.TagAllocation_get_other (h : TagHolder) (index tag i : Nat) (hi : i ≠ index) :
    (h.TagAllocation index tag).GetTagIndex i = h.GetTagIndex i := by
  simp only [TagHolder.TagAllocation, TagHolder.GetTagIndex]
  split
  · exact Function.update_noteq hi _ _
  · rfl

/-- One tag write to an untagged allocation. -/
theorem TagHolder.TagsOnlyUntagged.of_TagAllocation (h : TagHolder) (index tag : Nat)
    (hun : h.GetTagIndex index = 0) :
    TagHolder.TagsOnlyUntagged tag h (h.TagAllocation index tag) := by
  refine ⟨rfl, ?_, ?_, [⟨index, tag, h.tags index⟩], rfl, ?_⟩
  · intro i hi
    have hne : i ≠ index := fun e => hi (e ▸ hun)
    exact TagHolder.TagAllocation_get_other h index tag i hne
  · intro i hi
    by_cases he : i = index
    · subst he
      exact ⟨hun, TagHolder.TagAllocation_get h i tag hun⟩
    · exact absurd (TagHolder.TagAllocation_get_other h index tag i he) hi
  · intro q hq
    simp only [List.mem_singleton] at hq
    subst hq
    exact ⟨hun, rfl⟩

/-- The tag index a constructed tagger registers is not the "untagged" value 0. -/
theorem LongStringAllocationsTagger.construct_tagIndex_ne_zero (sizeofOffset : Nat)
    (a : RangeAttributes) (graph : Graph) (finder : Finder) (addressMap : VirtualAddressMap)
    (charsImage : Nat → ContiguousImage) (tagHolder : TagHolder) (md : ModuleDirectory) :
    (LongStringAllocationsTagger.construct sizeofOffset a graph finder addressMap charsImage
      tagHolder md).1._tagIndex ≠ 0 := by
  simp [LongStringAllocationsTagger.construct, TagHolder.RegisterTag]

/-! ## Theorems: byte views -/

/-- On a view of at least `n` bytes `strnlen` returns: the result is at most `n`, no
byte before it is zero, and if it is below `n` the byte there is zero. -/
theorem strnlen_spec : ∀ (chars : List Nat) (n : Nat), n ≤ chars.length →
    ∃ k, strnlen chars n = .ok k ∧ k ≤ n ∧
      (∀ j, j < k → ∃ c, chars.get? j = some c ∧ c ≠ 0) ∧ (k < n → chars.get? k = some 0) := by
  intro chars
  induction chars with
  | nil =>
    intro n hn
    have : n = 0 := by simpa using hn
    subst this
    exact ⟨0, rfl, le_refl _, by intro j hj; omega, by intro h; omega⟩
  | cons c cs ih =>
    intro n hn
    cases n with
    | zero => exact ⟨0, rfl, le_refl _, by intro j hj; omega, by intro h; omega⟩
    | succ n =>
      by_cases hc : c = 0
      · refine ⟨0, by simp [strnlen, hc], by omega, by intro j hj; omega, ?_⟩
        intro _
        simp [hc]
      · obtain ⟨k, e, hk, hnz, hz⟩ := ih n (by simpa using hn)
        refine ⟨k + 1, by simp [strnlen, hc, e], by omega, ?_, ?_⟩
        · intro j hj
          cases j with
          | zero => exact ⟨c, by simp, hc⟩
          | succ j => simpa using hnz j (by omega)
        · intro h
          simpa using hz (by omega)

/-- A result of `strlen` is the position of the first zero byte. -/
theorem strlen_spec : ∀ (chars : List Nat) (len : Nat), strlen chars = .ok len →
    FirstZeroAt chars len := by
  intro chars
  induction chars with
  | nil => intro len h; simp [strlen] at h
  | cons c cs ih =>
    intro len h
    by_cases hc : c = 0
    · simp only [strlen, hc, if_true, Except.ok.injEq] at h
      subst h
      exact ⟨by simp [hc], by intro j hj; omega⟩
    · simp only [strlen, hc, if_false] at h
      split at h
      · simp at h
      · rename_i l e
        simp only [Except.ok.injEq] at h
        subst h
        obtain ⟨h1, h2⟩ := ih l e
        refine ⟨by simpa using h1, ?_⟩
        intro j hj
        cases j with
        | zero => exact ⟨c, by simp, hc⟩
        | succ j => simpa using h2 j (by omega)

/-- If the first zero byte is at `k`, `strlen` returns `k`. -/
theorem strlen_of_FirstZeroAt : ∀ (chars : List Nat) (k : Nat), FirstZeroAt chars k →
    strlen chars = .ok k := by
  intro chars
  induction chars with
  | nil => intro k h; simp [FirstZeroAt] at h
  | cons c cs ih =>
    intro k ⟨h1, h2⟩
    cases k with
    | zero =>
      have : c = 0 := by simpa using h1
      simp [strlen, this]
    | succ k =>
      obtain ⟨c0, e0, hc0⟩ := h2 0 (by omega)
      have hc : c ≠ 0 := by
        have : c = c0 := by simpa using e0
        rw [this]; exact hc0
      have hk : FirstZeroAt cs k := by
        refine ⟨by simpa using h1, ?_⟩
        intro j hj
        simpa using h2 (j + 1) (by omega)
      simp [strlen, hc, ih k hk]

/-- The first zero byte of a view is unique. -/
theorem FirstZeroAt.unique {chars : List Nat} {k l : Nat} (a : FirstZeroAt chars k)
    (b : FirstZeroAt chars l) : k = l := by
  rcases Nat.lt_trichotomy k l with h | h | h
  · obtain ⟨c, e, hc⟩ := b.2 k h
    rw [a.1] at e
    exact absurd (Option.some.inj e).symm hc
  · exact h
  · obtain ⟨c, e, hc⟩ := a.2 l h
    rw [b.1] at e
    exact absurd (Option.some.inj e).symm hc

/-! ## Theorems: the anchor-point path -/

/-- The anchor loop commits the tag exactly when some anchor of the list passes
the three tests. -/
theorem LongStringAllocationsTagger.CheckLongStringAnchorLoop_spec
    (t : LongStringAllocationsTagger) (th : TagHolder)
    (charsIndex charsAddress stringLength minCapacity maxCapacity : Nat) :
    ∀ l : List Nat,
      ((∃ x ∈ l, t.anchorAccepted charsAddress stringLength minCapacity maxCapacity x) →
        t.CheckLongStringAnchorLoop th charsIndex charsAddress stringLength minCapacity
          maxCapacity l = (true, th.TagAllocation charsIndex t._tagIndex)) ∧
      ((¬ ∃ x ∈ l, t.anchorAccepted charsAddress stringLength minCapacity maxCapacity x) →
        t.CheckLongStringAnchorLoop th charsIndex charsAddress stringLength minCapacity
          maxCapacity l = (false, th)) := by
  intro l
  induction l with
  | nil =>
    constructor
    · rintro ⟨x, hx, _⟩
      simp at hx
    · intro _
      rfl
  | cons a rest ih =>
    by_cases ha : t.anchorAccepted charsAddress stringLength minCapacity maxCapacity a
    · have ha1 := ha
      simp only [LongStringAllocationsTagger.anchorAccepted,
        LongStringAllocationsTagger.anchorWords] at ha1
      obtain ⟨h1, h2, h3, h4⟩ := ha1
      constructor
      · intro _
        simp only [LongStringAllocationsTagger.CheckLongStringAnchorLoop, h1, h2, ne_eq,
          not_true_eq_false, if_false, Bool.or_eq_true, decide_eq_true_eq]
        rw [if_neg (by omega)]
      · intro hn
        exact absurd ⟨a, by simp, ha⟩ hn
    · have hrest : t.CheckLongStringAnchorLoop th charsIndex charsAddress stringLength
          minCapacity maxCapacity (a :: rest) =
          t.CheckLongStringAnchorLoop th charsIndex charsAddress stringLength
          minCapacity maxCapacity rest := by
        simp only [LongStringAllocationsTagger.anchorAccepted,
          LongStringAllocationsTagger.anchorWords] at ha
        simp only [LongStringAllocationsTagger.CheckLongStringAnchorLoop]
        split
        · rfl
        · rename_i h1
          split
          · rfl
          · rename_i h2
            split
            · rfl
            · rename_i h3
              exfalso
              simp only [Bool.or_eq_true, decide_eq_true_eq, not_or, not_lt] at h3
              simp only [ne_eq, not_not] at h1 h2
              exact ha ⟨h1, h2, h3.1, h3.2⟩
      rw [hrest]
      constructor
      · rintro ⟨x, hx, hacc⟩
        rcases List.mem_cons.mp hx with e | hx
        · subst e
          exact absurd hacc ha
        · exact ih.1 ⟨x, hx, hacc⟩
      · intro hn
        apply ih.2
        rintro ⟨x, hx, hacc⟩
        exact hn ⟨x, List.mem_cons_of_mem _ hx, hacc⟩

/-- The check `TagIfLongStringCharsAnchorPoint` on an image that exposes the allocation's
bytes: with `k` the result of `strnlen`, the tag write is requested exactly when
`k` is below the size and some static or stack anchor passes the three tests. -/
theorem LongStringAllocationsTagger.TagIfLongStringCharsAnchorPoint_spec
    (t : LongStringAllocationsTagger) (th : TagHolder) (image : ContiguousImage) (index : Nat)
    (allocation : Allocation) (himg : allocation.size ≤ image.chars.length) :
    ∃ k, strnlen image.chars allocation.size = .ok k ∧ k ≤ allocation.size ∧
      (∀ j, j < k → ∃ c, image.chars.get? j = some c ∧ c ≠ 0) ∧
      (k < allocation.size → image.chars.get? k = some 0) ∧
      ((k < allocation.size ∧ ∃ x ∈ t.anchorsOf index,
          t.anchorAccepted allocation.address k (t.minCapacity index k)
            ((allocation.size + t.offsetModulus - 1) % t.offsetModulus) x) →
        t.TagIfLongStringCharsAnchorPoint th image index allocation
          = .ok (th.TagAllocation index t._tagIndex)) ∧
      ((¬ (k < allocation.size ∧ ∃ x ∈ t.anchorsOf index,
          t.anchorAccepted allocation.address k (t.minCapacity index k)
            ((allocation.size + t.offsetModulus - 1) % t.offsetModulus) x)) →
        t.TagIfLongStringCharsAnchorPoint th image index allocation = .ok th) := by
  obtain ⟨k, hk, hle, hnz, hz⟩ := strnlen_spec image.chars allocation.size himg
  refine ⟨k, hk, hle, hnz, hz, ?_, ?_⟩
  · rintro ⟨hlt, x, hx, hacc⟩
    simp only [LongStringAllocationsTagger.anchorsOf, List.mem_append] at hx
    simp only [LongStringAllocationsTagger.TagIfLongStringCharsAnchorPoint, hk]
    have hne : ¬ k = allocation.size := by omega
    split
    · rename_i hnone
      simp only [Bool.and_eq_true, Option.isNone_iff_eq_none] at hnone
      rw [hnone.1, hnone.2] at hx
      simp at hx
    · by_cases hs : ∃ y ∈ (t._graph.GetStaticAnchors index).getD [],
          t.anchorAccepted allocation.address k (t.minCapacity index k)
            ((allocation.size + t.offsetModulus - 1) % t.offsetModulus) y
      · cases hst : t._graph.GetStaticAnchors index with
        | none => rw [hst] at hs; simp at hs
        | some l =>
          rw [hst] at hs
          simp only [Option.getD_some] at hs
          simp only [LongStringAllocationsTagger.CheckLongStringAnchorIn,
            (t.CheckLongStringAnchorLoop_spec th index allocation.address k _ _ l).1 hs]
      · have hstack : ∃ y ∈ (t._graph.GetStackAnchors index).getD [],
            t.anchorAccepted allocation.address k (t.minCapacity index k)
              ((allocation.size + t.offsetModulus - 1) % t.offsetModulus) y := by
          rcases hx with hx | hx
          · exact absurd ⟨x, hx, hacc⟩ hs
          · exact ⟨x, hx, hacc⟩
        have hfirst : t.CheckLongStringAnchorIn th index allocation.address k
            (t.minCapacity index k) ((allocation.size + t.offsetModulus - 1) % t.offsetModulus)
            (t._graph.GetStaticAnchors index) = (false, th) := by
          cases hst : t._graph.GetStaticAnchors index with
          | none => rfl
          | some l =>
            rw [hst] at hs
            simp only [Option.getD_some] at hs
            simp only [LongStringAllocationsTagger.CheckLongStringAnchorIn,
              (t.CheckLongStringAnchorLoop_spec th index allocation.address k _ _ l).2 hs]
        rw [hfirst]
        cases hsk : t._graph.GetStackAnchors index with
        | none => rw [hsk] at hstack; simp at hstack
        | some l =>
          rw [hsk] at hstack
          simp only [Option.getD_some] at hstack
          simp only [LongStringAllocationsTagger.CheckLongStringAnchorIn,
            (t.CheckLongStringAnchorLoop_spec th index allocation.address k _ _ l).1 hstack]
  · intro hn
    simp only [LongStringAllocationsTagger.TagIfLongStringCharsAnchorPoint, hk]
    split
    · rfl
    · split
      · rfl
      · rename_i hne
        have hlt : k < allocation.size := by omega
        have hno : ∀ y, y ∈ t.anchorsOf index →
            ¬ t.anchorAccepted allocation.address k (t.minCapacity index k)
              ((allocation.size + t.offsetModulus - 1) % t.offsetModulus) y := by
          intro y hy hacc
          exact hn ⟨hlt, y, hy, hacc⟩
        simp only [LongStringAllocationsTagger.anchorsOf, List.mem_append] at hno
        have hfirst : t.CheckLongStringAnchorIn th index allocation.address k
            (t.minCapacity index k) ((allocation.size + t.offsetModulus - 1) % t.offsetModulus)
            (t._graph.GetStaticAnchors index) = (false, th) := by
          cases hst : t._graph.GetStaticAnchors index with
          | none => rfl
          | some l =>
            rw [hst] at hno
            simp only [LongStringAllocationsTagger.CheckLongStringAnchorIn]
            apply (t.CheckLongStringAnchorLoop_spec th index allocation.address k _ _ l).2
            rintro ⟨y, hy, hacc⟩
            exact hno y (Or.inl (by simpa using hy)) hacc
        have hsecond : t.CheckLongStringAnchorIn th index allocation.address k
            (t.minCapacity index k) ((allocation.size + t.offsetModulus - 1) % t.offsetModulus)
            (t._graph.GetStackAnchors index) = (false, th) := by
          cases hst : t._graph.GetStackAnchors index with
          | none => rfl
          | some l =>
            rw [hst] at hno
            simp only [LongStringAllocationsTagger.CheckLongStringAnchorIn]
            apply (t.CheckLongStringAnchorLoop_spec th index allocation.address k _ _ l).2
            rintro ⟨y, hy, hacc⟩
            exact hno y (Or.inr (by simpa using hy)) hacc
        rw [hfirst]
        simp only [hsecond]

/-- C2: for an untagged allocation of size at least 1 (fitting the type `Offset`)
whose image exposes its bytes, `TagIfLongStringCharsAnchorPoint` returns, and
afterwards the allocation carries the tagger's tag if and only if the bytes have a
first zero byte at some `stringLength` below the size and some static or stack
anchor reads as `(start address, stringLength, capacity)` with
`max(stringLength, floor) ≤ capacity ≤ size - 1`, where `floor` is
`MinRequestSize - 1` if `MinRequestSize` exceeds two pointer-widths and two
pointer-widths otherwise.  In particular an anchor with capacity `size - 1` is
accepted when the other conditions hold, and if every anchor has capacity `size`
the allocation stays untagged. -/
theorem C2_anchor_point_tag_iff (t : LongStringAllocationsTagger) (th : TagHolder)
    (image : ContiguousImage) (index : Nat) (allocation : Allocation)
    (htag : t._tagIndex ≠ 0) (hun : th.GetTagIndex index = 0)
    (hsize : 1 ≤ allocation.size) (hfit : allocation.size < t.offsetModulus)
    (himg : image.chars.length = allocation.size) :
    ∃ th1, t.TagIfLongStringCharsAnchorPoint th image index allocation = .ok th1 ∧
      (th1.GetTagIndex index = t._tagIndex ↔
        ∃ stringLength, stringLength < allocation.size ∧ FirstZeroAt image.chars stringLength ∧
          ∃ x ∈ t.anchorsOf index,
            (t.anchorWords x).1 = allocation.address ∧
            (t.anchorWords x).2.1 = stringLength ∧
            max stringLength
                (if t._finder.MinRequestSize index > 2 * t.sizeofOffset
                  then t._finder.MinRequestSize index - 1 else 2 * t.sizeofOffset)
              ≤ (t.anchorWords x).2.2 ∧
            (t.anchorWords x).2.2 ≤ allocation.size - 1) ∧
      (∀ stringLength x, stringLength < allocation.size → FirstZeroAt image.chars stringLength →
        x ∈ t.anchorsOf index → (t.anchorWords x).1 = allocation.address →
        (t.anchorWords x).2.1 = stringLength →
        max stringLength
            (if t._finder.MinRequestSize index > 2 * t.sizeofOffset
              then t._finder.MinRequestSize index - 1 else 2 * t.sizeofOffset)
          ≤ allocation.size - 1 →
        (t.anchorWords x).2.2 = allocation.size - 1 →
        th1.GetTagIndex index = t._tagIndex) ∧
      ((∀ x ∈ t.anchorsOf index, (t.anchorWords x).2.2 = allocation.size) →
        th1.GetTagIndex index = 0) := by
  have hmax : (allocation.size + t.offsetModulus - 1) % t.offsetModulus = allocation.size - 1 := by
    have : allocation.size + t.offsetModulus - 1 = (allocation.size - 1) + t.offsetModulus := by
      omega
    rw [this, Nat.add_mod_right, Nat.mod_eq_of_lt (by omega)]
  have hmin : ∀ k, t.minCapacity index k =
      max k (if t._finder.MinRequestSize index > 2 * t.sizeofOffset
        then t._finder.MinRequestSize index - 1 else 2 * t.sizeofOffset) := by
    intro k
    simp only [LongStringAllocationsTagger.minCapacity]
    split <;> split <;> omega
  obtain ⟨k, _, hle, hnz, hz, hyes, hno⟩ :=
    t.TagIfLongStringCharsAnchorPoint_spec th image index allocation (le_of_eq himg.symm)
  rw [hmax, hmin] at hyes hno
  have hiff : ∀ th1, t.TagIfLongStringCharsAnchorPoint th image index allocation = .ok th1 →
      (th1 = th.TagAllocation index t._tagIndex ∨ th1 = th) →
      (th1.GetTagIndex index = t._tagIndex ↔
        ∃ stringLength, stringLength < allocation.size ∧ FirstZeroAt image.chars stringLength ∧
          ∃ x ∈ t.anchorsOf index,
            (t.anchorWords x).1 = allocation.address ∧
            (t.anchorWords x).2.1 = stringLength ∧
            max stringLength
                (if t._finder.MinRequestSize index > 2 * t.sizeofOffset
                  then t._finder.MinRequestSize index - 1 else 2 * t.sizeofOffset)
              ≤ (t.anchorWords x).2.2 ∧
            (t.anchorWords x).2.2 ≤ allocation.size - 1) := by
    intro th1 hres _
    constructor
    · intro htagged
      by_cases hc : k < allocation.size ∧ ∃ x ∈ t.anchorsOf index,
          t.anchorAccepted allocation.address k
            (max k (if t._finder.MinRequestSize index > 2 * t.sizeofOffset
              then t._finder.MinRequestSize index - 1 else 2 * t.sizeofOffset))
            (allocation.size - 1) x
      · obtain ⟨hlt, x, hx, hacc⟩ := hc
        exact ⟨k, hlt, ⟨hz hlt, hnz⟩, x, hx, hacc⟩
      · exfalso
        have e := hno hc
        rw [hres] at e
        simp only [Except.ok.injEq] at e
        rw [e, hun] at htagged
        exact htag htagged.symm
    · rintro ⟨sl, hlt, hfz, x, hx, hacc⟩
      by_cases hk : k < allocation.size
      · have hkz : FirstZeroAt image.chars k := ⟨hz hk, hnz⟩
        have e : sl = k := hfz.unique hkz
        subst e
        have e := hyes ⟨hk, x, hx, hacc⟩
        rw [hres] at e
        simp only [Except.ok.injEq] at e
        rw [e]
        exact TagHolder.TagAllocation_get th index _ hun
      · exfalso
        obtain ⟨c, hc1, hc2⟩ := hnz sl (by omega)
        rw [hfz.1] at hc1
        exact hc2 (Option.some.inj hc1).symm
  by_cases hc : k < allocation.size ∧ ∃ x ∈ t.anchorsOf index,
      t.anchorAccepted allocation.address k
        (max k (if t._finder.MinRequestSize index > 2 * t.sizeofOffset
          then t._finder.MinRequestSize index - 1 else 2 * t.sizeofOffset))
        (allocation.size - 1) x
  · have hres := hyes hc
    have hi := hiff _ hres (Or.inl rfl)
    refine ⟨_, hres, hi, ?_, ?_⟩
    · intro sl x hlt hfz hx h0 h1 h2 h3
      exact hi.2 ⟨sl, hlt, hfz, x, hx, h0, h1, by omega, by omega⟩
    · intro hall
      exfalso
      obtain ⟨_, x, hx, hacc⟩ := hc
      have := hall x hx
      have := hacc.2.2.2
      omega
  · have hres := hno hc
    have hi := hiff _ hres (Or.inr rfl)
    refine ⟨_, hres, hi, ?_, ?_⟩
    · intro sl x hlt hfz hx h0 h1 h2 h3
      exact hi.2 ⟨sl, hlt, hfz, x, hx, h0, h1, by omega, by omega⟩
    · intro _
      exact hun

/-- C2, evaluated: a 40-byte allocation with first zero byte at 12 and the static
anchor `(0x1000, 12, 39)`, capacity `size - 1`. -/
theorem C2_anchor_point_tag_iff_witness :
    ∃ th1, (exAnchorTagger 40 39).TagIfLongStringCharsAnchorPoint exHolder (exChars 40) 0
        ⟨0x1000, 40, true⟩ = .ok th1 ∧
      (th1.GetTagIndex 0 = (exAnchorTagger 40 39)._tagIndex ↔
        ∃ stringLength, stringLength < 40 ∧ FirstZeroAt (exChars 40).chars stringLength ∧
          ∃ x ∈ (exAnchorTagger 40 39).anchorsOf 0,
            ((exAnchorTagger 40 39).anchorWords x).1 = 0x1000 ∧
            ((exAnchorTagger 40 39).anchorWords x).2.1 = stringLength ∧
            max stringLength
                (if (exAnchorTagger 40 39)._finder.MinRequestSize 0 > 2 * 8
                  then (exAnchorTagger 40 39)._finder.MinRequestSize 0 - 1 else 2 * 8)
              ≤ ((exAnchorTagger 40 39).anchorWords x).2.2 ∧
            ((exAnchorTagger 40 39).anchorWords x).2.2 ≤ 40 - 1) ∧
      (∀ stringLength x, stringLength < 40 → FirstZeroAt (exChars 40).chars stringLength →
        x ∈ (exAnchorTagger 40 39).anchorsOf 0 →
        ((exAnchorTagger 40 39).anchorWords x).1 = 0x1000 →
        ((exAnchorTagger 40 39).anchorWords x).2.1 = stringLength →
        max stringLength
            (if (exAnchorTagger 40 39)._finder.MinRequestSize 0 > 2 * 8
              then (exAnchorTagger 40 39)._finder.MinRequestSize 0 - 1 else 2 * 8)
          ≤ 40 - 1 →
        ((exAnchorTagger 40 39).anchorWords x).2.2 = 40 - 1 →
        th1.GetTagIndex 0 = (exAnchorTagger 40 39)._tagIndex) ∧
      ((∀ x ∈ (exAnchorTagger 40 39).anchorsOf 0,
          ((exAnchorTagger 40 39).anchorWords x).2.2 = 40) →
        th1.GetTagIndex 0 = 0) :=
  C2_anchor_point_tag_iff (exAnchorTagger 40 39) exHolder (exChars 40) 0 ⟨0x1000, 40, true⟩
    (by decide) rfl (by decide) (by decide) rfl

/-- The example byte views have their first zero byte at position 12. -/
theorem exChars_firstZero (size : Nat) (h : 13 ≤ size) : FirstZeroAt (exChars size).chars 12 := by
  obtain ⟨m, rfl⟩ : ∃ m, size = 13 + m := ⟨size - 13, by omega⟩
  have e : 13 + m - 12 = m + 1 := by omega
  refine ⟨?_, ?_⟩
  · simp [exChars, e, List.replicate_succ]
  · intro j hj
    refine ⟨0x61, ?_, by decide⟩
    interval_cases j <;> rfl

/-- C3 (as stated, refuted): on an 8-byte-pointer system, an untagged 40-byte
allocation at `0x1000` with first zero byte at 12 and the static anchor
`(0x1000, 12, 15)` is left untagged by `TagFromAllocation` in `MEDIUM_CHECK` and
in `SLOW_CHECK`: capacity 15 is below the floor of two pointer-widths. -/
theorem C3_capacity_15_is_rejected :
    (exAnchorTagger 40 15).sizeofOffset = 8 ∧ (exAnchorTagger 40 15)._enabled = true ∧
    (exAnchorTagger 40 15)._tagIndex = 1 ∧
    (exAnchorTagger 40 15)._graph.GetStaticAnchors 0 = some [0x5000] ∧
    (exAnchorTagger 40 15).anchorWords 0x5000 = (0x1000, 12, 15) ∧
    (exChars 40).chars.length = 40 ∧ FirstZeroAt (exChars 40).chars 12 ∧
    exHolder.GetTagIndex 0 = 0 ∧
    (exAnchorTagger 40 15).TagFromAllocation exHolder (exChars 40) 0 Phase.MEDIUM_CHECK
      ⟨0x1000, 40, true⟩ = .ok (true, exHolder) ∧
    (exAnchorTagger 40 15).TagFromAllocation exHolder (exChars 40) 0 Phase.SLOW_CHECK
      ⟨0x1000, 40, true⟩ = .ok (true, exHolder) :=
  ⟨rfl, rfl, rfl, rfl, rfl, rfl, exChars_firstZero 40 (by decide), rfl, rfl, rfl⟩

/-- C3 (amended): on an 8-byte-pointer system, for an enabled tagger and an untagged
allocation of size 40 whose image has its first zero byte at 12 and which has a
static anchor reading `(start address, 12, c)`: the capacity floor is at least 16;
if `floor ≤ c ≤ 39` then `TagFromAllocation` in `MEDIUM_CHECK` or `SLOW_CHECK`
reports finished and the allocation carries the tagger's tag; and if every anchor
of the allocation has a capacity below 16 the call reports finished and leaves the
tag holder unchanged. -/
theorem C3_anchor_example_amended (t : LongStringAllocationsTagger) (th : TagHolder)
    (image : ContiguousImage) (index : Nat) (allocation : Allocation) (phase : Phase) (x c : Nat)
    (hw : t.sizeofOffset = 8) (hen : t._enabled = true) (hun : th.GetTagIndex index = 0)
    (hsize : allocation.size = 40) (himg : image.chars.length = 40)
    (hfz : FirstZeroAt image.chars 12)
    (hx : ∃ l, t._graph.GetStaticAnchors index = some l ∧ x ∈ l)
    (hwords : t.anchorWords x = (allocation.address, 12, c))
    (hphase : phase = Phase.MEDIUM_CHECK ∨ phase = Phase.SLOW_CHECK) :
    16 ≤ t.minCapacity index 12 ∧
    (t.minCapacity index 12 ≤ c → c ≤ 39 →
      ∃ th1, t.TagFromAllocation th image index phase allocation = .ok (true, th1) ∧
        th1.GetTagIndex index = t._tagIndex) ∧
    ((∀ y ∈ t.anchorsOf index, (t.anchorWords y).2.2 < 16) →
      t.TagFromAllocation th image index phase allocation = .ok (true, th)) := by
  have hfloor : ∀ k, 16 ≤ t.minCapacity index k := by
    intro k
    simp only [LongStringAllocationsTagger.minCapacity, hw]
    split <;> split <;> omega
  have hmax : (allocation.size + t.offsetModulus - 1) % t.offsetModulus = 39 := by
    simp [LongStringAllocationsTagger.offsetModulus, hw, hsize]
  have hcall : t.TagFromAllocation th image index phase allocation =
      match t.TagIfLongStringCharsAnchorPoint th image index allocation with
      | .error e => .error e
      | .ok th1 => .ok (true, th1) := by
    have hun1 : ¬ th.GetTagIndex index ≠ 0 := by simp [hun]
    rcases hphase with h | h <;> subst h <;>
      simp [LongStringAllocationsTagger.TagFromAllocation, hen, hun1,
        LongStringAllocationsTagger.TagAnchorPointLongStringChars, hw, hsize]
  obtain ⟨k, _, _, hnz, hz, hyes, hno⟩ :=
    t.TagIfLongStringCharsAnchorPoint_spec th image index allocation (by omega)
  have hk : k = 12 := by
    by_cases hlt : k < allocation.size
    · exact (FirstZeroAt.unique ⟨hz hlt, hnz⟩ hfz)
    · exfalso
      obtain ⟨c0, h1, h2⟩ := hnz 12 (by omega)
      rw [hfz.1] at h1
      exact h2 (Option.some.inj h1).symm
  subst hk
  rw [hmax] at hyes hno
  refine ⟨hfloor 12, ?_, ?_⟩
  · intro h1 h2
    obtain ⟨l, hl, hxl⟩ := hx
    have hmem : x ∈ t.anchorsOf index := by
      simp [LongStringAllocationsTagger.anchorsOf, hl, hxl]
    have hacc : t.anchorAccepted allocation.address 12 (t.minCapacity index 12) 39 x := by
      unfold LongStringAllocationsTagger.anchorAccepted
      rw [hwords]
      exact ⟨rfl, rfl, h1, h2⟩
    rw [hcall, hyes ⟨by omega, x, hmem, hacc⟩]
    exact ⟨_, rfl, TagHolder.TagAllocation_get th index _ hun⟩
  · intro hall
    rw [hcall, hno ?_]
    rintro ⟨_, y, hy, hacc⟩
    have := hall y hy
    have := hacc.2.2.1
    have := hfloor 12
    omega

/-- C3 (amended), evaluated: with the anchor `(0x1000, 12, 39)` the 40-byte example
allocation is tagged in `MEDIUM_CHECK`. -/
theorem C3_anchor_example_amended_witness :
    16 ≤ (exAnchorTagger 40 39).minCapacity 0 12 ∧
    ((exAnchorTagger 40 39).minCapacity 0 12 ≤ 39 → 39 ≤ 39 →
      ∃ th1, (exAnchorTagger 40 39).TagFromAllocation exHolder (exChars 40) 0
          Phase.MEDIUM_CHECK ⟨0x1000, 40, true⟩ = .ok (true, th1) ∧
        th1.GetTagIndex 0 = (exAnchorTagger 40 39)._tagIndex) ∧
    ((∀ y ∈ (exAnchorTagger 40 39).anchorsOf 0,
        ((exAnchorTagger 40 39).anchorWords y).2.2 < 16) →
      (exAnchorTagger 40 39).TagFromAllocation exHolder (exChars 40) 0
          Phase.MEDIUM_CHECK ⟨0x1000, 40, true⟩ = .ok (true, exHolder)) :=
  C3_anchor_example_amended (exAnchorTagger 40 39) exHolder (exChars 40) 0 ⟨0x1000, 40, true⟩
    Phase.MEDIUM_CHECK 0x5000 39 rfl rfl rfl rfl rfl (exChars_firstZero 40 (by decide))
    ⟨[0x5000], rfl, by simp⟩ rfl (Or.inl rfl)

/-- C4 (as stated, refuted): on an 8-byte-pointer system, in `MEDIUM_CHECK` an
untagged allocation of 80 bytes (ten pointer-widths) with a matching static anchor
is not checked (the call reports not finished and the holder is unchanged, although
the check itself would tag it), while an allocation of 40 bytes is checked and
tagged at once and the call reports finished. -/
theorem C4_medium_gate_is_reversed :
    (exAnchorTagger 80 30).TagFromAllocation exHolder (exChars 80) 0 Phase.MEDIUM_CHECK
      ⟨0x1000, 80, true⟩ = .ok (false, exHolder) ∧
    (∃ th1, (exAnchorTagger 80 30).TagIfLongStringCharsAnchorPoint exHolder (exChars 80) 0
      ⟨0x1000, 80, true⟩ = .ok th1 ∧ th1.GetTagIndex 0 = 1) ∧
    (∃ th1, (exAnchorTagger 40 30).TagFromAllocation exHolder (exChars 40) 0 Phase.MEDIUM_CHECK
      ⟨0x1000, 40, true⟩ = .ok (true, th1) ∧ th1.GetTagIndex 0 = 1) :=
  ⟨rfl, ⟨_, rfl, rfl⟩, ⟨_, rfl, rfl⟩⟩

/-- C4 (amended): for an enabled tagger and an untagged allocation, `TagFromAllocation`
in `MEDIUM_CHECK` performs the anchor-point check and reports finished if the size
is below ten pointer-widths; if the size is at least ten pointer-widths it performs
no check, leaves the tag holder unchanged and reports not finished; in `SLOW_CHECK`
the check is performed whatever the size and the call reports finished. -/
theorem C4_medium_gate_amended (t : LongStringAllocationsTagger) (th : TagHolder)
    (image : ContiguousImage) (index : Nat) (allocation : Allocation)
    (hen : t._enabled = true) (hun : th.GetTagIndex index = 0) :
    (allocation.size < 10 * t.sizeofOffset →
      t.TagFromAllocation th image index Phase.MEDIUM_CHECK allocation =
        Except.map (fun th1 => (true, th1))
          (t.TagIfLongStringCharsAnchorPoint th image index allocation)) ∧
    (10 * t.sizeofOffset ≤ allocation.size →
      t.TagFromAllocation th image index Phase.MEDIUM_CHECK allocation = .ok (false, th)) ∧
    t.TagFromAllocation th image index Phase.SLOW_CHECK allocation =
      Except.map (fun th1 => (true, th1))
        (t.TagIfLongStringCharsAnchorPoint th image index allocation) := by
  have hun1 : ¬ th.GetTagIndex index ≠ 0 := by simp [hun]
  refine ⟨?_, ?_, ?_⟩
  · intro hlt
    simp only [LongStringAllocationsTagger.TagFromAllocation, hen, hun1,
      LongStringAllocationsTagger.TagAnchorPointLongStringChars, hlt, if_true, if_false,
      Bool.not_true, Bool.false_eq_true]
    cases t.TagIfLongStringCharsAnchorPoint th image index allocation <;> rfl
  · intro hge
    have : ¬ allocation.size < 10 * t.sizeofOffset := by omega
    simp [LongStringAllocationsTagger.TagFromAllocation, hen, hun1,
      LongStringAllocationsTagger.TagAnchorPointLongStringChars, this]
  · simp only [LongStringAllocationsTagger.TagFromAllocation, hen, hun1,
      LongStringAllocationsTagger.TagAnchorPointLongStringChars, if_false,
      Bool.not_true, Bool.false_eq_true]
    cases t.TagIfLongStringCharsAnchorPoint th image index allocation <;> rfl

/-- C4 (amended), evaluated on the 80-byte example allocation. -/
theorem C4_medium_gate_amended_witness :
    (80 < 10 * 8 →
      (exAnchorTagger 80 30).TagFromAllocation exHolder (exChars 80) 0 Phase.MEDIUM_CHECK
          ⟨0x1000, 80, true⟩ =
        Except.map (fun th1 => (true, th1))
          ((exAnchorTagger 80 30).TagIfLongStringCharsAnchorPoint exHolder (exChars 80) 0
            ⟨0x1000, 80, true⟩)) ∧
    (10 * 8 ≤ 80 →
      (exAnchorTagger 80 30).TagFromAllocation exHolder (exChars 80) 0 Phase.MEDIUM_CHECK
          ⟨0x1000, 80, true⟩ = .ok (false, exHolder)) ∧
    (exAnchorTagger 80 30).TagFromAllocation exHolder (exChars 80) 0 Phase.SLOW_CHECK
        ⟨0x1000, 80, true⟩ =
      Except.map (fun th1 => (true, th1))
        ((exAnchorTagger 80 30).TagIfLongStringCharsAnchorPoint exHolder (exChars 80) 0
          ⟨0x1000, 80, true⟩) :=
  C4_medium_gate_amended (exAnchorTagger 80 30) exHolder (exChars 80) 0 ⟨0x1000, 80, true⟩
    rfl rfl

/-- C8: when the tagger is disabled, `TagFromAllocation` and `TagFromReferenced`
report finished for every phase and every input and leave the tag holder
unchanged. -/
theorem C8_disabled_tagger_is_inert (t : LongStringAllocationsTagger) (th : TagHolder)
    (image : ContiguousImage) (index : Nat) (phase : Phase) (allocation : Allocation)
    (unresolvedOutgoing : List Nat) (hdis : t._enabled = false) :
    t.TagFromAllocation th image index phase allocation = .ok (true, th) ∧
    t.TagFromReferenced th image phase allocation unresolvedOutgoing = .ok (true, th) := by
  simp [LongStringAllocationsTagger.TagFromAllocation,
    LongStringAllocationsTagger.TagFromReferenced, hdis]

/-- C8, evaluated: the example tagger with `_enabled` cleared, in `SLOW_CHECK`. -/
theorem C8_disabled_tagger_is_inert_witness :
    ({ exAnchorTagger 40 39 with _enabled := false } : LongStringAllocationsTagger).TagFromAllocation
        exHolder (exChars 40) 0 Phase.SLOW_CHECK ⟨0x1000, 40, true⟩ = .ok (true, exHolder) ∧
    ({ exAnchorTagger 40 39 with _enabled := false } : LongStringAllocationsTagger).TagFromReferenced
        exHolder (exChars 40) Phase.SLOW_CHECK ⟨0x1000, 40, true⟩ [0, 1, 1, 1, 1]
        = .ok (true, exHolder) :=
  C8_disabled_tagger_is_inert { exAnchorTagger 40 39 with _enabled := false } exHolder
    (exChars 40) 0 Phase.SLOW_CHECK ⟨0x1000, 40, true⟩ [0, 1, 1, 1, 1] rfl

/-! ## Theorems: the embedded-string path -/

/-- What a result of the loop body means: either nothing was committed and the
holder is unchanged, or the triple at the position was accepted for an untagged
allocation and the tag write for it was requested. -/
theorem LongStringAllocationsTagger.CheckEmbeddedStringsAt_result
    (t : LongStringAllocationsTagger) (th : TagHolder) (image : ContiguousImage)
    (out : List Nat) (p : Nat) (committed : Bool) (th1 : TagHolder)
    (h : t.CheckEmbeddedStringsAt th image out p = .ok (committed, th1)) :
    (committed = false ∧ th1 = th) ∨
    (committed = true ∧ ∃ R, t.acceptsAt image out p R ∧ th.GetTagIndex R = 0 ∧
      th1 = th.TagAllocation R t._tagIndex) := by
  have stay : ∀ {c : Bool} {x : TagHolder},
      (Except.ok (false, th) : Except Fault (Bool × TagHolder)) = .ok (c, x) →
      (c = false ∧ x = th) ∨
      (c = true ∧ ∃ R, t.acceptsAt image out p R ∧ th.GetTagIndex R = 0 ∧
        x = th.TagAllocation R t._tagIndex) := by
    intro c x e
    simp only [Except.ok.injEq, Prod.mk.injEq] at e
    exact Or.inl ⟨e.1.symm, e.2.symm⟩
  unfold LongStringAllocationsTagger.CheckEmbeddedStringsAt at h
  cases hR : out.get? p with
  | none => rw [hR] at h; cases h
  | some R =>
    rw [hR] at h
    try dsimp only at h
    by_cases hsent : R = t._numAllocations
    · rw [if_pos hsent] at h; exact stay h
    rw [if_neg hsent] at h
    by_cases htagged : th.GetTagIndex R ≠ 0
    · rw [if_pos htagged] at h; exact stay h
    rw [if_neg htagged] at h
    cases h0 : image.offsets.get? p with
    | none => rw [h0] at h; cases h
    | some charsAddress =>
    cases h1 : image.offsets.get? (p + 1) with
    | none => rw [h0, h1] at h; cases h
    | some stringLength =>
    cases h2 : image.offsets.get? (p + 2) with
    | none => rw [h0, h1, h2] at h; cases h
    | some capacity =>
    rw [h0, h1, h2] at h
    try dsimp only at h
    by_cases hcap : capacity < 2 * t.sizeofOffset
    · rw [if_pos hcap] at h; exact stay h
    rw [if_neg hcap] at h
    cases hrec : t._finder.AllocationAt R with
    | none => rw [hrec] at h; cases h
    | some charsAllocation =>
    rw [hrec] at h
    try dsimp only at h
    by_cases haddr : charsAllocation.address ≠ charsAddress
    · rw [if_pos haddr] at h; exact stay h
    rw [if_neg haddr] at h
    by_cases hmax : capacity > (charsAllocation.size + t.offsetModulus - 1) % t.offsetModulus
    · rw [if_pos hmax] at h; exact stay h
    rw [if_neg hmax] at h
    by_cases hlen : stringLength < 2 * t.sizeofOffset
    · rw [if_pos hlen] at h; exact stay h
    rw [if_neg hlen] at h
    by_cases hlc : stringLength > capacity
    · rw [if_pos hlc] at h; exact stay h
    rw [if_neg hlc] at h
    try dsimp only at h
    cases hc : (t._charsImage R).chars.get? stringLength with
    | none => rw [hc] at h; cases h
    | some c =>
    rw [hc] at h
    try dsimp only at h
    by_cases hzero : c ≠ 0
    · rw [if_pos hzero] at h; exact stay h
    rw [if_neg hzero] at h
    cases hprev : precedingCharIsZero (t._charsImage R).chars stringLength with
    | error e => rw [hprev] at h; cases h
    | ok b =>
    rw [hprev] at h
    cases b with
    | true => exact stay h
    | false =>
    try dsimp only at h
    by_cases hmin : (capacity + 1) % t.offsetModulus < t._finder.MinRequestSize R
    · rw [if_pos hmin] at h; exact stay h
    rw [if_neg hmin] at h
    cases hstrlen : strlen (t._charsImage R).chars with
    | error e => rw [hstrlen] at h; cases h
    | ok len =>
    rw [hstrlen] at h
    try dsimp only at h
    by_cases heq : stringLength = len
    · rw [if_pos heq] at h
      simp only [Except.ok.injEq, Prod.mk.injEq] at h
      right
      refine ⟨h.1.symm, R, ?_, by simpa using htagged, h.2.symm⟩
      refine ⟨charsAddress, stringLength, capacity, charsAllocation,
        hR, hsent, h0, h1, h2, hrec, by simpa using haddr,
        by omega, by omega, by omega, by omega, by omega, ?_⟩
      rw [heq]
      exact strlen_spec _ _ hstrlen
    · rw [if_neg heq] at h; exact stay h

/-- An accepted triple for an untagged allocation makes the loop body request the
tag write and report the commit. -/
theorem LongStringAllocationsTagger.CheckEmbeddedStringsAt_accept
    (t : LongStringAllocationsTagger) (th : TagHolder) (image : ContiguousImage)
    (out : List Nat) (p R : Nat) (hacc : t.acceptsAt image out p R)
    (hun : th.GetTagIndex R = 0) :
    t.CheckEmbeddedStringsAt th image out p = .ok (true, th.TagAllocation R t._tagIndex) := by
  obtain ⟨charsAddress, stringLength, capacity, charsAllocation, hR, hsent, h0, h1, h2, hrec,
    haddr, hcap, hmax, hlen, hlc, hmin, hfz⟩ := hacc
  have hprev : precedingCharIsZero (t._charsImage R).chars stringLength = .ok false := by
    unfold precedingCharIsZero
    split
    · rename_i hpos
      obtain ⟨c, e, hc⟩ := hfz.2 (stringLength - 1) (by omega)
      rw [e]
      simp [hc]
    · rfl
  have hstrlen := strlen_of_FirstZeroAt _ _ hfz
  unfold LongStringAllocationsTagger.CheckEmbeddedStringsAt
  simp only [hR, hsent, hun, h0, h1, h2, hrec, haddr, hfz.1, hprev, hstrlen, if_false, ne_eq,
    not_true_eq_false, if_true]
  rw [if_neg (by omega), if_neg (by omega), if_neg (by omega), if_neg (by omega),
    if_neg (by omega)]

/-- The scan from position `p` on only tags untagged allocations, and every
allocation whose tag it changes was accepted at some position at or after `p` at
which a triple is examined. -/
theorem LongStringAllocationsTagger.CheckEmbeddedStringsLoop_result
    (t : LongStringAllocationsTagger) (image : ContiguousImage) (out : List Nat) :
    ∀ (fuel p : Nat) (th th1 : TagHolder),
      t.CheckEmbeddedStringsLoop image out fuel p th = .ok th1 →
      TagHolder.TagsOnlyUntagged t._tagIndex th th1 ∧
      ∀ R, th1.GetTagIndex R ≠ th.GetTagIndex R →
        ∃ q, p ≤ q ∧ q + 3 < image.offsets.length ∧ t.acceptsAt image out q R := by
  intro fuel
  induction fuel with
  | zero =>
    intro p th th1 h
    simp only [LongStringAllocationsTagger.CheckEmbeddedStringsLoop] at h
    split at h
    · cases h
    · simp only [Except.ok.injEq] at h
      subst h
      exact ⟨TagHolder.TagsOnlyUntagged.refl _ _, fun R hR => absurd rfl hR⟩
  | succ fuel ih =>
    intro p th th1 h
    simp only [LongStringAllocationsTagger.CheckEmbeddedStringsLoop] at h
    split at h
    · rename_i hp
      cases hat : t.CheckEmbeddedStringsAt th image out p with
      | error e => rw [hat] at h; cases h
      | ok r =>
        obtain ⟨committed, th2⟩ := r
        rw [hat] at h
        dsimp only at h
        obtain ⟨hmono, hnew⟩ := ih _ _ _ h
        rcases t.CheckEmbeddedStringsAt_result th image out p committed th2 hat with
          ⟨_, e⟩ | ⟨hc, R, hacc, hun, e⟩
        · subst e
          refine ⟨hmono, ?_⟩
          intro R hR
          obtain ⟨q, hq, hq2, hq3⟩ := hnew R hR
          refine ⟨q, ?_, hq2, hq3⟩
          split at hq <;> omega
        · subst e
          refine ⟨(TagHolder.TagsOnlyUntagged.of_TagAllocation th R _ hun).trans hmono, ?_⟩
          intro R1 hR1
          by_cases hsame : th1.GetTagIndex R1 = (th.TagAllocation R t._tagIndex).GetTagIndex R1
          · have hRR : R1 = R := by
              by_contra hne
              rw [hsame, TagHolder.TagAllocation_get_other th R _ R1 hne] at hR1
              exact hR1 rfl
            subst hRR
            exact ⟨p, le_refl _, hp, hacc⟩
          · obtain ⟨q, hq, hq2, hq3⟩ := hnew R1 hsame
            refine ⟨q, ?_, hq2, hq3⟩
            split at hq <;> omega
    · simp only [Except.ok.injEq] at h
      subst h
      exact ⟨TagHolder.TagsOnlyUntagged.refl _ _, fun R hR => absurd rfl hR⟩

/-- Whatever the image, a result of `TagIfLongStringCharsAnchorPoint` is either the
holder it was given or that holder after the tag write for the allocation. -/
theorem LongStringAllocationsTagger.TagIfLongStringCharsAnchorPoint_result
    (t : LongStringAllocationsTagger) (th th1 : TagHolder) (image : ContiguousImage)
    (index : Nat) (allocation : Allocation)
    (h : t.TagIfLongStringCharsAnchorPoint th image index allocation = .ok th1) :
    th1 = th ∨ th1 = th.TagAllocation index t._tagIndex := by
  have hin : ∀ (h0 : TagHolder) (a b c d : Nat) (anchors : Option (List Nat)),
      t.CheckLongStringAnchorIn h0 index a b c d anchors = (false, h0) ∨
      t.CheckLongStringAnchorIn h0 index a b c d anchors
        = (true, h0.TagAllocation index t._tagIndex) := by
    intro h0 a b c d anchors
    cases anchors with
    | none => exact Or.inl rfl
    | some l =>
      simp only [LongStringAllocationsTagger.CheckLongStringAnchorIn]
      by_cases hex : ∃ x ∈ l, t.anchorAccepted a b c d x
      · exact Or.inr ((t.CheckLongStringAnchorLoop_spec h0 index a b c d l).1 hex)
      · exact Or.inl ((t.CheckLongStringAnchorLoop_spec h0 index a b c d l).2 hex)
  unfold LongStringAllocationsTagger.TagIfLongStringCharsAnchorPoint at h
  dsimp only at h
  split at h
  · simp only [Except.ok.injEq] at h
    exact Or.inl h.symm
  · cases hk : strnlen image.chars allocation.size with
    | error e => rw [hk] at h; cases h
    | ok k =>
      rw [hk] at h
      dsimp only at h
      split at h
      · simp only [Except.ok.injEq] at h
        exact Or.inl h.symm
      · rcases hin th allocation.address k (t.minCapacity index k)
            ((allocation.size + t.offsetModulus - 1) % t.offsetModulus)
            (t._graph.GetStaticAnchors index) with e | e
        · rw [e] at h
          dsimp only at h
          rcases hin th allocation.address k (t.minCapacity index k)
              ((allocation.size + t.offsetModulus - 1) % t.offsetModulus)
              (t._graph.GetStackAnchors index) with e2 | e2
          · rw [e2] at h
            simp only [Except.ok.injEq] at h
            exact Or.inl h.symm
          · rw [e2] at h
            simp only [Except.ok.injEq] at h
            exact Or.inr h.symm
        · rw [e] at h
          simp only [Except.ok.injEq] at h
          exact Or.inr h.symm

/-- C5: every allocation `R` whose tag is changed by `CheckEmbeddedStrings` was
untagged before, now carries the tagger's tag, and was matched at some examined
word position `p` of the container: `unresolvedOutgoing[p]` is `R`, the words at
`p`, `p + 1`, `p + 2` are `charsAddress`, `stringLength`, `capacity`, `R` starts at
`charsAddress`, two pointer-widths `≤ stringLength ≤ capacity`,
`capacity ≤ size(R) - 1` if the size of `R` is not zero,
`capacity + 1 ≥ MinRequestSize(R)`, and the first zero byte of `R` is at
`stringLength`; in particular the byte at `stringLength - 1` is not zero. -/
theorem C5_embedded_tag_is_justified (t : LongStringAllocationsTagger) (th th1 : TagHolder)
    (image : ContiguousImage) (out : List Nat) (R : Nat)
    (h : t.CheckEmbeddedStrings th image out = .ok th1)
    (hnew : th1.GetTagIndex R ≠ th.GetTagIndex R) :
    th.GetTagIndex R = 0 ∧ th1.GetTagIndex R = t._tagIndex ∧
    ∃ p charsAddress stringLength capacity charsAllocation,
      p + 3 < image.offsets.length ∧ out.get? p = some R ∧
      image.offsets.get? p = some charsAddress ∧
      image.offsets.get? (p + 1) = some stringLength ∧
      image.offsets.get? (p + 2) = some capacity ∧
      t._finder.AllocationAt R = some charsAllocation ∧
      charsAllocation.address = charsAddress ∧
      2 * t.sizeofOffset ≤ stringLength ∧ stringLength ≤ capacity ∧
      (charsAllocation.size ≠ 0 → capacity ≤ charsAllocation.size - 1) ∧
      t._finder.MinRequestSize R ≤ capacity + 1 ∧
      FirstZeroAt (t._charsImage R).chars stringLength ∧
      (stringLength ≠ 0 →
        ∃ c, (t._charsImage R).chars.get? (stringLength - 1) = some c ∧ c ≠ 0) := by
  obtain ⟨hmono, hnewAt⟩ := t.CheckEmbeddedStringsLoop_result image out _ _ _ _ h
  obtain ⟨p, _, hp, charsAddress, stringLength, capacity, charsAllocation, hR, _, h0, h1, h2,
    hrec, haddr, _, hmax, hlen, hlc, hmin, hfz⟩ := hnewAt R hnew
  obtain ⟨h00, h01⟩ := hmono.2.2.1 R hnew
  refine ⟨h00, h01, p, charsAddress, stringLength, capacity, charsAllocation, hp, hR, h0, h1, h2,
    hrec, haddr, hlen, hlc, ?_, ?_, hfz, ?_⟩
  · intro hsz
    have e : charsAllocation.size + t.offsetModulus - 1
        = (charsAllocation.size - 1) + t.offsetModulus := by omega
    rw [e, Nat.add_mod_right] at hmax
    exact le_trans hmax (Nat.mod_le _ _)
  · exact le_trans hmin (Nat.mod_le _ _)
  · intro hpos
    exact hfz.2 (stringLength - 1) (by omega)

/-- C5, evaluated: scanning the example container tags allocation 1, matched at
position 0 by the header `(0x2000, 16, 24)`. -/
theorem C5_embedded_tag_is_justified_witness :
    exEmbeddedTagger.CheckEmbeddedStrings exHolder exContainer exOutgoing
      = .ok (exHolder.TagAllocation 1 1) ∧
    (exHolder.TagAllocation 1 1).GetTagIndex 1 = 1 ∧
    ∃ p charsAddress stringLength capacity charsAllocation,
      p + 3 < exContainer.offsets.length ∧ exOutgoing.get? p = some 1 ∧
      exContainer.offsets.get? p = some charsAddress ∧
      exContainer.offsets.get? (p + 1) = some stringLength ∧
      exContainer.offsets.get? (p + 2) = some capacity ∧
      exEmbeddedTagger._finder.AllocationAt 1 = some charsAllocation ∧
      charsAllocation.address = charsAddress ∧
      2 * exEmbeddedTagger.sizeofOffset ≤ stringLength ∧ stringLength ≤ capacity ∧
      (charsAllocation.size ≠ 0 → capacity ≤ charsAllocation.size - 1) ∧
      exEmbeddedTagger._finder.MinRequestSize 1 ≤ capacity + 1 ∧
      FirstZeroAt (exEmbeddedTagger._charsImage 1).chars stringLength ∧
      (stringLength ≠ 0 →
        ∃ c, (exEmbeddedTagger._charsImage 1).chars.get? (stringLength - 1) = some c ∧ c ≠ 0) :=
  ⟨rfl, rfl,
   (C5_embedded_tag_is_justified exEmbeddedTagger exHolder (exHolder.TagAllocation 1 1)
      exContainer exOutgoing 1 rfl (by decide)).2.2⟩

/-- C9: whatever the phase and the input, a call of `TagFromAllocation` or of
`TagFromReferenced` that returns leaves the tag of every already-tagged allocation
as it was; every entry it changes was 0 and becomes the tagger's own tag index;
and every tag write it requests is for an allocation whose current tag index is 0
and asks for the tagger's own tag index. -/
theorem C9_tagged_allocations_keep_their_tag (t : LongStringAllocationsTagger) (th : TagHolder)
    (image : ContiguousImage) (index : Nat) (phase : Phase) (allocation : Allocation)
    (out : List Nat) (r : Bool × TagHolder)
    (h : t.TagFromAllocation th image index phase allocation = .ok r ∨
      t.TagFromReferenced th image phase allocation out = .ok r) :
    (∀ i, th.GetTagIndex i ≠ 0 → r.2.GetTagIndex i = th.GetTagIndex i) ∧
    (∀ i, r.2.GetTagIndex i ≠ th.GetTagIndex i →
      th.GetTagIndex i = 0 ∧ r.2.GetTagIndex i = t._tagIndex) ∧
    ∃ added, r.2.requests = th.requests ++ added ∧
      ∀ q ∈ added, q.current = 0 ∧ q.tagIndex = t._tagIndex := by
  have key : TagHolder.TagsOnlyUntagged t._tagIndex th r.2 := by
    have same : ∀ {b : Bool}, (Except.ok (b, th) : Except Fault (Bool × TagHolder)) = .ok r →
        TagHolder.TagsOnlyUntagged t._tagIndex th r.2 := by
      intro b e
      simp only [Except.ok.injEq] at e
      subst e
      exact TagHolder.TagsOnlyUntagged.refl _ _
    rcases h with h | h
    · unfold LongStringAllocationsTagger.TagFromAllocation at h
      split at h
      · exact same h
      · split at h
        · exact same h
        · rename_i hun
          have hun0 : th.GetTagIndex index = 0 := by simpa using hun
          have viaCheck : ∀ {x : Except Fault (Bool × TagHolder)},
              (match t.TagIfLongStringCharsAnchorPoint th image index allocation with
                | .error e => .error e
                | .ok th1 => .ok (true, th1)) = x → x = .ok r →
              TagHolder.TagsOnlyUntagged t._tagIndex th r.2 := by
            intro x e1 e2
            subst e1
            cases hc : t.TagIfLongStringCharsAnchorPoint th image index allocation with
            | error e => rw [hc] at e2; cases e2
            | ok th1 =>
              rw [hc] at e2
              simp only [Except.ok.injEq] at e2
              subst e2
              rcases t.TagIfLongStringCharsAnchorPoint_result th th1 image index allocation hc
                with e | e
              · subst e
                exact TagHolder.TagsOnlyUntagged.refl _ _
              · subst e
                exact TagHolder.TagsOnlyUntagged.of_TagAllocation th index _ hun0
          unfold LongStringAllocationsTagger.TagAnchorPointLongStringChars at h
          cases phase with
          | QUICK_INITIAL_CHECK =>
            dsimp only at h
            split at h <;> exact same h
          | MEDIUM_CHECK =>
            dsimp only at h
            split at h
            · exact viaCheck rfl h
            · exact same h
          | SLOW_CHECK => exact viaCheck rfl h
          | WEAK_CHECK => exact same h
    · unfold LongStringAllocationsTagger.TagFromReferenced at h
      split at h
      · exact same h
      · unfold LongStringAllocationsTagger.TagFromContainedStrings at h
        cases phase with
        | QUICK_INITIAL_CHECK => exact same h
        | MEDIUM_CHECK => exact same h
        | SLOW_CHECK =>
          dsimp only at h
          cases hc : t.CheckEmbeddedStrings th image out with
          | error e => rw [hc] at h; cases h
          | ok th1 =>
            rw [hc] at h
            simp only [Except.ok.injEq] at h
            subst h
            exact (t.CheckEmbeddedStringsLoop_result image out _ _ _ _ hc).1
        | WEAK_CHECK => exact same h
  exact ⟨key.2.1, key.2.2.1, key.2.2.2⟩

/-- C9, evaluated: the embedded-string scan of the example container in
`SLOW_CHECK`, started with allocation 0 already tagged 7. -/
theorem C9_tagged_allocations_keep_their_tag_witness :
    (∀ i, exTaggedHolder.GetTagIndex i ≠ 0 →
      (exTaggedHolder.TagAllocation 1 1).GetTagIndex i
        = exTaggedHolder.GetTagIndex i) ∧
    (∀ i,
      (exTaggedHolder.TagAllocation 1 1).GetTagIndex i
        ≠ exTaggedHolder.GetTagIndex i →
      exTaggedHolder.GetTagIndex i = 0 ∧
      (exTaggedHolder.TagAllocation 1 1).GetTagIndex i
        = exEmbeddedTagger._tagIndex) ∧
    ∃ added,
      (exTaggedHolder.TagAllocation 1 1).requests
        = exTaggedHolder.requests ++ added ∧
      ∀ q ∈ added, q.current = 0 ∧ q.tagIndex = exEmbeddedTagger._tagIndex :=
  C9_tagged_allocations_keep_their_tag exEmbeddedTagger
    exTaggedHolder exContainer 0 Phase.SLOW_CHECK
    ⟨0x1000, 40, true⟩ exOutgoing
    (true, exTaggedHolder.TagAllocation 1 1)
    (Or.inr rfl)

/-- A view with a zero byte has a C string length, at most the position of that
byte. -/
theorem strlen_of_zero : ∀ (chars : List Nat) (k : Nat), chars.get? k = some 0 →
    ∃ len, strlen chars = .ok len ∧ len ≤ k := by
  intro chars
  induction chars with
  | nil => intro k h; simp at h
  | cons c cs ih =>
    intro k h
    by_cases hc : c = 0
    · exact ⟨0, by simp [strlen, hc], Nat.zero_le _⟩
    · cases k with
      | zero =>
        exfalso
        have : c = 0 := by simpa using h
        exact hc this
      | succ k =>
        obtain ⟨len, e, hl⟩ := ih k (by simpa using h)
        exact ⟨len + 1, by simp [strlen, hc, e], by omega⟩

/-- With a fitting outgoing-reference array, the loop body returns at every
position at which a triple is examined. -/
theorem LongStringAllocationsTagger.CheckEmbeddedStringsAt_returns
    (t : LongStringAllocationsTagger) (th : TagHolder) (image : ContiguousImage)
    (out : List Nat) (p : Nat) (hwf : t.outgoingResolved image out)
    (hp : p + 3 < image.offsets.length) :
    ∃ r, t.CheckEmbeddedStringsAt th image out p = .ok r := by
  obtain ⟨hlen, hres⟩ := hwf
  obtain ⟨R, hR⟩ : ∃ R, out.get? p = some R := by
    have : p < out.length := by omega
    exact ⟨out.get ⟨p, this⟩, List.get?_eq_get this⟩
  obtain ⟨charsAddress, h0⟩ : ∃ x, image.offsets.get? p = some x :=
    ⟨image.offsets.get ⟨p, by omega⟩, List.get?_eq_get _⟩
  obtain ⟨stringLength, h1⟩ : ∃ x, image.offsets.get? (p + 1) = some x :=
    ⟨image.offsets.get ⟨p + 1, by omega⟩, List.get?_eq_get _⟩
  obtain ⟨capacity, h2⟩ : ∃ x, image.offsets.get? (p + 2) = some x :=
    ⟨image.offsets.get ⟨p + 2, by omega⟩, List.get?_eq_get _⟩
  unfold LongStringAllocationsTagger.CheckEmbeddedStringsAt
  rw [hR]
  dsimp only
  by_cases hsent : R = t._numAllocations
  · rw [if_pos hsent]; exact ⟨_, rfl⟩
  rw [if_neg hsent]
  by_cases htagged : th.GetTagIndex R ≠ 0
  · rw [if_pos htagged]; exact ⟨_, rfl⟩
  rw [if_neg htagged, h0, h1, h2]
  dsimp only
  by_cases hcap : capacity < 2 * t.sizeofOffset
  · rw [if_pos hcap]; exact ⟨_, rfl⟩
  rw [if_neg hcap]
  obtain ⟨a, hrec, hsz, himg⟩ := hres R (List.get?_mem hR) hsent
  rw [hrec]
  dsimp only
  by_cases haddr : a.address ≠ charsAddress
  · rw [if_pos haddr]; exact ⟨_, rfl⟩
  rw [if_neg haddr]
  by_cases hmax : capacity > (a.size + t.offsetModulus - 1) % t.offsetModulus
  · rw [if_pos hmax]; exact ⟨_, rfl⟩
  rw [if_neg hmax]
  by_cases hsl : stringLength < 2 * t.sizeofOffset
  · rw [if_pos hsl]; exact ⟨_, rfl⟩
  rw [if_neg hsl]
  by_cases hlc : stringLength > capacity
  · rw [if_pos hlc]; exact ⟨_, rfl⟩
  rw [if_neg hlc]
  have hbound : (a.size + t.offsetModulus - 1) % t.offsetModulus ≤ a.size - 1 := by
    have e : a.size + t.offsetModulus - 1 = (a.size - 1) + t.offsetModulus := by omega
    rw [e, Nat.add_mod_right]
    exact Nat.mod_le _ _
  have hin : stringLength < (t._charsImage R).chars.length := by omega
  obtain ⟨c, hc⟩ : ∃ c, (t._charsImage R).chars.get? stringLength = some c :=
    ⟨(t._charsImage R).chars.get ⟨stringLength, hin⟩, List.get?_eq_get _⟩
  rw [hc]
  dsimp only
  by_cases hzero : c ≠ 0
  · rw [if_pos hzero]; exact ⟨_, rfl⟩
  rw [if_neg hzero]
  have hc0 : (t._charsImage R).chars.get? stringLength = some 0 := by
    rw [hc]
    simpa using hzero
  obtain ⟨b, hprev⟩ : ∃ b, precedingCharIsZero (t._charsImage R).chars stringLength = .ok b := by
    unfold precedingCharIsZero
    split
    · have hin1 : stringLength - 1 < (t._charsImage R).chars.length := by omega
      rw [List.get?_eq_get hin1]
      exact ⟨_, rfl⟩
    · exact ⟨_, rfl⟩
  rw [hprev]
  cases b with
  | true => exact ⟨_, rfl⟩
  | false =>
    dsimp only
    by_cases hmin : (capacity + 1) % t.offsetModulus < t._finder.MinRequestSize R
    · rw [if_pos hmin]; exact ⟨_, rfl⟩
    rw [if_neg hmin]
    obtain ⟨len, hstrlen, _⟩ := strlen_of_zero _ _ hc0
    rw [hstrlen]
    dsimp only
    split <;> exact ⟨_, rfl⟩

/-- With a fitting outgoing-reference array the scan returns, provided the
iteration bound covers the positions that are left. -/
theorem LongStringAllocationsTagger.CheckEmbeddedStringsLoop_returns
    (t : LongStringAllocationsTagger) (image : ContiguousImage) (out : List Nat)
    (hwf : t.outgoingResolved image out) :
    ∀ (fuel p : Nat) (th : TagHolder), image.offsets.length ≤ fuel + p →
      ∃ th1, t.CheckEmbeddedStringsLoop image out fuel p th = .ok th1 := by
  intro fuel
  induction fuel with
  | zero =>
    intro p th hf
    simp only [LongStringAllocationsTagger.CheckEmbeddedStringsLoop]
    rw [if_neg (by omega)]
    exact ⟨_, rfl⟩
  | succ fuel ih =>
    intro p th hf
    simp only [LongStringAllocationsTagger.CheckEmbeddedStringsLoop]
    split
    · rename_i hp
      obtain ⟨r, hr⟩ := t.CheckEmbeddedStringsAt_returns th image out p hwf hp
      obtain ⟨committed, th2⟩ := r
      rw [hr]
      dsimp only
      apply ih
      split <;> omega
    · exact ⟨_, rfl⟩

/-- The 16-byte example allocation has its first zero byte at position 5. -/
theorem exShort_firstZero (w : Nat) : FirstZeroAt ((exShortTagger w)._charsImage 1).chars 5 := by
  refine ⟨rfl, ?_⟩
  intro j hj
  interval_cases j
  · exact ⟨0x68, rfl, by decide⟩
  · exact ⟨0x65, rfl, by decide⟩
  · exact ⟨0x6c, rfl, by decide⟩
  · exact ⟨0x6c, rfl, by decide⟩
  · exact ⟨0x6f, rfl, by decide⟩

/-- C6 (as stated, refuted): for pointer width 4 and for pointer width 8, the
`SLOW_CHECK` of `TagFromReferenced` on a 40-byte container that holds the triple
`(0x2000, 5, 8)` at position 0, referring to the untagged 16-byte allocation at
`0x2000` whose bytes 0..4 are non-zero and whose byte 5 is zero, leaves that
allocation untagged. -/
theorem C6_triple_5_8_is_rejected :
    exOutgoing.get? 0 = some 1 ∧
    (exShortContainer.offsets.get? 0, exShortContainer.offsets.get? 1,
      exShortContainer.offsets.get? 2) = (some 0x2000, some 5, some 8) ∧
    (∀ w, (exShortTagger w)._finder.AllocationAt 1 = some ⟨0x2000, 16, true⟩) ∧
    (∀ w, FirstZeroAt ((exShortTagger w)._charsImage 1).chars 5) ∧
    exHolder.GetTagIndex 1 = 0 ∧
    (exShortTagger 4).TagFromReferenced exHolder exShortContainer Phase.SLOW_CHECK
      ⟨0x1000, 40, true⟩ exOutgoing = .ok (true, exHolder) ∧
    (exShortTagger 8).TagFromReferenced exHolder exShortContainer Phase.SLOW_CHECK
      ⟨0x1000, 40, true⟩ exOutgoing = .ok (true, exHolder) :=
  ⟨rfl, rfl, fun _ => rfl, exShort_firstZero, rfl, rfl, rfl⟩

/-- C6 (amended): for either pointer width, when an enabled tagger runs
`TagFromReferenced` in `SLOW_CHECK`, an untagged allocation whose bytes 0..4 are
non-zero and whose byte 5 is zero is still untagged when the call returns, whatever
triples of the container refer to it, and the call reports finished; and the call
does return when the outgoing-reference array fits the container. -/
theorem C6_short_string_amended (t : LongStringAllocationsTagger) (th : TagHolder)
    (image : ContiguousImage) (allocation : Allocation) (out : List Nat) (R : Nat)
    (hw : t.sizeofOffset = 4 ∨ t.sizeofOffset = 8) (hen : t._enabled = true)
    (hun : th.GetTagIndex R = 0)
    (hfz : FirstZeroAt (t._charsImage R).chars 5) :
    (t.outgoingResolved image out →
      ∃ r, t.TagFromReferenced th image Phase.SLOW_CHECK allocation out = .ok r) ∧
    ∀ r, t.TagFromReferenced th image Phase.SLOW_CHECK allocation out = .ok r →
      r.1 = true ∧ r.2.GetTagIndex R = 0 := by
  have hcall : t.TagFromReferenced th image Phase.SLOW_CHECK allocation out =
      match t.CheckEmbeddedStrings th image out with
      | .error e => .error e
      | .ok th1 => .ok (true, th1) := by
    simp [LongStringAllocationsTagger.TagFromReferenced, hen,
      LongStringAllocationsTagger.TagFromContainedStrings]
  rw [hcall]
  constructor
  · intro hwf
    obtain ⟨th1, h1⟩ := t.CheckEmbeddedStringsLoop_returns image out hwf
      image.offsets.length 0 th (by omega)
    unfold LongStringAllocationsTagger.CheckEmbeddedStrings
    rw [h1]
    exact ⟨_, rfl⟩
  · intro r hr
    cases hc : t.CheckEmbeddedStrings th image out with
    | error e => rw [hc] at hr; cases hr
    | ok th1 =>
      rw [hc] at hr
      simp only [Except.ok.injEq] at hr
      subst hr
      refine ⟨rfl, ?_⟩
      by_contra hne
      obtain ⟨_, hnew⟩ := t.CheckEmbeddedStringsLoop_result image out _ _ _ _ hc
      obtain ⟨q, _, _, _, stringLength, _, _, _, _, _, _, _, _, _, _, _, hlen, _, _, hfz2⟩ :=
        hnew R (by rw [hun]; exact hne)
      have := hfz.unique hfz2
      omega

/-- C6 (amended), evaluated for pointer width 4 on the example container. -/
theorem C6_short_string_amended_witness :
    ((exShortTagger 4).outgoingResolved exShortContainer exOutgoing →
      ∃ r, (exShortTagger 4).TagFromReferenced exHolder exShortContainer Phase.SLOW_CHECK
        ⟨0x1000, 40, true⟩ exOutgoing = .ok r) ∧
    ∀ r, (exShortTagger 4).TagFromReferenced exHolder exShortContainer Phase.SLOW_CHECK
        ⟨0x1000, 40, true⟩ exOutgoing = .ok r →
      r.1 = true ∧ r.2.GetTagIndex 1 = 0 :=
  C6_short_string_amended (exShortTagger 4) exHolder exShortContainer ⟨0x1000, 40, true⟩
    exOutgoing 1 (Or.inl rfl) rfl rfl (exShort_firstZero 4)

/-! ## Theorems: the enablement flag -/

/-- The innermost loop in closed form. -/
theorem scanChecks_eq (m : VirtualAddressMap) : ∀ (l : List Nat) (found_ZN : Bool),
    scanChecks m found_ZN l =
      if l.any (fun check => strncmpEq m check cxx11Pattern) then none
      else some (found_ZN || l.any (fun check => strncmpEq m check znPattern)) := by
  intro l
  induction l with
  | nil =>
    intro f
    simp only [scanChecks, List.any_nil, Bool.or_false, Bool.false_eq_true, if_false]
  | cons c rest ih =>
    intro f
    simp only [scanChecks, List.any_cons]
    cases h1 : strncmpEq m c cxx11Pattern
    · cases h2 : strncmpEq m c znPattern
      · simp only [Bool.false_eq_true, if_false, ih, Bool.false_or]
      · simp only [ih, Bool.false_or, Bool.true_or, Bool.or_true, if_true, Bool.false_eq_true,
          if_false]
    · simp only [if_true, Bool.true_or]

/-- The loop over the ranges of a module in closed form. -/
theorem scanRanges_eq (a : RangeAttributes) (m : VirtualAddressMap) :
    ∀ (l : List ModuleRange) (found_ZN : Bool),
    scanRanges a m found_ZN l =
      if l.any (fun r => a.isCheckable r._value &&
          (checkAddresses r).any (fun check => strncmpEq m check cxx11Pattern)) then none
      else some (found_ZN || l.any (fun r => a.isCheckable r._value &&
          (checkAddresses r).any (fun check => strncmpEq m check znPattern))) := by
  intro l
  induction l with
  | nil =>
    intro f
    simp only [scanRanges, List.any_nil, Bool.or_false, Bool.false_eq_true, if_false]
  | cons r rest ih =>
    intro f
    simp only [scanRanges, List.any_cons]
    cases h1 : a.isCheckable r._value
    · simp only [Bool.false_eq_true, if_false, ih, Bool.false_and, Bool.false_or]
    · simp only [if_true, scanChecks_eq, Bool.true_and]
      cases h2 : (checkAddresses r).any (fun check => strncmpEq m check cxx11Pattern)
      · simp only [Bool.false_eq_true, if_false, ih, Bool.false_or, Bool.or_assoc]
      · simp only [if_true, Bool.true_or]

/-- The loop over the modules in closed form. -/
theorem scanModules_eq (a : RangeAttributes) (m : VirtualAddressMap) :
    ∀ (md : ModuleDirectory) (found_ZN : Bool),
    scanModules a m found_ZN md =
      if md.any (fun entry => entry.2.any (fun r => a.isCheckable r._value &&
          (checkAddresses r).any (fun check => strncmpEq m check cxx11Pattern))) then none
      else some (found_ZN || md.any (fun entry => entry.2.any (fun r => a.isCheckable r._value &&
          (checkAddresses r).any (fun check => strncmpEq m check znPattern)))) := by
  intro md
  induction md with
  | nil =>
    intro f
    simp only [scanModules, List.any_nil, Bool.or_false, Bool.false_eq_true, if_false]
  | cons entry rest ih =>
    intro f
    obtain ⟨name, ranges⟩ := entry
    simp only [scanModules, List.any_cons, scanRanges_eq]
    cases h1 : ranges.any (fun r => a.isCheckable r._value &&
        (checkAddresses r).any (fun check => strncmpEq m check cxx11Pattern))
    · simp only [Bool.false_eq_true, if_false, ih, Bool.false_or, Bool.or_assoc]
    · simp only [if_true, Bool.true_or]

/-- The addresses visited in a range are those at which 27 bytes fit before the
limit. -/
theorem mem_checkAddresses (r : ModuleRange) (a : Nat) :
    a ∈ checkAddresses r ↔ r._base ≤ a ∧ a + 27 ≤ r._limit := by
  unfold checkAddresses
  simp only [List.mem_map, List.mem_range]
  constructor
  · rintro ⟨i, hi, rfl⟩
    omega
  · rintro ⟨h1, h2⟩
    exact ⟨a - r._base, by omega, by omega⟩

/-- The C++11 pattern has 27 bytes. -/
theorem cxx11Pattern_length : cxx11Pattern.length = 27 := by decide

/-- The prefix `_ZN` has 3 bytes. -/
theorem znPattern_length : znPattern.length = 3 := by decide

/-- The flag computed by the constructor, in closed form: enabled unless the
library is present, no visited address of a checkable range shows the C++11
pattern, and some visited address of a checkable range shows `_ZN`. -/
theorem computeEnabled_eq (a : RangeAttributes) (m : VirtualAddressMap) (md : ModuleDirectory) :
    computeEnabled a m md =
      (!(md.any (fun entry => stringContains entry.1 "libstdc++.so.6")) ||
        md.any (fun entry => entry.2.any (fun r => a.isCheckable r._value &&
          (checkAddresses r).any (fun check => strncmpEq m check cxx11Pattern))) ||
        !(md.any (fun entry => entry.2.any (fun r => a.isCheckable r._value &&
          (checkAddresses r).any (fun check => strncmpEq m check znPattern))))) := by
  simp only [computeEnabled, scanModules_eq, Bool.false_or]
  cases md.any (fun entry => stringContains entry.1 "libstdc++.so.6")
  · rfl
  · cases md.any (fun entry => entry.2.any (fun r => a.isCheckable r._value &&
        (checkAddresses r).any (fun check => strncmpEq m check cxx11Pattern)))
    · rfl
    · rfl

/-- C7 (as stated, part iii refuted): the runtime library is present with one
read-only mapped range of 40 bytes that holds `_ZN` at offset 20 and nowhere the
C++11 pattern, yet the constructor leaves the tagger enabled: the scan stops 26
bytes before the end of the range. -/
theorem C7_late_ZN_is_not_seen :
    hasCheckableLibrary (exModules 0x7000 0x7028) ∧
    exAttributes.isCheckable 25 = true ∧
    occursAt exLegacyMap ⟨0x7000, 0x7028, 25⟩ znPattern 0x7014 ∧
    (∀ x, ¬ occursAt exLegacyMap ⟨0x7000, 0x7028, 25⟩ cxx11Pattern x) ∧
    (LongStringAllocationsTagger.construct 8 exAttributes exGraph
      { allocations := [], MinRequestSize := fun _ => 0 } exLegacyMap
      (fun _ => { offsets := [], chars := [] }) exHolder (exModules 0x7000 0x7028)).1._enabled
      = true := by
  refine ⟨⟨_, List.mem_singleton.mpr rfl, by decide⟩, by decide, ⟨by decide, by decide, by decide⟩,
    ?_, ?_⟩
  · rintro x ⟨h1, h2, h3⟩
    rw [cxx11Pattern_length] at h2
    have hl : 0x7000 ≤ x := h1
    have hu : x ≤ 0x700d := by
      have h4 : x + 27 ≤ 0x7028 := h2
      omega
    interval_cases x <;> revert h3 <;> decide
  · show computeEnabled exAttributes exLegacyMap (exModules 0x7000 0x7028) = true
    unfold computeEnabled scanModules exModules scanRanges checkAddresses
    decide

/-- C7 (amended): the enablement flag computed by the constructor satisfies, for
every module directory and image: (i) if no module name contains `libstdc++.so.6`
the tagger is enabled; (ii) if such a module exists and the C++11 pattern lies in
some read-only mapped range, the tagger is enabled, whatever else the ranges hold;
(iii) if such a module exists, `_ZN` occurs in some read-only mapped range at an
address at least 27 bytes before the range's limit, and the C++11 pattern lies in
no read-only mapped range, the tagger is disabled. -/
theorem C7_enablement_amended (sizeofOffset : Nat) (a : RangeAttributes) (graph : Graph)
    (finder : Finder) (m : VirtualAddressMap) (charsImage : Nat → ContiguousImage)
    (tagHolder : TagHolder) (md : ModuleDirectory) :
    (¬ hasCheckableLibrary md →
      (LongStringAllocationsTagger.construct sizeofOffset a graph finder m charsImage tagHolder
        md).1._enabled = true) ∧
    (hasCheckableLibrary md →
      (∃ entry ∈ md, ∃ r ∈ entry.2, a.isCheckable r._value = true ∧
        ∃ x, occursAt m r cxx11Pattern x) →
      (LongStringAllocationsTagger.construct sizeofOffset a graph finder m charsImage tagHolder
        md).1._enabled = true) ∧
    (hasCheckableLibrary md →
      (∃ entry ∈ md, ∃ r ∈ entry.2, a.isCheckable r._value = true ∧
        ∃ x, r._base ≤ x ∧ x + 27 ≤ r._limit ∧ strncmpEq m x znPattern = true) →
      (∀ entry ∈ md, ∀ r ∈ entry.2, a.isCheckable r._value = true →
        ∀ x, ¬ occursAt m r cxx11Pattern x) →
      (LongStringAllocationsTagger.construct sizeofOffset a graph finder m charsImage tagHolder
        md).1._enabled = false) := by
  have hen : (LongStringAllocationsTagger.construct sizeofOffset a graph finder m charsImage
      tagHolder md).1._enabled = computeEnabled a m md := rfl
  rw [hen, computeEnabled_eq]
  refine ⟨?_, ?_, ?_⟩
  · intro hno
    have : md.any (fun entry => stringContains entry.1 "libstdc++.so.6") = false := by
      rw [Bool.eq_false_iff]
      intro h
      rw [List.any_eq_true] at h
      exact hno h
    rw [this]
    rfl
  · rintro _ ⟨entry, he, r, hr, hc, x, hx1, hx2, hx3⟩
    rw [cxx11Pattern_length] at hx2
    have : md.any (fun entry => entry.2.any (fun r => a.isCheckable r._value &&
        (checkAddresses r).any (fun check => strncmpEq m check cxx11Pattern))) = true := by
      rw [List.any_eq_true]
      refine ⟨entry, he, ?_⟩
      rw [List.any_eq_true]
      refine ⟨r, hr, ?_⟩
      rw [Bool.and_eq_true, List.any_eq_true]
      exact ⟨hc, x, (mem_checkAddresses r x).2 ⟨hx1, hx2⟩, hx3⟩
    rw [this]
    simp only [Bool.or_true, Bool.true_or]
  · rintro hlib ⟨entry, he, r, hr, hc, x, hx1, hx2, hx3⟩ hnone
    have h1 : md.any (fun entry => stringContains entry.1 "libstdc++.so.6") = true := by
      rw [List.any_eq_true]
      exact hlib
    have h2 : md.any (fun entry => entry.2.any (fun r => a.isCheckable r._value &&
        (checkAddresses r).any (fun check => strncmpEq m check cxx11Pattern))) = false := by
      rw [Bool.eq_false_iff]
      intro h
      rw [List.any_eq_true] at h
      obtain ⟨entry1, he1, h⟩ := h
      rw [List.any_eq_true] at h
      obtain ⟨r1, hr1, h⟩ := h
      rw [Bool.and_eq_true, List.any_eq_true] at h
      obtain ⟨hc1, y, hy, hy3⟩ := h
      have hy12 := (mem_checkAddresses r1 y).1 hy
      exact hnone entry1 he1 r1 hr1 hc1 y ⟨hy12.1, by rw [cxx11Pattern_length]; exact hy12.2, hy3⟩
    have h3 : md.any (fun entry => entry.2.any (fun r => a.isCheckable r._value &&
        (checkAddresses r).any (fun check => strncmpEq m check znPattern))) = true := by
      rw [List.any_eq_true]
      refine ⟨entry, he, ?_⟩
      rw [List.any_eq_true]
      refine ⟨r, hr, ?_⟩
      rw [Bool.and_eq_true, List.any_eq_true]
      exact ⟨hc, x, (mem_checkAddresses r x).2 ⟨hx1, hx2⟩, hx3⟩
    rw [h1, h2, h3]
    rfl

/-- C7 (amended), evaluated: with a 64-byte range the `_ZN` at offset 20 is at a
visited address, and the tagger is disabled. -/
theorem C7_enablement_amended_witness :
    (LongStringAllocationsTagger.construct 8 exAttributes exGraph
      { allocations := [], MinRequestSize := fun _ => 0 } exLegacyMap
      (fun _ => { offsets := [], chars := [] }) exHolder (exModules 0x7000 0x7040)).1._enabled
      = false :=
  (C7_enablement_amended 8 exAttributes exGraph { allocations := [], MinRequestSize := fun _ => 0 }
    exLegacyMap (fun _ => { offsets := [], chars := [] }) exHolder (exModules 0x7000 0x7040)).2.2
    ⟨_, List.mem_singleton.mpr rfl, by decide⟩
    ⟨_, List.mem_singleton.mpr rfl, ⟨0x7000, 0x7040, 25⟩, List.mem_singleton.mpr rfl, by decide,
      0x7014, by decide, by decide, by decide⟩
    (by
      intro entry he r hr _ x
      rw [exModules, List.mem_singleton] at he
      subst he
      rw [List.mem_singleton] at hr
      subst hr
      rintro ⟨h1, h2, h3⟩
      rw [cxx11Pattern_length] at h2
      have hl : 0x7000 ≤ x := h1
      have hu : x ≤ 0x7025 := by
        have h4 : x + 27 ≤ 0x7040 := h2
        omega
      interval_cases x <;> revert h3 <;> decide)

/-! ## Theorems: ExactIncoming, sequences of calls -/

/-- The qualifying edges from `next` on: the edge `next` itself, if it qualifies,
followed by those from `next + 1` on. -/
theorem ExactIncoming.referrersFrom_step (it : ExactIncoming) (next : Nat)
    (h : next < it._pastIncoming) :
    it.referrersFrom next =
      (if it.qualifies next then [it._graph.GetSourceForIncoming next] else []) ++
        it.referrersFrom (next + 1) := by
  have e : it._pastIncoming - next = (it._pastIncoming - (next + 1)) + 1 := by omega
  unfold ExactIncoming.referrersFrom
  rw [e, List.range'_succ, List.filter_cons]
  split <;> simp

/-- At the end of the range there is no qualifying edge left. -/
theorem ExactIncoming.referrersFrom_past (it : ExactIncoming) :
    it.referrersFrom it._pastIncoming = [] := by
  simp [ExactIncoming.referrersFrom]

/-- The loop of `Next`, run from a cursor inside the range over edges whose sources
all have a record, returns: the sentinel with the cursor at the end if no
qualifying edge is left, otherwise the source of the first qualifying edge with the
cursor just after it. -/
theorem ExactIncoming.NextLoop_complete (it : ExactIncoming) :
    ∀ (fuel next : Nat), next + fuel = it._pastIncoming →
      (∀ e, next ≤ e → e < it._pastIncoming →
        it._directory.AllocationAt (it._graph.GetSourceForIncoming e) ≠ none) →
      (it.referrersFrom next = [] ∧
        it.NextLoop fuel next = some (it._numAllocations, it._pastIncoming)) ∨
      (∃ e, next ≤ e ∧ e < it._pastIncoming ∧
        it.NextLoop fuel next = some (it._graph.GetSourceForIncoming e, e + 1) ∧
        it.referrersFrom next = it._graph.GetSourceForIncoming e :: it.referrersFrom (e + 1)) := by
  intro fuel
  induction fuel with
  | zero =>
    intro next hf _
    have hn : next = it._pastIncoming := by omega
    subst hn
    left
    exact ⟨it.referrersFrom_past, by simp [ExactIncoming.NextLoop]⟩
  | succ fuel ih =>
    intro next hf hvalid
    have hlt : next < it._pastIncoming := by omega
    have hne : ¬ next = it._pastIncoming := by omega
    have skip : it.qualifies next = false →
        it.NextLoop (fuel + 1) next = it.NextLoop fuel (next + 1) →
        (it.referrersFrom next = [] ∧
          it.NextLoop (fuel + 1) next = some (it._numAllocations, it._pastIncoming)) ∨
        (∃ e, next ≤ e ∧ e < it._pastIncoming ∧
          it.NextLoop (fuel + 1) next = some (it._graph.GetSourceForIncoming e, e + 1) ∧
          it.referrersFrom next
            = it._graph.GetSourceForIncoming e :: it.referrersFrom (e + 1)) := by
      intro hq hstep
      have hr : it.referrersFrom next = it.referrersFrom (next + 1) := by
        rw [it.referrersFrom_step next hlt, hq]
        rfl
      rw [hstep, hr]
      rcases ih (next + 1) (by omega) (fun e h1 h2 => hvalid e (by omega) h2) with
        h | ⟨e, h1, h2, h3⟩
      · exact Or.inl h
      · exact Or.inr ⟨e, by omega, h2, h3⟩
    by_cases hT : (it._skipTaintedReferences && it._edgeIsTainted.ForIncoming next) = true
    · apply skip
      · simp [ExactIncoming.qualifies, hT]
      · simp only [ExactIncoming.NextLoop, hne, if_false, hT, if_true]
    have hT1 := Bool.eq_false_iff.mpr hT
    by_cases hF : (it._skipUnfavoredReferences && !it._edgeIsFavored.ForIncoming next) = true
    · apply skip
      · simp [ExactIncoming.qualifies, hF]
      · simp only [ExactIncoming.NextLoop, hne, if_false, hT1, hF, if_true, Bool.false_eq_true]
    have hF1 := Bool.eq_false_iff.mpr hF
    cases hrec : it._directory.AllocationAt (it._graph.GetSourceForIncoming next) with
    | none => exact absurd hrec (hvalid next (le_refl _) hlt)
    | some a =>
      by_cases hm : (a.isUsed && (it._contiguousImage (it._graph.GetSourceForIncoming next)).offsets.any
          (fun nextOffset => it._target == nextOffset)) = true
      · right
        refine ⟨next, le_refl _, hlt, ?_, ?_⟩
        · simp only [ExactIncoming.NextLoop, hne, if_false, hT1, hF1, hrec, hm, if_true,
            Bool.false_eq_true]
        · have hq : it.qualifies next = true := by
            simp only [ExactIncoming.qualifies, hT1, hF1, hrec, hm, Bool.not_false, Bool.and_self]
          rw [it.referrersFrom_step next hlt, hq]
          rfl
      · have hm1 := Bool.eq_false_iff.mpr hm
        apply skip
        · simp only [ExactIncoming.qualifies, hrec, hm1, Bool.and_false]
        · simp only [ExactIncoming.NextLoop, hne, if_false, hT1, hF1, hrec, hm1,
            Bool.false_eq_true]

/-- Successive calls of `Next` on an iterator whose cursor is inside the range and
whose remaining edges have sources with a record: the `k`-th result is the source
of the `k`-th qualifying edge from the cursor on, and the sentinel after the last
one. -/
theorem ExactIncoming.results_eq :
    ∀ (n : Nat) (it : ExactIncoming), it._nextIncoming ≤ it._pastIncoming →
      (∀ e, it._nextIncoming ≤ e → e < it._pastIncoming →
        it._directory.AllocationAt (it._graph.GetSourceForIncoming e) ≠ none) →
      it.results n = some ((List.range n).map
        (fun k => (it.referrersFrom it._nextIncoming).getD k it._numAllocations)) := by
  intro n
  induction n with
  | zero => intro it _ _; rfl
  | succ n ih =>
    intro it hle hvalid
    rw [List.range_succ_eq_map, List.map_cons, List.map_map]
    rcases it.NextLoop_complete (it._pastIncoming - it._nextIncoming) it._nextIncoming
        (by omega) hvalid with ⟨hnil, hloop⟩ | ⟨e, h1, h2, hloop, hcons⟩
    · have hnext : it.Next = some (it._numAllocations,
          { it with _nextIncoming := it._pastIncoming }) := by
        simp only [ExactIncoming.Next, hloop]
      have hrest := ih { it with _nextIncoming := it._pastIncoming } (le_refl _)
        (fun e h1 h2 => by
          have h3 : it._pastIncoming ≤ e := h1
          have h4 : e < it._pastIncoming := h2
          omega)
      simp only [ExactIncoming.results, hnext, hrest, hnil, List.getD_nil]
      have hpast : ({ it with _nextIncoming := it._pastIncoming } : ExactIncoming).referrersFrom
          it._pastIncoming = [] := it.referrersFrom_past
      simp only [hpast, List.getD_nil, Function.comp_def]
    · have hnext : it.Next = some (it._graph.GetSourceForIncoming e,
          { it with _nextIncoming := e + 1 }) := by
        simp only [ExactIncoming.Next, hloop]
      have hrest := ih { it with _nextIncoming := e + 1 }
        (by show e + 1 ≤ it._pastIncoming; omega)
        (fun e1 h3 h4 => hvalid e1 (by have h5 : e + 1 ≤ e1 := h3; omega) h4)
      simp only [ExactIncoming.results, hnext, hrest, hcons, List.getD_cons_zero,
        Function.comp_def, Nat.succ_eq_add_one, List.getD_cons_succ]
      rfl

/-- C20: for an iterator constructed over target `B` with the directory's number of
allocations as sentinel, when the incoming range of `B` is well-formed and every
edge in it has a source with a record, successive calls of `Next` never abort and
return, in increasing edge order and once per edge, exactly the sources of the
edges of the range that pass the tainted/favored filters, whose source is used and
whose source image holds a word equal to the start address of `B`; every call
after the last such edge returns the sentinel. -/
theorem C20_next_enumerates_referrers (directory : Directory) (graph : Graph)
    (contiguousImage : Nat → ContiguousImage) (B : Nat)
    (edgeIsTainted : EdgePredicate) (skipTaintedReferences : Bool)
    (edgeIsFavored : EdgePredicate) (skipUnfavoredReferences : Bool)
    (it0 : ExactIncoming)
    (hmake : ExactIncoming.construct directory graph contiguousImage B
      directory.NumAllocations edgeIsTainted skipTaintedReferences edgeIsFavored
      skipUnfavoredReferences = some it0)
    (hrange : (graph.GetIncoming B).1 ≤ (graph.GetIncoming B).2)
    (hsrc : ∀ e, (graph.GetIncoming B).1 ≤ e → e < (graph.GetIncoming B).2 →
      directory.AllocationAt (graph.GetSourceForIncoming e) ≠ none) :
    it0.referrersFrom (graph.GetIncoming B).1 =
      ((List.range' (graph.GetIncoming B).1
          ((graph.GetIncoming B).2 - (graph.GetIncoming B).1)).filter
        (fun e =>
          !(skipTaintedReferences && edgeIsTainted.ForIncoming e) &&
          !(skipUnfavoredReferences && !edgeIsFavored.ForIncoming e) &&
          match directory.AllocationAt (graph.GetSourceForIncoming e),
            directory.AllocationAt B with
          | some source, some target =>
            source.isUsed && (contiguousImage (graph.GetSourceForIncoming e)).offsets.any
              (fun word => target.address == word)
          | _, _ => false)).map graph.GetSourceForIncoming ∧
    ∀ n, it0.results n = some ((List.range n).map
      (fun k => (it0.referrersFrom (graph.GetIncoming B).1).getD k directory.NumAllocations)) := by
  simp only [ExactIncoming.construct] at hmake
  split at hmake
  · simp at hmake
  · rename_i b hb
    simp only [Option.some.injEq] at hmake
    subst hmake
    constructor
    · simp only [ExactIncoming.referrersFrom]
      congr 1
      apply List.filter_congr
      intro e _
      simp only [ExactIncoming.qualifies, hb]
      cases directory.AllocationAt (graph.GetSourceForIncoming e) <;> rfl
    · intro n
      exact ExactIncoming.results_eq n _ hrange hsrc

/-- C20, evaluated: the iterator over the two edges of the example graph returns
0, then 2, then the sentinel 3. -/
theorem C20_next_enumerates_referrers_witness :
    exTwoIterator.results 4 = some [0, 2, 3, 3] :=
  (C20_next_enumerates_referrers exTwoDirectory exTwoGraph exTwoImages 1 exNever false exNever
    false exTwoIterator rfl (by decide)
    (by
      intro e _ h
      have h2 : e < 2 := h
      interval_cases e <;> decide)).2 4

/-! ## Theorems: the iterator factory -/

/-- With `_skipUnfavoredReferences` clear, the loop of `Next` does not consult the
favored predicate. -/
theorem ExactIncoming.NextLoop_favored (it : ExactIncoming) (f : EdgePredicate)
    (h : it._skipUnfavoredReferences = false) :
    ∀ (fuel next : Nat),
      ({ it with _edgeIsFavored := f } : ExactIncoming).NextLoop fuel next
        = it.NextLoop fuel next := by
  intro fuel
  induction fuel with
  | zero => intro next; rfl
  | succ fuel ih =>
    intro next
    simp only [h] at ih
    simp only [ExactIncoming.NextLoop, h, Bool.false_and, Bool.false_eq_true, if_false, ih]

/-- With `_skipUnfavoredReferences` clear, the results of any number of calls do not
depend on the favored predicate. -/
theorem ExactIncoming.results_favored (f : EdgePredicate) :
    ∀ (n : Nat) (it : ExactIncoming), it._skipUnfavoredReferences = false →
      ({ it with _edgeIsFavored := f } : ExactIncoming).results n = it.results n := by
  intro n
  induction n with
  | zero => intro it _; rfl
  | succ n ih =>
    intro it h
    have hloop := it.NextLoop_favored f h (it._pastIncoming - it._nextIncoming) it._nextIncoming
    simp only [ExactIncoming.results, ExactIncoming.Next]
    rw [hloop]
    cases it.NextLoop (it._pastIncoming - it._nextIncoming) it._nextIncoming with
    | none => rfl
    | some r =>
      obtain ⟨index, next⟩ := r
      have := ih { it with _nextIncoming := next } h
      simp only at this ⊢
      rw [this]

/-- C12: if the target allocation does not support favored references, the outcome
of `Factory::MakeIterator` (the error text, whether an iterator is returned, and
the results of any number of calls of `Next` on it) is the same whatever value a
well-formed `skipUnfavoredReferences` switch yields and whatever the favored edge
predicate is. -/
theorem C12_unsupported_favored_is_ignored (context : Context) (processImage : ProcessImage)
    (directory : Directory) (b1 b2 : Bool) (f1 f2 : EdgePredicate) (n : Nat)
    (hns : ∀ address, context.ParsePositional 2 = some address →
      processImage.SupportsFavoredReferences (directory.AllocationIndexOf address) = false) :
    (ExactIncoming.Factory.MakeIterator (context.withSwitch "skipUnfavoredReferences" b1)
        { processImage with GetEdgeIsFavored := f1 } directory).map
      (fun r => (r.1.map (fun it => it.results n), r.2)) =
    (ExactIncoming.Factory.MakeIterator (context.withSwitch "skipUnfavoredReferences" b2)
        { processImage with GetEdgeIsFavored := f2 } directory).map
      (fun r => (r.1.map (fun it => it.results n), r.2)) := by
  have hname : ¬ ("skipTaintedReferences" = "skipUnfavoredReferences") := by decide
  simp only [ExactIncoming.Factory.MakeIterator, Context.withSwitch, Context.GetNumPositionals,
    Context.Positional, hname, if_false, if_true]
  split
  · rfl
  · cases hp : context.ParsePositional 2 with
    | none => rfl
    | some address =>
      simp only [hns address hp, Bool.not_false, if_true]
      split
      · rfl
      · cases processImage.GetAllocationGraph with
        | none => rfl
        | some graph =>
          simp only
          cases context.ParseBooleanSwitch "skipTaintedReferences" with
          | none => rfl
          | some skipTainted =>
            simp only [ExactIncoming.construct]
            cases directory.AllocationAt (directory.AllocationIndexOf address) with
            | none => rfl
            | some allocation =>
              simp only [Option.map_some', Option.some.injEq, Prod.mk.injEq, and_true]
              have e1 := ExactIncoming.results_favored f1 n
                { _directory := directory
                  _contiguousImage := processImage.contiguousImage
                  _graph := graph
                  _index := directory.AllocationIndexOf address
                  _numAllocations := directory.NumAllocations
                  _edgeIsTainted := processImage.GetEdgeIsTainted
                  _skipTaintedReferences := skipTainted
                  _edgeIsFavored := f2
                  _skipUnfavoredReferences := false
                  _nextIncoming := (graph.GetIncoming (directory.AllocationIndexOf address)).1
                  _pastIncoming := (graph.GetIncoming (directory.AllocationIndexOf address)).2
                  _target := allocation.address } rfl
              exact e1

/-- C12, evaluated: on the two-edge example the switch value and the favored
predicate make no difference to the first three results `0, 2, 3`. -/
theorem C12_unsupported_favored_is_ignored_witness :
    (ExactIncoming.Factory.MakeIterator (exContext.withSwitch "skipUnfavoredReferences" false)
        (exProcessImage exAlways) exTwoDirectory).map
      (fun r => (r.1.map (fun it => it.results 3), r.2)) = some (some (some [0, 2, 3]), "") ∧
    (ExactIncoming.Factory.MakeIterator (exContext.withSwitch "skipUnfavoredReferences" false)
        { exProcessImage exAlways with GetEdgeIsFavored := exAlways } exTwoDirectory).map
      (fun r => (r.1.map (fun it => it.results 3), r.2)) =
    (ExactIncoming.Factory.MakeIterator (exContext.withSwitch "skipUnfavoredReferences" true)
        { exProcessImage exAlways with GetEdgeIsFavored := exNever } exTwoDirectory).map
      (fun r => (r.1.map (fun it => it.results 3), r.2)) :=
  ⟨by decide,
   C12_unsupported_favored_is_ignored exContext (exProcessImage exAlways) exTwoDirectory false
    true exAlways exNever 3 (fun _ _ => rfl)⟩

/-- A text followed by a non-empty text is not empty. -/
theorem append_ne_empty (a b : String) (h : 0 < b.length) : a ++ b ≠ "" := by
  intro e
  have := congrArg String.length e
  rw [String.length_append] at this
  have h0 : "".length = 0 := rfl
  omega

/-- C13: `Factory::MakeIterator` returns the null pointer and writes its message
when fewer than three positionals are given, when positional 2 does not parse as
an address, when the address lies in no allocation, and when the allocation graph
is unavailable; so in each of these cases it returns no iterator and a non-empty
error text. -/
theorem C13_configuration_errors (context : Context) (processImage : ProcessImage)
    (directory : Directory) :
    (context.GetNumPositionals < 3 →
      ExactIncoming.Factory.MakeIterator context processImage directory
        = some (none, "No address was specified for the target allocation.\n")) ∧
    (3 ≤ context.GetNumPositionals → context.ParsePositional 2 = none →
      ExactIncoming.Factory.MakeIterator context processImage directory
        = some (none, context.Positional 2 ++ " is not a valid address.\n")) ∧
    (3 ≤ context.GetNumPositionals → ∀ address, context.ParsePositional 2 = some address →
      directory.AllocationIndexOf address = directory.NumAllocations →
      ExactIncoming.Factory.MakeIterator context processImage directory
        = some (none, context.Positional 2 ++ " is not part of an allocation.\n")) ∧
    (3 ≤ context.GetNumPositionals → ∀ address, context.ParsePositional 2 = some address →
      directory.AllocationIndexOf address ≠ directory.NumAllocations →
      processImage.GetAllocationGraph = none →
      ExactIncoming.Factory.MakeIterator context processImage directory
        = some (none, "Allocation graph is not available.\n")) ∧
    ((context.GetNumPositionals < 3 ∨ context.ParsePositional 2 = none ∨
        (∃ address, context.ParsePositional 2 = some address ∧
          directory.AllocationIndexOf address = directory.NumAllocations) ∨
        processImage.GetAllocationGraph = none) →
      ∃ message, message ≠ "" ∧
        ExactIncoming.Factory.MakeIterator context processImage directory
          = some (none, message)) := by
  have c1 : context.GetNumPositionals < 3 →
      ExactIncoming.Factory.MakeIterator context processImage directory
        = some (none, "No address was specified for the target allocation.\n") := by
    intro h
    simp only [ExactIncoming.Factory.MakeIterator, h, if_true]
  have c2 : 3 ≤ context.GetNumPositionals → context.ParsePositional 2 = none →
      ExactIncoming.Factory.MakeIterator context processImage directory
        = some (none, context.Positional 2 ++ " is not a valid address.\n") := by
    intro h hp
    have h1 : ¬ context.GetNumPositionals < 3 := by omega
    simp only [ExactIncoming.Factory.MakeIterator, h1, if_false, hp]
  have c3 : 3 ≤ context.GetNumPositionals → ∀ address,
      context.ParsePositional 2 = some address →
      directory.AllocationIndexOf address = directory.NumAllocations →
      ExactIncoming.Factory.MakeIterator context processImage directory
        = some (none, context.Positional 2 ++ " is not part of an allocation.\n") := by
    intro h address hp hi
    have h1 : ¬ context.GetNumPositionals < 3 := by omega
    simp only [ExactIncoming.Factory.MakeIterator, h1, if_false, hp, hi, if_true]
  have c4 : 3 ≤ context.GetNumPositionals → ∀ address,
      context.ParsePositional 2 = some address →
      directory.AllocationIndexOf address ≠ directory.NumAllocations →
      processImage.GetAllocationGraph = none →
      ExactIncoming.Factory.MakeIterator context processImage directory
        = some (none, "Allocation graph is not available.\n") := by
    intro h address hp hi hg
    have h1 : ¬ context.GetNumPositionals < 3 := by omega
    simp only [ExactIncoming.Factory.MakeIterator, h1, if_false, hp, hi, hg]
  refine ⟨c1, c2, c3, c4, ?_⟩
  intro _
  by_cases h : context.GetNumPositionals < 3
  · exact ⟨_, by decide, c1 h⟩
  · have h3 : 3 ≤ context.GetNumPositionals := by omega
    cases hp : context.ParsePositional 2 with
    | none => exact ⟨_, append_ne_empty _ _ (by decide), c2 h3 hp⟩
    | some address =>
      by_cases hi : directory.AllocationIndexOf address = directory.NumAllocations
      · exact ⟨_, append_ne_empty _ _ (by decide), c3 h3 address hp hi⟩
      · cases hg : processImage.GetAllocationGraph with
        | none => exact ⟨_, by decide, c4 h3 address hp hi hg⟩
        | some g =>
          rename_i hcase
          exfalso
          rcases hcase with h5 | h5 | ⟨a, h5, h6⟩ | h5
          · exact h h5
          · rw [hp] at h5
            cases h5
          · rw [hp] at h5
            cases h5
            exact hi h6
          · rw [hg] at h5
            cases h5

/-- C13, evaluated: without the address on the command line no iterator is
returned and the message says so. -/
theorem C13_configuration_errors_witness :
    ExactIncoming.Factory.MakeIterator exShortContext (exProcessImage exNever) exTwoDirectory
      = some (none, "No address was specified for the target allocation.\n") :=
  (C13_configuration_errors exShortContext (exProcessImage exNever) exTwoDirectory).1
    (by decide)

/-! ## Theorems: phases, read faults and the scanned modules -/

/-- C15: in phase `QUICK_INITIAL_CHECK` both hooks return with the tag holder
unchanged; with the tagger enabled, `TagFromAllocation` on an untagged allocation
reports finished exactly when the size is below two pointer-widths, and
`TagFromReferenced` reports finished exactly when the size is below four
pointer-widths. -/
theorem C15_quick_check (t : LongStringAllocationsTagger) (th : TagHolder)
    (image : ContiguousImage) (index : Nat) (allocation : Allocation) (out : List Nat) :
    (∃ finished, t.TagFromAllocation th image index Phase.QUICK_INITIAL_CHECK allocation
      = .ok (finished, th)) ∧
    (∃ finished, t.TagFromReferenced th image Phase.QUICK_INITIAL_CHECK allocation out
      = .ok (finished, th)) ∧
    (t._enabled = true → th.GetTagIndex index = 0 →
      t.TagFromAllocation th image index Phase.QUICK_INITIAL_CHECK allocation
        = .ok (decide (allocation.size < 2 * t.sizeofOffset), th)) ∧
    (t._enabled = true →
      t.TagFromReferenced th image Phase.QUICK_INITIAL_CHECK allocation out
        = .ok (decide (allocation.size < 4 * t.sizeofOffset), th)) := by
  have h1 : t._enabled = true → th.GetTagIndex index = 0 →
      t.TagFromAllocation th image index Phase.QUICK_INITIAL_CHECK allocation
        = .ok (decide (allocation.size < 2 * t.sizeofOffset), th) := by
    intro hb hun
    simp only [LongStringAllocationsTagger.TagFromAllocation, hb, hun, Bool.not_true,
      Bool.false_eq_true, if_false, ne_eq, not_true_eq_false,
      LongStringAllocationsTagger.TagAnchorPointLongStringChars]
    split <;> simp [*]
  have h2 : t._enabled = true →
      t.TagFromReferenced th image Phase.QUICK_INITIAL_CHECK allocation out
        = .ok (decide (allocation.size < 4 * t.sizeofOffset), th) := by
    intro hen
    simp only [LongStringAllocationsTagger.TagFromReferenced, hen, Bool.not_true,
      Bool.false_eq_true, if_false, LongStringAllocationsTagger.TagFromContainedStrings]
  refine ⟨?_, ?_, h1, h2⟩
  · cases hen : t._enabled with
    | false => exact ⟨true, by simp [LongStringAllocationsTagger.TagFromAllocation, hen]⟩
    | true =>
      by_cases hun : th.GetTagIndex index = 0
      · exact ⟨_, h1 hen hun⟩
      · exact ⟨true, by simp [LongStringAllocationsTagger.TagFromAllocation, hen, hun]⟩
  · cases hen : t._enabled with
    | false => exact ⟨true, by simp [LongStringAllocationsTagger.TagFromReferenced, hen]⟩
    | true => exact ⟨_, h2 hen⟩

/-- C15, evaluated on the 40-byte anchor example: neither hook is finished in the
quick check, since 40 is not below 16 or 32. -/
theorem C15_quick_check_witness :
    (exAnchorTagger 40 39).TagFromAllocation exHolder (exChars 40) 0 Phase.QUICK_INITIAL_CHECK
        ⟨0x1000, 40, true⟩ = .ok (false, exHolder) ∧
    (exAnchorTagger 40 39).TagFromReferenced exHolder (exChars 40) Phase.QUICK_INITIAL_CHECK
        ⟨0x1000, 40, true⟩ exOutgoing = .ok (false, exHolder) :=
  ⟨(C15_quick_check (exAnchorTagger 40 39) exHolder (exChars 40) 0 ⟨0x1000, 40, true⟩
      exOutgoing).2.2.1 rfl rfl,
   (C15_quick_check (exAnchorTagger 40 39) exHolder (exChars 40) 0 ⟨0x1000, 40, true⟩
      exOutgoing).2.2.2 rfl⟩

/-- Whatever the image, when `TagIfLongStringCharsAnchorPoint` changes the tag of
the allocation, some static or stack anchor passed the three tests for the string
length found by `strnlen`. -/
theorem LongStringAllocationsTagger.TagIfLongStringCharsAnchorPoint_changed
    (t : LongStringAllocationsTagger) (th th1 : TagHolder) (image : ContiguousImage)
    (index : Nat) (allocation : Allocation)
    (h : t.TagIfLongStringCharsAnchorPoint th image index allocation = .ok th1)
    (hne : th1.GetTagIndex index ≠ th.GetTagIndex index) :
    ∃ k, strnlen image.chars allocation.size = .ok k ∧
      ∃ x ∈ t.anchorsOf index,
        t.anchorAccepted allocation.address k (t.minCapacity index k)
          ((allocation.size + t.offsetModulus - 1) % t.offsetModulus) x := by
  have hin : ∀ (a b c d : Nat) (anchors : Option (List Nat)),
      t.CheckLongStringAnchorIn th index a b c d anchors = (false, th) ∨
      (∃ x ∈ anchors.getD [], t.anchorAccepted a b c d x) := by
    intro a b c d anchors
    cases anchors with
    | none => exact Or.inl rfl
    | some l =>
      simp only [LongStringAllocationsTagger.CheckLongStringAnchorIn, Option.getD_some]
      by_cases hex : ∃ x ∈ l, t.anchorAccepted a b c d x
      · exact Or.inr hex
      · exact Or.inl ((t.CheckLongStringAnchorLoop_spec th index a b c d l).2 hex)
  have same : ∀ {P : Prop}, (Except.ok th : Except Fault TagHolder) = .ok th1 → P := by
    intro P e
    simp only [Except.ok.injEq] at e
    subst e
    exact absurd rfl hne
  unfold LongStringAllocationsTagger.TagIfLongStringCharsAnchorPoint at h
  dsimp only at h
  split at h
  · exact same h
  · cases hk : strnlen image.chars allocation.size with
    | error e => rw [hk] at h; cases h
    | ok k =>
      rw [hk] at h
      dsimp only at h
      split at h
      · exact same h
      · refine ⟨k, rfl, ?_⟩
        rcases hin allocation.address k (t.minCapacity index k)
            ((allocation.size + t.offsetModulus - 1) % t.offsetModulus)
            (t._graph.GetStaticAnchors index) with e | ⟨x, hx, hacc⟩
        · rw [e] at h
          dsimp only at h
          rcases hin allocation.address k (t.minCapacity index k)
              ((allocation.size + t.offsetModulus - 1) % t.offsetModulus)
              (t._graph.GetStackAnchors index) with e2 | ⟨x, hx, hacc⟩
          · rw [e2] at h
            exact same h
          · exact ⟨x, by simp [LongStringAllocationsTagger.anchorsOf, hx], hacc⟩
        · exact ⟨x, by simp [LongStringAllocationsTagger.anchorsOf, hx], hacc⟩

/-- C14 (the code at the failing input): the allocation at `0x1000` holds an empty
string (its first byte is zero, so the string length is 0); at its only anchor
`0x5000` the read of the length word at `0x5008` faults and yields the default 0,
while the address word and the capacity word read as `0x1000` and `30`; the anchor
is accepted and the allocation is tagged. -/
theorem C14_fault_default_aliases_empty_string :
    exHoleTagger._graph.GetStaticAnchors 0 = some [0x5000] ∧
    exHoleTagger._addressMap.faultsAt 0x5008 ∧
    exHoleTagger.anchorWords 0x5000 = (0x1000, 0, 30) ∧
    strnlen exZeroChars.chars 40 = .ok 0 ∧
    exHolder.GetTagIndex 0 = 0 ∧
    ∃ th1, exHoleTagger.TagFromAllocation exHolder exZeroChars 0 Phase.SLOW_CHECK
        ⟨0x1000, 40, true⟩ = .ok (true, th1) ∧
      th1.GetTagIndex 0 = exHoleTagger._tagIndex ∧ exHoleTagger._tagIndex = 1 :=
  ⟨rfl, rfl, rfl, rfl, rfl, _, rfl, rfl, rfl⟩

/-- Which read faults the anchor-point check does turn away: with a pointer width
of at least one byte, an anchor that passes the three tests has a capacity word
that was really read; its address word was really read unless the allocation
starts at `0xbad`, and its length word was really read unless the string length
is 0.  Hence when `TagIfLongStringCharsAnchorPoint` changes the tag of the
allocation, it does so on account of such an anchor. -/
theorem LongStringAllocationsTagger.accepted_anchor_reads (t : LongStringAllocationsTagger) (th : TagHolder)
    (image : ContiguousImage) (index : Nat) (allocation : Allocation)
    (hw : 0 < t.sizeofOffset) :
    (∀ x stringLength maxCapacity,
      t.anchorAccepted allocation.address stringLength (t.minCapacity index stringLength)
        maxCapacity x →
      ¬ t._addressMap.faultsAt ((x + 2 * t.sizeofOffset) % t.offsetModulus) ∧
      (t._addressMap.faultsAt x → allocation.address = 0xbad) ∧
      (t._addressMap.faultsAt ((x + t.sizeofOffset) % t.offsetModulus) → stringLength = 0)) ∧
    (∀ th1, t.TagIfLongStringCharsAnchorPoint th image index allocation = .ok th1 →
      th1.GetTagIndex index ≠ th.GetTagIndex index →
      ∃ x ∈ t.anchorsOf index, ∃ stringLength,
        strnlen image.chars allocation.size = .ok stringLength ∧
        ¬ t._addressMap.faultsAt ((x + 2 * t.sizeofOffset) % t.offsetModulus) ∧
        (t._addressMap.faultsAt x → allocation.address = 0xbad) ∧
        (t._addressMap.faultsAt ((x + t.sizeofOffset) % t.offsetModulus) →
          stringLength = 0)) := by
  have hA : ∀ x stringLength maxCapacity,
      t.anchorAccepted allocation.address stringLength (t.minCapacity index stringLength)
        maxCapacity x →
      ¬ t._addressMap.faultsAt ((x + 2 * t.sizeofOffset) % t.offsetModulus) ∧
      (t._addressMap.faultsAt x → allocation.address = 0xbad) ∧
      (t._addressMap.faultsAt ((x + t.sizeofOffset) % t.offsetModulus) → stringLength = 0) := by
    intro x stringLength maxCapacity hacc
    have hfloor : 0 < t.minCapacity index stringLength := by
      simp only [LongStringAllocationsTagger.minCapacity]
      split <;> split <;> omega
    simp only [LongStringAllocationsTagger.anchorAccepted,
      LongStringAllocationsTagger.anchorWords, VirtualAddressMap.ReadOffset] at hacc
    obtain ⟨h0, h1, h2, _⟩ := hacc
    simp only [VirtualAddressMap.faultsAt]
    refine ⟨?_, ?_, ?_⟩
    · intro hf
      rw [hf] at h2
      simp only [Option.getD_none] at h2
      omega
    · intro hf
      rw [hf] at h0
      exact h0.symm
    · intro hf
      rw [hf] at h1
      exact h1.symm
  refine ⟨hA, ?_⟩
  intro th1 h hne
  obtain ⟨k, hk, x, hx, hacc⟩ :=
    t.TagIfLongStringCharsAnchorPoint_changed th th1 image index allocation h hne
  exact ⟨x, hx, k, hk, hA x k _ hacc⟩

/-- At the anchor of the 40-byte example, which passes the three tests with the
words `(0x1000, 12, 39)`, none of the three reads faults. -/
theorem LongStringAllocationsTagger.accepted_anchor_reads_example :
    ¬ (exAnchorTagger 40 39)._addressMap.faultsAt ((0x5000 + 2 * 8) % 2 ^ 64) ∧
    ((exAnchorTagger 40 39)._addressMap.faultsAt 0x5000 → 0x1000 = 0xbad) ∧
    ((exAnchorTagger 40 39)._addressMap.faultsAt ((0x5000 + 8) % 2 ^ 64) → 12 = 0) :=
  (LongStringAllocationsTagger.accepted_anchor_reads (exAnchorTagger 40 39) exHolder (exChars 40) 0 ⟨0x1000, 40, true⟩
    (by decide)).1 0x5000 12 39 ⟨rfl, rfl, by decide, by decide⟩

/-- The flag computed by the constructor, in terms of the presence of the library
and of the read-only mapped ranges of all modules. -/
theorem computeEnabled_eq_ranges (a : RangeAttributes) (m : VirtualAddressMap)
    (md : ModuleDirectory) :
    computeEnabled a m md =
      (!(md.any (fun entry => stringContains entry.1 "libstdc++.so.6")) ||
        (checkableRanges a md).any
          (fun r => (checkAddresses r).any (fun check => strncmpEq m check cxx11Pattern)) ||
        !((checkableRanges a md).any
          (fun r => (checkAddresses r).any (fun check => strncmpEq m check znPattern)))) := by
  have key : ∀ P : ModuleRange → Bool,
      md.any (fun entry => entry.2.any (fun r => a.isCheckable r._value && P r))
        = (checkableRanges a md).any P := by
    intro P
    simp only [checkableRanges, List.any_filter, List.any_flatten]
    induction md with
    | nil => rfl
    | cons entry rest ih => simp only [List.map_cons, List.any_cons, ih]
  rw [computeEnabled_eq, key, key]

/-- C16 (as stated, refuted): two module directories hold the same runtime-library
module (one read-only mapped range without any symbol) and differ only in the
ranges of the application module `/bin/app`; with no range there the tagger is
enabled, with a read-only mapped range that holds `_ZN` the tagger is disabled. -/
theorem C16_other_modules_are_scanned :
    stringContains "/bin/app" "libstdc++.so.6" = false ∧
    (exTwoModules []).head? = (exTwoModules [⟨0x7000, 0x7040, 25⟩]).head? ∧
    hasCheckableLibrary (exTwoModules []) ∧
    (LongStringAllocationsTagger.construct 8 exAttributes exGraph
      { allocations := [], MinRequestSize := fun _ => 0 } exLegacyMap
      (fun _ => { offsets := [], chars := [] }) exHolder (exTwoModules [])).1._enabled = true ∧
    (LongStringAllocationsTagger.construct 8 exAttributes exGraph
      { allocations := [], MinRequestSize := fun _ => 0 } exLegacyMap
      (fun _ => { offsets := [], chars := [] }) exHolder
      (exTwoModules [⟨0x7000, 0x7040, 25⟩])).1._enabled = false := by
  refine ⟨by decide, rfl, ⟨_, List.mem_cons_self _ _, by decide⟩, ?_, ?_⟩
  · show computeEnabled exAttributes exLegacyMap (exTwoModules []) = true
    rw [computeEnabled_eq]
    unfold checkAddresses
    decide
  · show computeEnabled exAttributes exLegacyMap (exTwoModules [⟨0x7000, 0x7040, 25⟩]) = false
    rw [computeEnabled_eq]
    unfold checkAddresses
    decide

/-- C16 (amended): the enablement flag computed by the constructor depends only on
whether some module name matches the runtime library and on the read-only mapped
ranges of all modules, matching or not: two module directories that agree on both
give the same outcome for the same image. -/
theorem C16_scan_covers_all_modules_amended (sizeofOffset : Nat) (a : RangeAttributes)
    (graph : Graph) (finder : Finder) (m : VirtualAddressMap)
    (charsImage : Nat → ContiguousImage) (tagHolder : TagHolder) (md1 md2 : ModuleDirectory)
    (hlib : hasCheckableLibrary md1 ↔ hasCheckableLibrary md2)
    (hranges : checkableRanges a md1 = checkableRanges a md2) :
    (LongStringAllocationsTagger.construct sizeofOffset a graph finder m charsImage tagHolder
      md1).1._enabled =
    (LongStringAllocationsTagger.construct sizeofOffset a graph finder m charsImage tagHolder
      md2).1._enabled := by
  show computeEnabled a m md1 = computeEnabled a m md2
  have hany : md1.any (fun entry => stringContains entry.1 "libstdc++.so.6")
      = md2.any (fun entry => stringContains entry.1 "libstdc++.so.6") := by
    rw [Bool.eq_iff_iff, List.any_eq_true, List.any_eq_true]
    exact hlib
  rw [computeEnabled_eq_ranges, computeEnabled_eq_ranges, hany, hranges]

/-- C16 (amended), evaluated: renaming the application module and giving it an
extra range that is not read-only mapped (flags 27, writable) leaves the outcome as
it is. -/
theorem C16_scan_covers_all_modules_amended_witness :
    (LongStringAllocationsTagger.construct 8 exAttributes exGraph
      { allocations := [], MinRequestSize := fun _ => 0 } exLegacyMap
      (fun _ => { offsets := [], chars := [] }) exHolder
      (exTwoModules [⟨0x7000, 0x7040, 25⟩])).1._enabled =
    (LongStringAllocationsTagger.construct 8 exAttributes exGraph
      { allocations := [], MinRequestSize := fun _ => 0 } exLegacyMap
      (fun _ => { offsets := [], chars := [] }) exHolder
      [("/usr/lib/libstdc++.so.6", [⟨0x9000, 0x9040, 25⟩]),
       ("/bin/other", [⟨0x6000, 0x6040, 27⟩, ⟨0x7000, 0x7040, 25⟩])]).1._enabled :=
  C16_scan_covers_all_modules_amended 8 exAttributes exGraph
    { allocations := [], MinRequestSize := fun _ => 0 } exLegacyMap
    (fun _ => { offsets := [], chars := [] }) exHolder (exTwoModules [⟨0x7000, 0x7040, 25⟩])
    [("/usr/lib/libstdc++.so.6", [⟨0x9000, 0x9040, 25⟩]),
     ("/bin/other", [⟨0x6000, 0x6040, 27⟩, ⟨0x7000, 0x7040, 25⟩])]
    ⟨fun _ => ⟨_, List.mem_cons_self _ _, by decide⟩,
     fun _ => ⟨_, List.mem_cons_self _ _, by decide⟩⟩
    (by decide)

/-! ## Theorems: the positions examined by the embedded-string scan -/

/-- The result of the scan loop does not depend on the iteration bound, as long as
the bound covers the words that are left. -/
theorem LongStringAllocationsTagger.CheckEmbeddedStringsLoop_fuel
    (t : LongStringAllocationsTagger) (image : ContiguousImage) (out : List Nat) :
    ∀ (f1 f2 p : Nat) (th : TagHolder),
      image.offsets.length ≤ f1 + p → image.offsets.length ≤ f2 + p →
      t.CheckEmbeddedStringsLoop image out f1 p th
        = t.CheckEmbeddedStringsLoop image out f2 p th := by
  intro f1
  induction f1 with
  | zero =>
    intro f2 p th h1 _
    have hp : ¬ p + 3 < image.offsets.length := by omega
    cases f2 <;> simp only [LongStringAllocationsTagger.CheckEmbeddedStringsLoop, hp, if_false]
  | succ f1 ih =>
    intro f2 p th h1 h2
    by_cases hp : p + 3 < image.offsets.length
    · cases f2 with
      | zero => omega
      | succ f2 =>
        simp only [LongStringAllocationsTagger.CheckEmbeddedStringsLoop, hp, if_true]
        cases t.CheckEmbeddedStringsAt th image out p with
        | error e => rfl
        | ok r =>
          obtain ⟨committed, th2⟩ := r
          dsimp only
          apply ih
          · split <;> omega
          · split <;> omega
    · cases f2 <;> simp only [LongStringAllocationsTagger.CheckEmbeddedStringsLoop, hp, if_false]

/-- One more iteration moves the scan forward: the state after `k + 1` iterations
comes from a state after `k` iterations whose position is not greater, and is
smaller if a triple was examined there. -/
theorem LongStringAllocationsTagger.scanStateAfter_succ
    (t : LongStringAllocationsTagger) (th0 : TagHolder) (image : ContiguousImage)
    (out : List Nat) (k q1 : Nat) (th1 : TagHolder)
    (h : t.scanStateAfter th0 image out (k + 1) = .ok (q1, th1)) :
    ∃ q th, t.scanStateAfter th0 image out k = .ok (q, th) ∧ q ≤ q1 ∧
      (q + 3 < image.offsets.length → q < q1) := by
  simp only [LongStringAllocationsTagger.scanStateAfter] at h
  cases hk : t.scanStateAfter th0 image out k with
  | error e => rw [hk] at h; cases h
  | ok r =>
    obtain ⟨q, th⟩ := r
    rw [hk] at h
    dsimp only at h
    refine ⟨q, th, rfl, ?_⟩
    by_cases hq : q + 3 < image.offsets.length
    · rw [if_pos hq] at h
      cases hat : t.CheckEmbeddedStringsAt th image out q with
      | error e => rw [hat] at h; cases h
      | ok r2 =>
        obtain ⟨committed, th2⟩ := r2
        rw [hat] at h
        simp only [Except.ok.injEq, Prod.mk.injEq] at h
        obtain ⟨h1, _⟩ := h
        constructor
        · split at h1 <;> omega
        · intro _
          split at h1 <;> omega
    · rw [if_neg hq] at h
      simp only [Except.ok.injEq, Prod.mk.injEq] at h
      exact ⟨by omega, fun h3 => absurd h3 hq⟩

/-- Positions along the scan never decrease, and increase after an iteration that
examined a triple. -/
theorem LongStringAllocationsTagger.scanStateAfter_mono
    (t : LongStringAllocationsTagger) (th0 : TagHolder) (image : ContiguousImage)
    (out : List Nat) (i q : Nat) (th : TagHolder)
    (hi : t.scanStateAfter th0 image out i = .ok (q, th)) :
    ∀ (d q1 : Nat) (th1 : TagHolder),
      t.scanStateAfter th0 image out (i + d) = .ok (q1, th1) →
      q ≤ q1 ∧ (0 < d → q + 3 < image.offsets.length → q < q1) := by
  intro d
  induction d with
  | zero =>
    intro q1 th1 h
    rw [Nat.add_zero, hi] at h
    simp only [Except.ok.injEq, Prod.mk.injEq] at h
    exact ⟨by omega, fun h0 => absurd h0 (by omega)⟩
  | succ d ih =>
    intro q1 th1 h
    obtain ⟨q2, th2, h2, hle, hlt⟩ :=
      t.scanStateAfter_succ th0 image out (i + d) q1 th1 h
    obtain ⟨hle2, hlt2⟩ := ih q2 th2 h2
    refine ⟨by omega, ?_⟩
    intro _ hq
    by_cases hd : 0 < d
    · have := hlt2 hd hq
      omega
    · have hd0 : d = 0 := by omega
      subst hd0
      rw [Nat.add_zero, hi] at h2
      simp only [Except.ok.injEq, Prod.mk.injEq] at h2
      have := hlt (by omega)
      omega

/-- From any state of the scan, the loop run from that state gives the result of
the whole scan. -/
theorem LongStringAllocationsTagger.scanStateAfter_loop
    (t : LongStringAllocationsTagger) (th0 : TagHolder) (image : ContiguousImage)
    (out : List Nat) :
    ∀ (k p : Nat) (thp : TagHolder),
      t.scanStateAfter th0 image out k = .ok (p, thp) →
      t.CheckEmbeddedStringsLoop image out image.offsets.length p thp
        = t.CheckEmbeddedStrings th0 image out := by
  intro k
  induction k with
  | zero =>
    intro p thp h
    simp only [LongStringAllocationsTagger.scanStateAfter, Except.ok.injEq, Prod.mk.injEq] at h
    obtain ⟨h1, h2⟩ := h
    subst h1
    subst h2
    rfl
  | succ k ih =>
    intro p thp h
    simp only [LongStringAllocationsTagger.scanStateAfter] at h
    cases hk : t.scanStateAfter th0 image out k with
    | error e => rw [hk] at h; cases h
    | ok r =>
      obtain ⟨q, th⟩ := r
      rw [hk] at h
      dsimp only at h
      rw [← ih q th hk]
      by_cases hq : q + 3 < image.offsets.length
      · rw [if_pos hq] at h
        cases hat : t.CheckEmbeddedStringsAt th image out q with
        | error e => rw [hat] at h; cases h
        | ok r2 =>
          obtain ⟨committed, th2⟩ := r2
          rw [hat] at h
          simp only [Except.ok.injEq, Prod.mk.injEq] at h
          obtain ⟨h1, h2⟩ := h
          subst h2
          rw [t.CheckEmbeddedStringsLoop_fuel image out image.offsets.length
            (image.offsets.length + 1) q th (by omega) (by omega)]
          simp only [LongStringAllocationsTagger.CheckEmbeddedStringsLoop, hq, if_true, hat]
          rw [h1]
      · rw [if_neg hq] at h
        simp only [Except.ok.injEq, Prod.mk.injEq] at h
        obtain ⟨h1, h2⟩ := h
        subst h1
        subst h2
        rfl

/-- C18 (as stated, refuted): in a container of five words the string header
`(0x2000, 16, 24)` at word position 2 = 5 - 3 passes every acceptance test for the
untagged allocation 1, and no earlier position commits a tag; yet the `SLOW_CHECK`
of `TagFromReferenced` leaves the tag holder unchanged: the scan examines the
positions 0 and 1 only. -/
theorem C18_last_triple_is_not_examined :
    exLastContainer.offsets.length = 5 ∧
    exEmbeddedTagger.acceptsAt exLastContainer exLastOutgoing 2 1 ∧
    exHolder.GetTagIndex 1 = 0 ∧
    exEmbeddedTagger.scanStateAfter exHolder exLastContainer exLastOutgoing 2
      = .ok (2, exHolder) ∧
    exEmbeddedTagger.TagFromReferenced exHolder exLastContainer Phase.SLOW_CHECK
      ⟨0x1000, 40, true⟩ exLastOutgoing = .ok (true, exHolder) := by
  refine ⟨rfl, ?_, rfl, rfl, rfl⟩
  refine ⟨0x2000, 16, 24, ⟨0x2000, 32, true⟩, rfl, by decide, rfl, rfl, rfl, rfl, rfl,
    by decide, by decide, by decide, by decide, by decide, rfl, ?_⟩
  intro j hj
  refine ⟨0x61, ?_, by decide⟩
  interval_cases j <;> rfl

/-- C18 (amended): for an enabled tagger, if the scan examines word position `p`
(so `p + 4 ≤ n`, and `p` is not skipped because of an earlier commit), the triple
at `p` passes every acceptance test for allocation `R`, and `R` is untagged at that
moment, then the `SLOW_CHECK` of `TagFromReferenced`, when it returns, reports
finished and leaves `R` with the tagger's tag; and it does return when the
outgoing-reference array fits the container.  Position 0 is always examined when
the container has at least four words. -/
theorem C18_examined_triple_is_tagged_amended (t : LongStringAllocationsTagger)
    (th0 thp : TagHolder) (image : ContiguousImage) (allocation : Allocation)
    (out : List Nat) (p R : Nat) (hen : t._enabled = true)
    (hex : t.examines th0 image out p thp)
    (hacc : t.acceptsAt image out p R) (hun : thp.GetTagIndex R = 0) :
    p + 4 ≤ image.offsets.length ∧
    (4 ≤ image.offsets.length → t.examines th0 image out 0 th0) ∧
    (t.outgoingResolved image out →
      ∃ r, t.TagFromReferenced th0 image Phase.SLOW_CHECK allocation out = .ok r) ∧
    ∀ r, t.TagFromReferenced th0 image Phase.SLOW_CHECK allocation out = .ok r →
      r.1 = true ∧ r.2.GetTagIndex R = t._tagIndex := by
  obtain ⟨hp, k, hk⟩ := hex
  have hcall : t.TagFromReferenced th0 image Phase.SLOW_CHECK allocation out =
      match t.CheckEmbeddedStrings th0 image out with
      | .error e => .error e
      | .ok th1 => .ok (true, th1) := by
    simp [LongStringAllocationsTagger.TagFromReferenced, hen,
      LongStringAllocationsTagger.TagFromContainedStrings]
  rw [hcall]
  refine ⟨by omega, fun h4 => ⟨by omega, 0, rfl⟩, ?_, ?_⟩
  · intro hwf
    obtain ⟨th1, h1⟩ := t.CheckEmbeddedStringsLoop_returns image out hwf
      image.offsets.length 0 th0 (by omega)
    unfold LongStringAllocationsTagger.CheckEmbeddedStrings
    rw [h1]
    exact ⟨_, rfl⟩
  · intro r hr
    cases hc : t.CheckEmbeddedStrings th0 image out with
    | error e => rw [hc] at hr; cases hr
    | ok thf =>
      rw [hc] at hr
      simp only [Except.ok.injEq] at hr
      subst hr
      refine ⟨rfl, ?_⟩
      have hloop := t.scanStateAfter_loop th0 image out k p thp hk
      rw [hc, t.CheckEmbeddedStringsLoop_fuel image out image.offsets.length
        (image.offsets.length + 1) p thp (by omega) (by omega)] at hloop
      simp only [LongStringAllocationsTagger.CheckEmbeddedStringsLoop, hp, if_true,
        t.CheckEmbeddedStringsAt_accept thp image out p R hacc hun] at hloop
      obtain ⟨hmono, _⟩ := t.CheckEmbeddedStringsLoop_result image out _ _ _ _ hloop
      have htag := TagHolder.TagAllocation_get thp R t._tagIndex hun
      by_cases hsame : thf.GetTagIndex R = (thp.TagAllocation R t._tagIndex).GetTagIndex R
      · rw [hsame, htag]
      · exact (hmono.2.2.1 R hsame).2

/-- C18 (amended), evaluated: the header at word 0 of the example container is
examined, and allocation 1 is tagged. -/
theorem C18_examined_triple_is_tagged_amended_witness :
    0 + 4 ≤ exContainer.offsets.length ∧
    (4 ≤ exContainer.offsets.length →
      exEmbeddedTagger.examines exHolder exContainer exOutgoing 0 exHolder) ∧
    (exEmbeddedTagger.outgoingResolved exContainer exOutgoing →
      ∃ r, exEmbeddedTagger.TagFromReferenced exHolder exContainer Phase.SLOW_CHECK
        ⟨0x1000, 40, true⟩ exOutgoing = .ok r) ∧
    ∀ r, exEmbeddedTagger.TagFromReferenced exHolder exContainer Phase.SLOW_CHECK
        ⟨0x1000, 40, true⟩ exOutgoing = .ok r →
      r.1 = true ∧ r.2.GetTagIndex 1 = exEmbeddedTagger._tagIndex :=
  C18_examined_triple_is_tagged_amended exEmbeddedTagger exHolder exHolder exContainer
    ⟨0x1000, 40, true⟩ exOutgoing 0 1 rfl ⟨by decide, 0, rfl⟩
    ⟨0x2000, 16, 24, ⟨0x2000, 32, true⟩, rfl, by decide, rfl, rfl, rfl, rfl, rfl,
      by decide, by decide, by decide, by decide, by decide, rfl,
      fun j hj => ⟨0x61, by interval_cases j <;> rfl, by decide⟩⟩
    rfl

/-- C19 (as stated, refuted): in the eight-word example container the header at
word 0 is committed for allocation 1.  The header `(0x3000, 16, 24)` at word 3
passes every acceptance test for the untagged allocation 2, and the loop body run
at word 3, or the loop resumed at word 3, would tag allocation 2; yet the scan
ends with allocation 2 untagged: after the commit at word 0 the loop resumes at
word 4, not at word 3. -/
theorem C19_word_after_triple_is_skipped :
    exPairTagger.CheckEmbeddedStringsAt exHolder exPairContainer exPairOutgoing 0
      = .ok (true, exHolder.TagAllocation 1 1) ∧
    exPairTagger.acceptsAt exPairContainer exPairOutgoing 3 2 ∧
    exPairTagger.CheckEmbeddedStringsAt (exHolder.TagAllocation 1 1) exPairContainer
      exPairOutgoing 3 = .ok (true, (exHolder.TagAllocation 1 1).TagAllocation 2 1) ∧
    exPairTagger.CheckEmbeddedStringsLoop exPairContainer exPairOutgoing 8 3
      (exHolder.TagAllocation 1 1) = .ok ((exHolder.TagAllocation 1 1).TagAllocation 2 1) ∧
    ((exHolder.TagAllocation 1 1).TagAllocation 2 1).GetTagIndex 2 = 1 ∧
    exPairTagger.CheckEmbeddedStringsLoop exPairContainer exPairOutgoing 8 4
      (exHolder.TagAllocation 1 1) = .ok (exHolder.TagAllocation 1 1) ∧
    exPairTagger.CheckEmbeddedStrings exHolder exPairContainer exPairOutgoing
      = .ok (exHolder.TagAllocation 1 1) ∧
    (exHolder.TagAllocation 1 1).GetTagIndex 1 = 1 ∧
    (exHolder.TagAllocation 1 1).GetTagIndex 2 = 0 := by
  refine ⟨rfl, ?_, rfl, rfl, rfl, rfl, rfl, rfl, rfl⟩
  refine ⟨0x3000, 16, 24, ⟨0x3000, 32, true⟩, rfl, by decide, rfl, rfl, rfl, rfl, rfl,
    by decide, by decide, by decide, by decide, by decide, rfl, ?_⟩
  intro j hj
  refine ⟨0x61, ?_, by decide⟩
  interval_cases j <;> rfl

/-- C19 (amended): in `CheckEmbeddedStrings`, when the loop body commits a tag for
the triple starting at word position `p`, the loop resumes at position `p + 4` with
the tag holder of the commit: if the loop condition fails there (`p + 4 + 3 < n`
is false) the scan ends with that holder, and otherwise the next run of the loop
body is the one at `p + 4`, whose outcome decides how the scan goes on.  So when
the scan examines `p` and commits there, the rest of the scan is the loop from
`p + 4`, the position `p + 4` is the next one examined, and the positions `p + 1`,
`p + 2` and `p + 3` are not examined. -/
theorem C19_commit_skips_four_words_amended (t : LongStringAllocationsTagger)
    (th0 thp thp1 : TagHolder) (image : ContiguousImage) (out : List Nat) (p : Nat)
    (hp : p + 3 < image.offsets.length)
    (hcommit : t.CheckEmbeddedStringsAt thp image out p = .ok (true, thp1)) :
    (∀ fuel, t.CheckEmbeddedStringsLoop image out (fuel + 1) p thp
      = t.CheckEmbeddedStringsLoop image out fuel (p + 4) thp1) ∧
    (¬ p + 4 + 3 < image.offsets.length →
      ∀ fuel, t.CheckEmbeddedStringsLoop image out (fuel + 1) p thp = .ok thp1) ∧
    (p + 4 + 3 < image.offsets.length →
      (∀ e, t.CheckEmbeddedStringsAt thp1 image out (p + 4) = .error e →
        ∀ fuel, t.CheckEmbeddedStringsLoop image out (fuel + 2) p thp = .error e) ∧
      (∀ committed th2, t.CheckEmbeddedStringsAt thp1 image out (p + 4)
          = .ok (committed, th2) →
        ∀ fuel, t.CheckEmbeddedStringsLoop image out (fuel + 2) p thp
          = t.CheckEmbeddedStringsLoop image out fuel
              (if committed then p + 4 + 4 else p + 4 + 1) th2)) ∧
    (t.examines th0 image out p thp →
      t.CheckEmbeddedStrings th0 image out
        = t.CheckEmbeddedStringsLoop image out image.offsets.length (p + 4) thp1 ∧
      (p + 4 + 3 < image.offsets.length → t.examines th0 image out (p + 4) thp1) ∧
      ∀ q thq, t.examines th0 image out q thq → q ≤ p ∨ p + 4 ≤ q) := by
  have hstep : ∀ fuel, t.CheckEmbeddedStringsLoop image out (fuel + 1) p thp
      = t.CheckEmbeddedStringsLoop image out fuel (p + 4) thp1 := by
    intro fuel
    simp only [LongStringAllocationsTagger.CheckEmbeddedStringsLoop, hp, if_true, hcommit]
  refine ⟨hstep, ?_, ?_, ?_⟩
  · intro hnot fuel
    rw [hstep fuel]
    cases fuel <;>
      simp only [LongStringAllocationsTagger.CheckEmbeddedStringsLoop, hnot, if_false]
  · intro hfit
    constructor
    · intro e hat fuel
      rw [hstep (fuel + 1)]
      simp only [LongStringAllocationsTagger.CheckEmbeddedStringsLoop, hfit, if_true, hat]
    · intro committed th2 hat fuel
      rw [hstep (fuel + 1)]
      simp only [LongStringAllocationsTagger.CheckEmbeddedStringsLoop, hfit, if_true, hat]
  · rintro ⟨_, k, hstate⟩
    have hnext : t.scanStateAfter th0 image out (k + 1) = .ok (p + 4, thp1) := by
      simp only [LongStringAllocationsTagger.scanStateAfter, hstate, hp, if_true, hcommit]
    refine ⟨?_, fun h => ⟨h, k + 1, hnext⟩, ?_⟩
    · rw [← t.scanStateAfter_loop th0 image out k p thp hstate,
        t.CheckEmbeddedStringsLoop_fuel image out image.offsets.length
          (image.offsets.length + 1) p thp (by omega) (by omega)]
      exact hstep _
    · rintro q thq ⟨_, j, hj⟩
      by_cases hjk : j ≤ k
      · left
        obtain ⟨d, rfl⟩ : ∃ d, k = j + d := ⟨k - j, by omega⟩
        exact (t.scanStateAfter_mono th0 image out j q thq hj d p thp hstate).1
      · right
        obtain ⟨d, rfl⟩ : ∃ d, j = (k + 1) + d := ⟨j - (k + 1), by omega⟩
        exact (t.scanStateAfter_mono th0 image out (k + 1) (p + 4) thp1 hnext d q thq hj).1

/-- C19 (amended), evaluated: after the commit at word 0 of the eight-word example
the loop resumes at word 4, where the body is run and commits nothing, and the rest
of the scan is the loop from word 4. -/
theorem C19_commit_skips_four_words_amended_witness :
    0 + 3 < exPairContainer.offsets.length ∧
    exPairTagger.CheckEmbeddedStringsAt exHolder exPairContainer exPairOutgoing 0
      = .ok (true, exHolder.TagAllocation 1 1) ∧
    (∀ fuel, exPairTagger.CheckEmbeddedStringsLoop exPairContainer exPairOutgoing (fuel + 1) 0
        exHolder
      = exPairTagger.CheckEmbeddedStringsLoop exPairContainer exPairOutgoing fuel (0 + 4)
        (exHolder.TagAllocation 1 1)) ∧
    exPairTagger.CheckEmbeddedStrings exHolder exPairContainer exPairOutgoing
      = exPairTagger.CheckEmbeddedStringsLoop exPairContainer exPairOutgoing
        exPairContainer.offsets.length (0 + 4) (exHolder.TagAllocation 1 1) :=
  have h := C19_commit_skips_four_words_amended exPairTagger exHolder exHolder
    (exHolder.TagAllocation 1 1) exPairContainer exPairOutgoing 0 (by decide) rfl
  ⟨by decide, rfl, h.1, (h.2.2.2 ⟨by decide, 0, rfl⟩).1⟩

end chap
